import Mathlib

/-!
SHDR adapter core of cppagent: token mapper, entity properties and connector

A shallow embedding of

* `src/source/shdr_token_mapper.cpp` (namespace `mtconnect.source`),
* `src/entity/entity.hpp` (namespace `mtconnect.entity`),
* `src/adapter/connector.cpp` (namespace `mtconnect.adapter`),

and a model of the tokenizer `adapter/shdr_tokenizer.hpp`, whose header is not among
the sources, after the rules of the specification and the tables of
`test/shdr_parser_test.cpp` (namespace `mtconnect.adapter.ShdrTokenizer`),
followed by theorems about the embedded functions.

Conventions.  A `std::string` is a list of characters (`Str`); `size_t` values are
natural numbers with explicit reduction modulo `2 ^ 64` where the source relies on
wrap-around; an iterator into the token list is the list of the tokens that remain.
-/

namespace mtconnect

/-! ## Strings and `size_t` -/

/-- A `std::string`, as the list of its characters. -/
abbrev Str := List Char

/-- The modulus of `size_t` arithmetic. -/
def sizeMod : Nat := 2 ^ 64

/-- The constant `std::string::npos`, the largest `size_t`. -/
def npos : Nat := sizeMod - 1

/-- Addition of `size_t` values, as in `c + 1`. -/
def sizeAdd (a b : Nat) : Nat := (a + b) % sizeMod

/-- Subtraction of `size_t` values, as in `c - 1`: it wraps around below zero. -/
def sizeSub (a b : Nat) : Nat := (a + sizeMod - b % sizeMod) % sizeMod

/-- Offset of the first character satisfying `p`, when there is one. -/
def findIf (p : Char → Bool) : Str → Option Nat
  | [] => none
  | c :: cs => if p c then some 0 else (findIf p cs).map (· + 1)

/-- The call `s.find(ch)`: position of the first `ch`, or `npos`. -/
def find (s : Str) (ch : Char) : Nat :=
  (findIf (fun c => c == ch) s).getD npos

/-- The call `s.find_first_of(chars, pos)`: position of the first character at or
after `pos` that occurs in `chars`, or `npos`. -/
def find_first_of (s : Str) (chars : Str) (pos : Nat) : Nat :=
  match findIf (fun c => chars.contains c) (s.drop pos) with
  | some i => pos + i
  | none => npos

/-- Offset of the last character satisfying `p`, when there is one. -/
def findLastIf (p : Char → Bool) : Str → Option Nat
  | [] => none
  | c :: cs =>
    match findLastIf p cs with
    | some i => some (i + 1)
    | none => if p c then some 0 else none

/-- The call `s.find_last_not_of(chars)`: position of the last character that does
not occur in `chars`, or `npos`. -/
def find_last_not_of (s : Str) (chars : Str) : Nat :=
  (findLastIf (fun c => !chars.contains c) s).getD npos

/-- The call `s.substr(pos, n)`: the characters from `pos` on, at most `n` of them.
The library raises `out_of_range` when `pos > s.size()`; every call in the embedded
sources has `pos ≤ s.size()` (the position comes from a successful search in `s`,
or is `0` or `1` on a non-empty string), where the result is as given here. -/
def substr (s : Str) (pos : Nat) (n : Nat) : Str :=
  (s.drop pos).take (min n (s.length - pos))

/-- The call `s.erase(pos)`: keep the first `pos` characters. -/
def erase (s : Str) (pos : Nat) : Str := s.take pos

/-- The function `toupper` of the C locale on one character. -/
def toupper (c : Char) : Char := c.toUpper

/-- The four-iterator `std::equal` with a binary predicate: the two ranges have the
same length and the predicate holds position by position. -/
def equal (p : Char → Char → Bool) : Str → Str → Bool
  | [], [] => true
  | a :: as, b :: bs => p a b && equal p as bs
  | _, _ => false

/-- The function `isspace` of the C locale. -/
def isspace (c : Char) : Bool :=
  c == ' ' || c == '\t' || c == '\n' || c == '\x0b' || c == '\x0c' || c == '\r'

/-- Whether the character is a decimal digit. -/
def isdigit (c : Char) : Bool := '0' ≤ c && c ≤ '9'

/-- Numeric value of a decimal digit character. -/
def digitVal (c : Char) : Nat := c.toNat - '0'.toNat

/-- Upper-case every character of the string, as the source's `upcase` does in place. -/
def upcase (s : Str) : Str := s.map toupper

/-! ## Entities (`entity/entity.hpp`) -/

namespace entity

/-- The value types a requirement can declare.  The enumerators `INTEGER`, `DOUBLE`,
`VECTOR` and `DATA_SET` are named in `shdr_token_mapper.cpp`.
Modelled from the spec: the declaration of the enumeration (`requirement.hpp`) is
missing; `STRING` is the type of a requirement built without a type, after the spec's
list "string / int / double / vector of doubles / data-set". -/
inductive ValueType
  | STRING
  | INTEGER
  | DOUBLE
  | VECTOR
  | DATA_SET
  deriving DecidableEq, Repr

/-- A requirement: the name of a field, its declared type and whether it is required.
The two-argument form `{name, required}` of the source has type `STRING`. -/
structure Requirement where
  m_name : Str
  m_type : ValueType
  m_required : Bool
  deriving DecidableEq, Repr

/-- The name of the field. -/
def Requirement.getName (r : Requirement) : Str := r.m_name

/-- An ordered list of requirements. -/
abbrev Requirements := List Requirement

/-- A decimal number `mantissa * 10 ^ exponent`, standing for the `double` nearest
to it. -/
structure Decimal where
  mantissa : Int
  exponent : Int
  deriving DecidableEq, Repr

/-- A point in time, in microseconds since the epoch. -/
abbrev Timestamp := Nat

/-- The tagged union of property values.
Modelled from the spec: the declaration of `Value` is missing; the alternatives are
those of the spec's data model ("string, integer, double, vector-of-double,
data-set") with `monostate` for the absent value (`entity.hpp`) and the time stamp
stored by the asset branch.  A data-set keeps the text of each entry. -/
inductive Value
  | monostate
  | string (s : Str)
  | integer (i : Int)
  | double (d : Decimal)
  | vector (v : List Decimal)
  | dataSet (entries : List (Str × Str))
  | timestamp (t : Timestamp)
  deriving DecidableEq, Repr

/-- The map `Properties` (`std::map<std::string, Value>`), as an association list
with at most one entry per key. -/
abbrev Properties := List (Str × Value)

/-- The call `props.find(key)`, giving the value stored under the key. -/
def Properties.find (props : Properties) (key : Str) : Option Value :=
  match props with
  | [] => none
  | (k, v) :: rest => if k = key then some v else Properties.find rest key

/-- The call `props.insert_or_assign(key, v)`. -/
def Properties.insert_or_assign (props : Properties) (key : Str) (v : Value) : Properties :=
  match props with
  | [] => [(key, v)]
  | (k, w) :: rest =>
    if k = key then (k, v) :: rest else (k, w) :: Properties.insert_or_assign rest key v

/-- The call `props.erase(key)`. -/
def Properties.erase (props : Properties) (key : Str) : Properties :=
  match props with
  | [] => []
  | (k, w) :: rest => if k = key then Properties.erase rest key else (k, w) :: Properties.erase rest key

/-- The class `Entity`: a name and its properties.  The member `m_timestamp` is that of
the derived classes that carry a time stamp (`AssetCommand`), absent otherwise. -/
structure Entity where
  m_name : Str
  m_properties : Properties
  m_timestamp : Option Timestamp
  deriving DecidableEq, Repr

namespace Entity

/-- The accessor `getName`. -/
def getName (e : Entity) : Str := e.m_name

/-- The accessor `getProperties`. -/
def getProperties (e : Entity) : Properties := e.m_properties

/-- The method `getProperty`: the stored value, or `monostate` when the key is absent. -/
def getProperty (e : Entity) (n : Str) : Value :=
  match e.m_properties.find n with
  | none => Value.monostate
  | some v => v

/-- The method `setProperty`. -/
def setProperty (e : Entity) (key : Str) (v : Value) : Entity :=
  { e with m_properties := e.m_properties.insert_or_assign key v }

/-- The method `hasProperty`. -/
def hasProperty (e : Entity) (n : Str) : Bool := (e.m_properties.find n).isSome

/-- The method `setName`. -/
def setName (e : Entity) (name : Str) : Entity := { e with m_name := name }

/-- The method `getValue`. -/
def getValue (e : Entity) : Value := e.getProperty "VALUE".toList

/-- The method `setValue`. -/
def setValue (e : Entity) (v : Value) : Entity := e.setProperty "VALUE".toList v

/-- The method `erase` by name. -/
def erase (e : Entity) (name : Str) : Entity :=
  { e with m_properties := e.m_properties.erase name }

end Entity

/-- A list of entities. -/
abbrev EntityList := List Entity

/-- An exception of the entity layer: a plain `EntityError`, or a `PropertyError`.
Modelled from the spec: the class declarations are missing; `PropertyError` is a kind
of `EntityError`, so the handler for `EntityError` in the mapping loop catches both
(the spec's "UnresolvedRequirements: mapper, error log"). -/
inductive EntityError
  | plain (what : Str)
  | property (what : Str)
  deriving DecidableEq, Repr

/-- The message of the exception. -/
def EntityError.what : EntityError → Str
  | .plain w => w
  | .property w => w

/-- The list of errors collected while an entity is built. -/
abbrev ErrorList := List EntityError

end entity

/-! ## The token mapper (`source/shdr_token_mapper.cpp`) -/

namespace source

open entity

/-- A device of the device model, with the name used in log messages. -/
structure Device where
  m_name : Str
  deriving DecidableEq, Repr

/-- The name of the device. -/
def Device.getName (d : Device) : Str := d.m_name

/-- A data item of the device model.
Modelled from the spec: the class `DataItem` is missing; it is the record of the
category and sub-type predicates that the mapper queries. -/
structure DataItem where
  m_id : Str
  isSample : Bool
  isEvent : Bool
  isCondition : Bool
  isTimeSeries : Bool
  is3D : Bool
  isMessage : Bool
  isAlarm : Bool
  isDataSet : Bool
  isTable : Bool
  isAssetChanged : Bool
  isAssetRemoved : Bool
  hasResetTrigger : Bool
  deriving DecidableEq, Repr

/-- The list of tokens of a frame. -/
abbrev TokenList := List Str

/-- Severity of a log entry. -/
inductive Level
  | LTRACE
  | LWARN
  | LERROR
  deriving DecidableEq, Repr

/-- One entry written to `g_logger`. -/
structure LogEntry where
  level : Level
  text : Str
  deriving DecidableEq, Repr

/-- What a call of `Requirement::convertType` does with a value: it converts it and
returns `true`, returns `false`, or raises a `PropertyError`. -/
inductive Conversion
  | converted (v : Value)
  | notConverted
  | raised (e : EntityError)
  deriving DecidableEq, Repr

/-- The collaborators of the mapper, whose code is outside the embedded sources: the
two lookups held by the mapper (`m_getDevice`, `m_getDataItem`), the conversion of a
value to the declared type of a requirement (`Requirement::convertType`, with the
flag `isTable`), the observation factory (`Observation::make`, which gives the
observation, possibly none, and the errors it reports) and the asset parser
(`XmlParser::parse` on the asset root, the body and version "1.7"). -/
structure Collaborators where
  m_getDevice : Str → Device
  m_getDataItem : Device → Str → Option DataItem
  convertType : Requirement → Bool → Value → Conversion
  make : DataItem → Properties → Timestamp → Option Entity × ErrorList
  parse : Str → Option Entity × ErrorList

/-- The mutable state around the mapper: the member `m_logOnce` and the entries
written to `g_logger` so far, oldest first. -/
structure ShdrTokenMapper where
  m_logOnce : List Str
  g_logger : List LogEntry
  deriving DecidableEq, Repr

/-- Append one entry to the log. -/
def ShdrTokenMapper.log (m : ShdrTokenMapper) (level : Level) (text : Str) : ShdrTokenMapper :=
  { m with g_logger := m.g_logger ++ [⟨level, text⟩] }

/-- How a call ends: it returns a value, it raises an exception, or it dereferences
the end iterator of the token list (or a null pointer), which is undefined. -/
inductive Outcome (α : Type)
  | returned (a : α)
  | thrown (e : EntityError)
  | undefined
  deriving DecidableEq, Repr

/-- The function `unavailable`. -/
def unavailable (str : Str) : Bool :=
  equal (fun a b => toupper a == b) str "UNAVAILABLE".toList

/-- The function `splitKey`: the data-item key and the optional device prefix. -/
def splitKey (key : Str) : Str × Option Str :=
  let c := find key ':'
  if c != npos then
    (substr key (sizeAdd c 1) npos, some (substr key 0 (sizeSub c 1)))
  else
    (key, none)

/-- The requirement list `s_condition`. -/
def s_condition : Requirements :=
  [⟨"level".toList, .STRING, true⟩, ⟨"nativeCode".toList, .STRING, false⟩,
   ⟨"nativeSeverity".toList, .STRING, false⟩, ⟨"qualifier".toList, .STRING, false⟩,
   ⟨"VALUE".toList, .STRING, false⟩]

/-- The requirement list `s_alarm`. -/
def s_alarm : Requirements :=
  [⟨"code".toList, .STRING, true⟩, ⟨"nativeCode".toList, .STRING, false⟩,
   ⟨"severity".toList, .STRING, false⟩, ⟨"state".toList, .STRING, true⟩,
   ⟨"VALUE".toList, .STRING, false⟩]

/-- The requirement list `s_timeseries`. -/
def s_timeseries : Requirements :=
  [⟨"sampleCount".toList, .INTEGER, true⟩, ⟨"sampleRate".toList, .DOUBLE, true⟩,
   ⟨"VALUE".toList, .VECTOR, true⟩]

/-- The requirement list `s_message`. -/
def s_message : Requirements :=
  [⟨"nativeCode".toList, .STRING, false⟩, ⟨"VALUE".toList, .STRING, false⟩]

/-- The requirement list `s_threeSpaceSample`. -/
def s_threeSpaceSample : Requirements := [⟨"VALUE".toList, .VECTOR, false⟩]

/-- The requirement list `s_sample`. -/
def s_sample : Requirements := [⟨"VALUE".toList, .DOUBLE, false⟩]

/-- The requirement list `s_assetEvent`. -/
def s_assetEvent : Requirements :=
  [⟨"assetType".toList, .STRING, false⟩, ⟨"VALUE".toList, .STRING, false⟩]

/-- The requirement list `s_event`. -/
def s_event : Requirements := [⟨"VALUE".toList, .STRING, false⟩]

/-- The requirement list `s_dataSet`. -/
def s_dataSet : Requirements := [⟨"VALUE".toList, .DATA_SET, false⟩]

/-- The function `extractResetTrigger`: the value to convert, and the properties
after the reset trigger, if any, has been recorded. -/
def extractResetTrigger (dataItem : DataItem) (token : Str) (properties : Properties) :
    Str × Properties :=
  let pos := find token ':'
  if (dataItem.hasResetTrigger || dataItem.isTable || dataItem.isDataSet) && pos != npos then
    if dataItem.isSample then
      let trig := substr token (sizeAdd pos 1) npos
      let value := substr token 0 pos
      (value, properties.insert_or_assign "resetTriggered".toList (Value.string (upcase trig)))
    else
      let ef := find_first_of token " \t".toList pos
      let trig := substr token 1 (sizeSub ef 1)
      let value := substr token (sizeAdd ef 1) npos
      (value, properties.insert_or_assign "resetTriggered".toList (Value.string (upcase trig)))
  else
    (token, properties)

/-- The state of the loop of `zipProperties` when it stops: the properties built, the
position of the token iterator, the log, and the exception if one was raised. -/
structure ZipState where
  props : Properties
  token : TokenList
  logger : List LogEntry
  raised : Option EntityError
  deriving DecidableEq, Repr

/-- How the body of the loop of `zipProperties` ends for one requirement and one
token: the loop goes on with the properties and the log as given, or `convertType`
raised an exception, which is logged and raised again. -/
inductive ZipBody
  | next (props : Properties) (logger : List LogEntry)
  | raised (props : Properties) (logger : List LogEntry) (e : EntityError)
  deriving DecidableEq, Repr

/-- The body of the `for` loop of `zipProperties`, for the requirement `req` and the
token `tok`.  The flag `unavail` of the source is written and never read. -/
def zipBody (env : Collaborators) (dataItem : DataItem) (req : Requirement) (tok : Str)
    (props : Properties) (logger : List LogEntry) : ZipBody :=
  if tok.isEmpty then
    .next props logger
  else if unavailable tok &&
      (req.getName == "VALUE".toList || req.getName == "level".toList) then
    .next props logger
  else
    let extracted := extractResetTrigger dataItem tok props
    match env.convertType req dataItem.isTable (Value.string extracted.1) with
    | .converted value => .next (extracted.2.insert_or_assign req.getName value) logger
    | .notConverted =>
      .next extracted.2 (logger ++ [⟨.LWARN, "Cannot convert value for: ".toList ++ tok⟩])
    | .raised e =>
      .raised extracted.2
        (logger ++ [⟨.LWARN, "Cannot convert value for: ".toList ++ tok ++ " - ".toList ++ e.what⟩])
        e

/-- The properties and the log with which the body of the loop ends. -/
def ZipBody.state : ZipBody → Properties × List LogEntry
  | .next props logger => (props, logger)
  | .raised props logger _ => (props, logger)

/-- The loop of `zipProperties`: requirements and tokens advance together until one
of them runs out; an exception of `convertType` leaves the loop at once, with the
token iterator still on the token that raised it. -/
def zipLoop (env : Collaborators) (dataItem : DataItem) :
    Requirements → TokenList → Properties → List LogEntry → ZipState
  | [], token, props, logger => ⟨props, token, logger, none⟩
  | _ :: _, [], props, logger => ⟨props, [], logger, none⟩
  | req :: reqs, tok :: token, props, logger =>
    match zipBody env dataItem req tok props logger with
    | .next props logger => zipLoop env dataItem reqs token props logger
    | .raised props logger e => ⟨props, tok :: token, logger, some e⟩

/-- The result of a mapping call: how it ended, where the token iterator stands, the
error list it filled, and the mapper state. -/
structure MapResult where
  out : Outcome (Option Entity)
  token : TokenList
  errors : ErrorList
  mapper : ShdrTokenMapper
  deriving DecidableEq, Repr

/-- The function `zipProperties`, on the requirements `reqs` and the tokens from the
iterator on. -/
def zipProperties (env : Collaborators) (m : ShdrTokenMapper) (dataItem : DataItem)
    (timestamp : Timestamp) (reqs : Requirements) (token : TokenList) : MapResult :=
  let z := zipLoop env dataItem reqs token [] m.g_logger
  match z.raised with
  | some e => ⟨.thrown e, z.token, [], { m with g_logger := z.logger }⟩
  | none =>
    let made := env.make dataItem z.props timestamp
    ⟨.returned made.1, z.token, made.2, { m with g_logger := z.logger }⟩

/-- The choice of the requirement list in `mapTokensToDataItem`; `none` is the null
pointer left when the data item is in none of the three categories. -/
def selectRequirements (dataItem : DataItem) : Option Requirements :=
  if dataItem.isSample then
    if dataItem.isTimeSeries then some s_timeseries
    else if dataItem.is3D then some s_threeSpaceSample
    else some s_sample
  else if dataItem.isEvent then
    if dataItem.isMessage then some s_message
    else if dataItem.isAlarm then some s_alarm
    else if dataItem.isDataSet || dataItem.isTable then some s_dataSet
    else if dataItem.isAssetChanged || dataItem.isAssetRemoved then some s_assetEvent
    else some s_event
  else if dataItem.isCondition then some s_condition
  else none

/-- The method `ShdrTokenMapper::mapTokensToDataItem`. -/
def mapTokensToDataItem (env : Collaborators) (m : ShdrTokenMapper) (timestamp : Timestamp)
    (token : TokenList) : MapResult :=
  match token with
  | [] => ⟨.undefined, [], [], m⟩
  | key :: token =>
    let dataItemKey := splitKey key
    let device := env.m_getDevice (dataItemKey.2.getD [])
    match env.m_getDataItem device dataItemKey.1 with
    | none =>
      let text := "(".toList ++ device.getName ++ ") Could not find data item: ".toList ++
        dataItemKey.1
      if dataItemKey.1 ∈ m.m_logOnce then
        ⟨.returned none, token, [], m.log .LTRACE text⟩
      else
        ⟨.returned none, token, [],
          { m.log .LWARN text with m_logOnce := m.m_logOnce ++ [dataItemKey.1] }⟩
    | some dataItem =>
      match selectRequirements dataItem with
      | some reqs => zipProperties env m dataItem timestamp reqs token
      | none =>
        ⟨.thrown (.property "Unresolved data item requirements".toList), token, [],
          m.log .LWARN ("Cannot find requirements for ".toList ++ dataItemKey.1)⟩

/-- The method `ShdrTokenMapper::mapTokesnToAsset`. -/
def mapTokesnToAsset (env : Collaborators) (m : ShdrTokenMapper) (timestamp : Timestamp)
    (token : TokenList) : MapResult :=
  match token with
  | [] => ⟨.undefined, [], [], m⟩
  | command :: token =>
    if command = "@ASSET@".toList then
      match token with
      | _assetId :: _type :: body :: token =>
        let parsed := env.parse body
        match parsed.1 with
        | some res =>
          ⟨.returned (some (res.setProperty "timestamp".toList (Value.timestamp timestamp))),
            token, parsed.2, m⟩
        | none => ⟨.undefined, token, parsed.2, m⟩
      | _ => ⟨.undefined, [], [], m⟩
    else
      let ac : Entity := ⟨[], [], some timestamp⟩
      if command = "@REMOVE_ALL_ASSETS@".toList then
        let ac := ac.setName "RemoveAll".toList
        match token with
        | [] => ⟨.returned (some ac), [], [], m⟩
        | type :: token =>
          ⟨.returned (some (ac.setProperty "type".toList (Value.string type))), token, [], m⟩
      else if command = "@REMOVE_ASSET@".toList then
        let ac := ac.setName "RemoveAsset".toList
        match token with
        | [] => ⟨.undefined, [], [], m⟩
        | assetId :: token =>
          ⟨.returned (some (ac.setProperty "assetId".toList (Value.string assetId))), token, [], m⟩
      else
        ⟨.thrown (.plain ("Unkown asset command ".toList ++ command)), token, [], m⟩

/-- A time-stamped batch of tokens, the input of the mapper. -/
structure Timestamped where
  m_tokens : TokenList
  m_timestamp : Timestamp
  m_duration : Option Decimal
  deriving DecidableEq, Repr

/-- The entity `Observations` built by the mapper: a copy of the time-stamped batch
together with its property `VALUE`, the list of the mapped entities. -/
structure Observations where
  m_tokens : TokenList
  m_timestamp : Timestamp
  m_duration : Option Decimal
  value : EntityList
  deriving DecidableEq, Repr

/-- An observation as the loop of `operator()` keeps it: with the property `duration`
set when the frame has a duration. -/
def withDuration (duration : Option Decimal) (out : Entity) : Entity :=
  match duration with
  | some d => out.setProperty "duration".toList (Value.double d)
  | none => out

/-- The variables of the loop of `operator()`: the token iterator, the list
`entities` and the mapper state. -/
structure LoopState where
  token : TokenList
  entities : EntityList
  mapper : ShdrTokenMapper
  deriving DecidableEq, Repr

/-- One iteration of the `while` loop of `operator()`, entered with a token left;
`none` when the iteration runs into undefined behaviour.  The error list that is
tested and the one handed to the mapping call are the inner `errors`; the outer one
stays empty, so the final `for` loop over it logs nothing. -/
def mapOne (env : Collaborators) (timestamped : Timestamped) (st : LoopState) :
    Option LoopState :=
  match st.token with
  | [] => none
  | tok :: _ =>
    let r :=
      if tok.headD '\x00' == '@' then
        mapTokesnToAsset env st.mapper timestamped.m_timestamp st.token
      else
        let r := mapTokensToDataItem env st.mapper timestamped.m_timestamp st.token
        match r.out, timestamped.m_duration with
        | .returned (some out), some d =>
          { r with out := .returned (some (out.setProperty "duration".toList (Value.double d))) }
        | _, _ => r
    match r.out with
    | .returned (some out) =>
      if r.errors.isEmpty then some ⟨r.token, st.entities ++ [out], r.mapper⟩
      else some ⟨r.token, st.entities, r.mapper⟩
    | .returned none => some ⟨r.token, st.entities, r.mapper⟩
    | .thrown e =>
      some ⟨r.token, st.entities,
        r.mapper.log .LERROR ("Could not create observation: ".toList ++ e.what)⟩
    | .undefined => none

/-- How the mapping loop ends. -/
inductive LoopResult
  | done (entities : EntityList) (mapper : ShdrTokenMapper)
  | undefined
  | outOfFuel
  deriving DecidableEq, Repr

/-- The `while (token != end)` loop of `operator()`, with a bound on the number of
iterations. -/
def mapLoop (env : Collaborators) (timestamped : Timestamped) : Nat → LoopState → LoopResult
  | fuel, st =>
    match st.token with
    | [] => .done st.entities st.mapper
    | _ :: _ =>
      match fuel with
      | 0 => .outOfFuel
      | fuel + 1 =>
        match mapOne env timestamped st with
        | none => .undefined
        | some st => mapLoop env timestamped fuel st

/-- How `operator()` ends. -/
inductive Mapped
  | done (res : Observations) (mapper : ShdrTokenMapper)
  | undefined
  | outOfFuel
  deriving DecidableEq, Repr

/-- The call operator `ShdrTokenMapper::operator()` on a time-stamped entity; the
result is the entity handed to `next`.  Every iteration consumes a token, so the
number of tokens bounds the number of iterations. -/
def ShdrTokenMapper.apply (env : Collaborators) (m : ShdrTokenMapper)
    (timestamped : Timestamped) : Mapped :=
  match mapLoop env timestamped timestamped.m_tokens.length ⟨timestamped.m_tokens, [], m⟩ with
  | .done entities mapper =>
    .done ⟨[], timestamped.m_timestamp, timestamped.m_duration, entities⟩ mapper
  | .undefined => .undefined
  | .outOfFuel => .outOfFuel

/-- The result of `std::stod(str, &idx)`: the number read and the count of characters
it took, or `none` when no number can be read (`std::invalid_argument`). -/
abbrev StodResult := Option (Decimal × Nat)

/-- The digits at the head of the string: their value as a number and their count. -/
def readDigits (s : Str) : Nat × Nat :=
  let ds := s.takeWhile isdigit
  (ds.foldl (fun acc c => acc * 10 + digitVal c) 0, ds.length)

/-- The optional sign at the head of a string: whether it is negative, and its width. -/
def readSign (s : Str) : Bool × Nat :=
  match s with
  | '-' :: _ => (true, 1)
  | '+' :: _ => (false, 1)
  | _ => (false, 0)

/-- The call `std::stod(str, &idx)` on decimal text: white space, an optional sign,
digits with an optional fraction (at least one digit in all), and an optional
exponent, which counts only when it has a digit.  The conversion starts at the first
character of `str`; `idx` only receives the number of characters read.  The
hexadecimal, infinity and not-a-number spellings and the range check of the library
are not part of this description. -/
def stod (str : Str) : StodResult :=
  let ws := (str.takeWhile isspace).length
  let s1 := str.drop ws
  let sign := readSign s1
  let s2 := s1.drop sign.2
  let ip := readDigits s2
  let s3 := s2.drop ip.2
  let fp : Nat × Nat :=
    match s3 with
    | '.' :: r => readDigits r
    | _ => (0, 0)
  let dot : Nat := match s3 with
    | '.' :: _ => 1
    | _ => 0
  if ip.2 + fp.2 = 0 then none
  else
    let s4 := s3.drop (dot + fp.2)
    let mant : Int := ip.1 * 10 ^ fp.2 + fp.1
    let mant : Int := if sign.1 then - mant else mant
    let ex : Int × Nat :=
      match s4 with
      | c :: r =>
        if c == 'e' || c == 'E' then
          let es := readSign r
          let ed := readDigits (r.drop es.2)
          if ed.2 = 0 then (0, 0)
          else ((if es.1 then - (ed.1 : Int) else (ed.1 : Int)), 1 + es.2 + ed.2)
        else (0, 0)
      | [] => (0, 0)
    some (⟨mant, ex.1 - fp.2⟩, ws + sign.2 + ip.2 + dot + fp.2 + ex.2)

/-- How `getDuration` ends: it returns the duration and leaves the time stamp text as
given here, or `std::stod` raises `std::invalid_argument`. -/
inductive DurationResult
  | returned (duration : Option Decimal) (timestamp : Str)
  | invalid_argument
  deriving DecidableEq, Repr

/-- The function `getDuration`, with the string it leaves in `timestamp`. -/
def getDuration (timestamp : Str) : DurationResult :=
  let pos := find timestamp '@'
  if pos != npos then
    match stod timestamp with
    | none => .invalid_argument
    | some (d, read) =>
      let duration := if read == sizeAdd pos 1 then none else some d
      .returned duration (erase timestamp pos)
  else
    .returned none timestamp

end source

/-! ## The connector (`adapter/connector.cpp`) -/

namespace adapter

/-- The completion status passed to a handler: success, the cancellation status
`boost::asio::error::operation_aborted`, or any other error. -/
inductive ErrorCode
  | success
  | operation_aborted
  | failure
  deriving DecidableEq, Repr

/-- Whether the status is an error (`if (ec)`). -/
def ErrorCode.isError : ErrorCode → Bool
  | .success => false
  | _ => true

/-- The handlers that wait on the timers of the connector. -/
inductive Handler
  | tryConnect
  | readTimeout
  | heartbeat
  | receiveTimeout
  deriving DecidableEq, Repr

/-- A timer: the pending wait, with the time in milliseconds from the moment it was
set to its expiry and the handler that waits, or `none` when nothing is pending.  A
cancelled wait calls its handler with `operation_aborted`, on which every handler of
the connector does nothing, so cancelling only removes the wait. -/
abbrev Timer := Option (Int × Handler)

/-- The position of the stackless coroutine of `reader`: not yet entered, suspended at
the `yield` of the read, or run to its end. -/
inductive Coroutine
  | initial
  | suspended
  | complete
  deriving DecidableEq, Repr

/-- The calls of the virtual methods that a derived class implements. -/
inductive Callback
  | connecting
  | connected
  | disconnected
  | protocolCommand (line : Str)
  | processData (line : Str)
  deriving DecidableEq, Repr

/-- The state of a `Connector`.  The streams `m_incoming` and `m_outgoing` hold the
bytes received and not yet parsed, and all the bytes written for sending; `socketOpen`
is `m_socket.is_open()`; `calls` records the virtual methods called, oldest first.
The members that only appear in log messages are left out, and so is the log. -/
structure Connector where
  m_connected : Bool
  m_heartbeats : Bool
  m_heartbeatFrequency : Int
  m_legacyTimeout : Int
  m_reconnectInterval : Int
  m_receiveTimeLimit : Int
  m_timer : Timer
  m_heartbeatTimer : Timer
  m_receiveTimeout : Timer
  m_coroutine : Coroutine
  m_incoming : Str
  m_outgoing : Str
  socketOpen : Bool
  calls : List Callback
  deriving DecidableEq, Repr

namespace Connector

/-- The constructor, for a legacy timeout and a reconnect interval given in seconds.
Modelled from the spec: the in-class initialisers of `connector.hpp` are missing; a
new connector is not heart-beating, and `heartbeatFrequency` is the initial value of
`m_heartbeatFrequency`. -/
def create (legacyTimeout reconnectInterval : Int) (heartbeatFrequency : Int) : Connector where
  m_connected := false
  m_heartbeats := false
  m_heartbeatFrequency := heartbeatFrequency
  m_legacyTimeout := legacyTimeout * 1000
  m_reconnectInterval := reconnectInterval * 1000
  m_receiveTimeLimit := legacyTimeout * 1000
  m_timer := none
  m_heartbeatTimer := none
  m_receiveTimeout := none
  m_coroutine := .initial
  m_incoming := []
  m_outgoing := []
  socketOpen := false
  calls := []

/-- The method `connect`: it starts an asynchronous connect, whose completion calls
`connected`.  The connect operation opens the socket for its attempt, so the socket
is open from here on, while `m_connected` stays `false` until the attempt has
succeeded. -/
def connect (c : Connector) : Connector :=
  { c with m_connected := false, socketOpen := true,
           calls := c.calls ++ [Callback.connecting] }

/-- The method `asyncTryConnect`. -/
def asyncTryConnect (c : Connector) : Connector :=
  { c with m_timer := some (c.m_reconnectInterval, .tryConnect) }

/-- The method `close`. -/
def close (c : Connector) : Connector :=
  let c := { c with m_heartbeatTimer := none, m_receiveTimeout := none, m_timer := none }
  if c.m_connected then
    { c with socketOpen := false, m_connected := false, calls := c.calls ++ [Callback.disconnected] }
  else
    c

/-- The method `reconnect`. -/
def reconnect (c : Connector) : Connector :=
  asyncTryConnect (close c)

/-- The method `sendCommand`. -/
def sendCommand (c : Connector) (command : Str) : Connector :=
  if c.m_connected then
    { c with m_outgoing := c.m_outgoing ++ ("* ".toList ++ command ++ "\n".toList) }
  else
    c

/-- The method `setReceiveTimeout`. -/
def setReceiveTimeout (c : Connector) : Connector :=
  { c with m_receiveTimeout := some (c.m_receiveTimeLimit, .receiveTimeout) }

/-- The function `atoi`, as `(int) strtol(s, NULL, 10)` with a 64-bit `long`: white
space, an optional sign and decimal digits; the value is clamped to the range of
`long` and then cut to 32 bits. -/
def atoi (s : Str) : Int :=
  let s1 := s.dropWhile isspace
  let sign := source.readSign s1
  let n : Int := (source.readDigits (s1.drop sign.2)).1
  let v : Int := if sign.1 then - n else n
  let clamped : Int := max (-(2 : Int) ^ 63) (min v ((2 : Int) ^ 63 - 1))
  (clamped + 2 ^ 31) % 2 ^ 32 - 2 ^ 31

/-- The method `startHeartbeats`. -/
def startHeartbeats (c : Connector) (arg : Str) : Connector :=
  let pos := find_first_of arg "0123456789".toList 7
  if arg.length > 7 && arg.getD 6 '\x00' == ' ' && pos != npos then
    let freq := atoi (substr arg pos npos)
    if freq > 0 && freq < 30 * 60 * 1000 then
      let c := { c with m_heartbeats := true, m_heartbeatFrequency := freq,
                        m_receiveTimeLimit := 2 * freq }
      let c := setReceiveTimeout c
      { c with m_heartbeatTimer := some (c.m_heartbeatFrequency, .heartbeat) }
    else
      c
  else
    c

/-- The call `getline(is, line)` on the incoming stream: the characters up to the
first newline, which is taken from the stream and dropped, or all of them when there
is no newline; with the stream that remains. -/
def getline (buffer : Str) : Str × Str :=
  (buffer.takeWhile (· != '\n'), (buffer.dropWhile (· != '\n')).drop 1)

/-- The method `parseSocketBuffer`. -/
def parseSocketBuffer (c : Connector) : Connector :=
  let c := setReceiveTimeout c
  let read := getline c.m_incoming
  let c := { c with m_incoming := read.2 }
  let line := read.1
  if line.isEmpty then c
  else
    let «end» := find_last_not_of line " \t\n\r".toList
    let line := if «end» != npos then mtconnect.erase line (sizeAdd «end» 1) else line
    if line.getD 0 '\x00' == '*' then
      if substr line 0 6 == "* PONG".toList then
        if !c.m_heartbeats then startHeartbeats c line else c
      else
        { c with calls := c.calls ++ [Callback.protocolCommand line] }
    else
      { c with calls := c.calls ++ [Callback.processData line] }

/-- The method `heartbeat`, the handler of the heartbeat timer. -/
def heartbeat (c : Connector) (ec : ErrorCode) : Connector :=
  match ec with
  | .success =>
    let c := sendCommand c "* PING".toList
    { c with m_heartbeatTimer := some (c.m_heartbeatFrequency, .heartbeat) }
  | _ => c

/-- The method `writer`, the completion handler of a write. -/
def writer (c : Connector) (ec : ErrorCode) : Connector :=
  if ec.isError then close c else c

/-- The handler that `setReceiveTimeout` leaves on the timer `m_receiveTimeout`. -/
def receiveTimeoutHandler (c : Connector) (ec : ErrorCode) : Connector :=
  match ec with
  | .success => close c
  | _ => c

/-- The handler that `reader` leaves on `m_timer` while a read is outstanding. -/
def readTimeoutHandler (c : Connector) (ec : ErrorCode) : Connector :=
  if ec != .operation_aborted then reconnect c else c

/-- The handler that `asyncTryConnect` leaves on `m_timer`. -/
def tryConnectHandler (c : Connector) (ec : ErrorCode) : Connector :=
  if ec != .operation_aborted then connect c else c

/-- The `while` loop of `reader` from its test on: either it arms the read timeout,
starts a read and suspends, or it leaves the loop, reconnects and ends the
coroutine. -/
def readerLoop (c : Connector) : Connector :=
  if c.m_connected && c.socketOpen then
    { c with m_timer := some (c.m_receiveTimeLimit, .readTimeout), m_coroutine := .suspended }
  else
    { reconnect c with m_coroutine := .complete }

/-- The method `reader`, the completion handler of a read; the bytes that the read
brought are in `m_incoming` already. -/
def reader (c : Connector) (ec : ErrorCode) : Connector :=
  if !c.m_connected then c
  else if ec.isError then reconnect c
  else
    match c.m_coroutine with
    | .initial => readerLoop c
    | .suspended => readerLoop (parseSocketBuffer { c with m_timer := none })
    | .complete => c

/-- The method `connected(ec, it)`, the completion handler of the connect; on success
the socket is open. -/
def connected (c : Connector) (ec : ErrorCode) : Connector :=
  if ec.isError then asyncTryConnect c
  else
    let c := { c with socketOpen := true, m_timer := none, calls := c.calls ++ [Callback.connected] }
    let c := { c with m_connected := true }
    let c := sendCommand c "PING".toList
    reader c .success

/-- The expiry of a timer: the pending wait is taken off and its handler runs with
the status `success`. -/
def runHandler (c : Connector) (h : Handler) : Connector :=
  match h with
  | .tryConnect => tryConnectHandler c .success
  | .readTimeout => readTimeoutHandler c .success
  | .heartbeat => heartbeat c .success
  | .receiveTimeout => receiveTimeoutHandler c .success

/-- What the executor can deliver to the connector. -/
inductive Event
  | connectDone (ec : ErrorCode)
  | readDone (ec : ErrorCode) (bytes : Str)
  | writeDone (ec : ErrorCode)
  | timerExpired
  | heartbeatTimerExpired
  | receiveTimeoutExpired
  deriving DecidableEq, Repr

/-- The reaction of the connector to one event.  A timer that has no pending wait
does not expire. -/
def handle (c : Connector) : Event → Connector
  | .connectDone ec => connected c ec
  | .readDone ec bytes => reader { c with m_incoming := c.m_incoming ++ bytes } ec
  | .writeDone ec => writer c ec
  | .timerExpired =>
    match c.m_timer with
    | some (_, h) => runHandler { c with m_timer := none } h
    | none => c
  | .heartbeatTimerExpired =>
    match c.m_heartbeatTimer with
    | some (_, h) => runHandler { c with m_heartbeatTimer := none } h
    | none => c
  | .receiveTimeoutExpired =>
    match c.m_receiveTimeout with
    | some (_, h) => runHandler { c with m_receiveTimeout := none } h
    | none => c

/-- The connector after a sequence of events. -/
def run (c : Connector) (events : List Event) : Connector :=
  events.foldl handle c

end Connector

end adapter

/-! ## The tokenizer (`adapter/shdr_tokenizer.hpp`)

The header of `ShdrTokenizer` is not among the sources: only its tests
(`test/shdr_parser_test.cpp`) are.  The definitions of this section follow the rules
of the specification (section 4.2) and agree with every entry of the tables of the
tests `SimpleTokens` and `EscapedLine`. -/

namespace adapter

namespace ShdrTokenizer

/-- Modelled from the spec: the body of `ShdrTokenizer::tokenize` is missing.  Rule 2,
"inside a quoted span, backslash-pipe resolves to a literal pipe": the text with
every backslash that stands before a `|` removed. -/
def unescape : Str → Str
  | '\\' :: '|' :: r => '|' :: unescape r
  | c :: r => c :: unescape r
  | [] => []

/-- Modelled from the spec: the body of `ShdrTokenizer::tokenize` is missing.  The run
of rule 1 and rule 3: the text up to the first `|` that has no backslash before it,
and the text after that `|` when there is one. -/
def splitUnescaped : Str → Str × Option Str
  | [] => ([], none)
  | '|' :: r => ([], some r)
  | '\\' :: '|' :: r => ('\\' :: '|' :: (splitUnescaped r).1, (splitUnescaped r).2)
  | c :: r => (c :: (splitUnescaped r).1, (splitUnescaped r).2)

/-- Modelled from the spec: the body of `ShdrTokenizer::tokenize` is missing.  Rule 4,
no escape interpretation: the text up to the first `|`, whatever stands before it,
and the text after that `|` when there is one. -/
def splitPipe : Str → Str × Option Str
  | [] => ([], none)
  | '|' :: r => ([], some r)
  | c :: r => (c :: (splitPipe r).1, (splitPipe r).2)

/-- Modelled from the spec: the body of `ShdrTokenizer::tokenize` is missing.  Rule 3,
the well-formed quoted token: the body of a run that begins with a double quote and
ends with another one. -/
def quotedBody : Str → Option Str
  | '"' :: r => if r.getLast? = some '"' then some r.dropLast else none
  | _ => none

/-- Modelled from the spec: the helper `ShdrTokenizer::trim` is missing.  Scenario 1
of section 8, "whitespace trimmed around token bodies": the text without its leading
and trailing white space. -/
def trim (s : Str) : Str :=
  ((s.dropWhile isspace).reverse.dropWhile isspace).reverse

/-- Modelled from the spec: the body of `ShdrTokenizer::tokenize` is missing.  The
tokens of the text that starts at a token boundary.  A well-formed quoted token
(rule 3) gives its body with the escapes resolved (rule 2) and ends at the `|` that
ends its run; any other token ends at the next `|` (rules 1 and 4) and is trimmed.
The first argument bounds the number of tokens. -/
def tokensFrom : Nat → Str → List Str
  | 0, _ => []
  | fuel + 1, text =>
    match quotedBody (splitUnescaped text).1 with
    | some body =>
      unescape body ::
        (match (splitUnescaped text).2 with
         | none => []
         | some rest => tokensFrom fuel rest)
    | none =>
      trim (splitPipe text).1 ::
        (match (splitPipe text).2 with
         | none => []
         | some rest => tokensFrom fuel rest)

/-- Modelled from the spec: the body of `ShdrTokenizer::tokenize` is missing.  The
tokens of a frame; a frame has no more tokens than it has characters, plus one. -/
def tokenize (data : Str) : List Str := tokensFrom (data.length + 1) data

/-- Modelled from the spec: the words of rule 3, "the body may contain escaped
pipes".  Whether every `|` of the text has a backslash before it. -/
def escapedOnly : Str → Bool
  | [] => true
  | '|' :: _ => false
  | '\\' :: '|' :: r => escapedOnly r
  | _ :: r => escapedOnly r

end ShdrTokenizer

end adapter

/-! ## Concrete instances

A small dictionary and a connector, on which the theorems below are instantiated. -/

namespace instances

open entity source adapter

/-- A scalar Sample data item with the given id. -/
def scalarSample (id : Str) : DataItem :=
  ⟨id, true, false, false, false, false, false, false, false, false, false, false, false⟩

/-- An Event data item of the Alarm kind with the given id. -/
def alarmEvent (id : Str) : DataItem :=
  ⟨id, false, true, false, false, false, false, true, false, false, false, false, false⟩

/-- A data item that is in none of the three categories. -/
def uncategorised (id : Str) : DataItem :=
  ⟨id, false, false, false, false, false, false, false, false, false, false, false, false⟩

/-- A dictionary with the scalar Samples `Xa` and `Yb`, the Alarm `alarmX` and the
uncategorised item `odd`; values convert to themselves, the factory builds an entity
named after the data item that carries the properties and the time stamp, and the
asset parser knows no asset. -/
def dictionary : Collaborators where
  m_getDevice := fun name => ⟨name⟩
  m_getDataItem := fun _ key =>
    if key = "Xa".toList then some (scalarSample "Xa".toList)
    else if key = "Yb".toList then some (scalarSample "Yb".toList)
    else if key = "alarmX".toList then some (alarmEvent "alarmX".toList)
    else if key = "odd".toList then some (uncategorised "odd".toList)
    else none
  convertType := fun _ _ v => Conversion.converted v
  make := fun dataItem props timestamp => (some ⟨dataItem.m_id, props, some timestamp⟩, [])
  parse := fun _ => (none, [])

/-- A Sample data item of the TimeSeries kind with the given id. -/
def timeSeries (id : Str) : DataItem :=
  ⟨id, true, false, false, true, false, false, false, false, false, false, false, false⟩

/-- An Event data item with DataSet semantics and the given id. -/
def dataSetEvent (id : Str) : DataItem :=
  ⟨id, false, true, false, false, false, false, false, true, false, false, false, false⟩

/-- A scalar Sample data item with a reset trigger and the given id. -/
def resettingSample (id : Str) : DataItem :=
  ⟨id, true, false, false, false, false, false, false, false, false, false, false, true⟩

/-- A conversion with both kinds of failure: for the type `INTEGER` it raises a
property error unless the text is a string of decimal digits, for the type `DOUBLE`
it returns `false` unless `stod` reads a number, and every other value converts to
itself. -/
def strictConvert (req : Requirement) (_isTable : Bool) (v : Value) : Conversion :=
  match req.m_type, v with
  | .INTEGER, .string s =>
    if s.all isdigit && !s.isEmpty then Conversion.converted (Value.integer (readDigits s).1)
    else Conversion.raised (EntityError.property ("cannot convert to integer: ".toList ++ s))
  | .DOUBLE, .string s =>
    match stod s with
    | some (d, _) => Conversion.converted (Value.double d)
    | none => Conversion.notConverted
  | _, v => Conversion.converted v

/-- The dictionary with the TimeSeries `Ts` and the scalar Sample `Xa`, and with the
conversion `strictConvert`. -/
def strictDictionary : Collaborators where
  m_getDevice := fun name => ⟨name⟩
  m_getDataItem := fun _ key =>
    if key = "Ts".toList then some (timeSeries "Ts".toList)
    else if key = "Xa".toList then some (scalarSample "Xa".toList)
    else none
  convertType := strictConvert
  make := fun dataItem props timestamp => (some ⟨dataItem.m_id, props, some timestamp⟩, [])
  parse := fun _ => (none, [])

/-- A mapper that has logged nothing yet. -/
def freshMapper : ShdrTokenMapper := ⟨[], []⟩

/-- A connector with a legacy timeout and a reconnect interval of ten seconds, just
connected to its peer. -/
def connectedConnector : Connector :=
  (Connector.create 10 10 60000).connect.connected ErrorCode.success

end instances

/-! ## Theorems -/

namespace source

open entity

/-- Claim C1.  For a key that the dictionary resolves to the data item `di`,
`mapTokensToDataItem` zips the remaining tokens against the requirement list of the
first matching row of the table: Sample/TimeSeries, Sample/3D, Sample/scalar;
Event/Message, Event/Alarm, Event/DataSet or Table, Event/asset changed or removed,
Event/plain; Condition.  For a data item in none of the three categories it raises
the property error "Unresolved data item requirements" and returns no observation. -/
theorem mapTokensToDataItem_selects_schema (env : Collaborators) (m : ShdrTokenMapper)
    (ts : Timestamp) (key : Str) (toks : TokenList) (di : DataItem)
    (hfound : env.m_getDataItem (env.m_getDevice ((splitKey key).2.getD [])) (splitKey key).1
      = some di) :
    (di.isSample = true → di.isTimeSeries = true →
      mapTokensToDataItem env m ts (key :: toks) = zipProperties env m di ts
        [⟨"sampleCount".toList, .INTEGER, true⟩, ⟨"sampleRate".toList, .DOUBLE, true⟩,
         ⟨"VALUE".toList, .VECTOR, true⟩] toks) ∧
    (di.isSample = true → di.isTimeSeries = false → di.is3D = true →
      mapTokensToDataItem env m ts (key :: toks) = zipProperties env m di ts
        [⟨"VALUE".toList, .VECTOR, false⟩] toks) ∧
    (di.isSample = true → di.isTimeSeries = false → di.is3D = false →
      mapTokensToDataItem env m ts (key :: toks) = zipProperties env m di ts
        [⟨"VALUE".toList, .DOUBLE, false⟩] toks) ∧
    (di.isSample = false → di.isEvent = true → di.isMessage = true →
      mapTokensToDataItem env m ts (key :: toks) = zipProperties env m di ts
        [⟨"nativeCode".toList, .STRING, false⟩, ⟨"VALUE".toList, .STRING, false⟩] toks) ∧
    (di.isSample = false → di.isEvent = true → di.isMessage = false → di.isAlarm = true →
      mapTokensToDataItem env m ts (key :: toks) = zipProperties env m di ts
        [⟨"code".toList, .STRING, true⟩, ⟨"nativeCode".toList, .STRING, false⟩,
         ⟨"severity".toList, .STRING, false⟩, ⟨"state".toList, .STRING, true⟩,
         ⟨"VALUE".toList, .STRING, false⟩] toks) ∧
    (di.isSample = false → di.isEvent = true → di.isMessage = false → di.isAlarm = false →
      (di.isDataSet = true ∨ di.isTable = true) →
      mapTokensToDataItem env m ts (key :: toks) = zipProperties env m di ts
        [⟨"VALUE".toList, .DATA_SET, false⟩] toks) ∧
    (di.isSample = false → di.isEvent = true → di.isMessage = false → di.isAlarm = false →
      di.isDataSet = false → di.isTable = false →
      (di.isAssetChanged = true ∨ di.isAssetRemoved = true) →
      mapTokensToDataItem env m ts (key :: toks) = zipProperties env m di ts
        [⟨"assetType".toList, .STRING, false⟩, ⟨"VALUE".toList, .STRING, false⟩] toks) ∧
    (di.isSample = false → di.isEvent = true → di.isMessage = false → di.isAlarm = false →
      di.isDataSet = false → di.isTable = false →
      di.isAssetChanged = false → di.isAssetRemoved = false →
      mapTokensToDataItem env m ts (key :: toks) = zipProperties env m di ts
        [⟨"VALUE".toList, .STRING, false⟩] toks) ∧
    (di.isSample = false → di.isEvent = false → di.isCondition = true →
      mapTokensToDataItem env m ts (key :: toks) = zipProperties env m di ts
        [⟨"level".toList, .STRING, true⟩, ⟨"nativeCode".toList, .STRING, false⟩,
         ⟨"nativeSeverity".toList, .STRING, false⟩, ⟨"qualifier".toList, .STRING, false⟩,
         ⟨"VALUE".toList, .STRING, false⟩] toks) ∧
    (di.isSample = false → di.isEvent = false → di.isCondition = false →
      (mapTokensToDataItem env m ts (key :: toks)).out =
        Outcome.thrown (EntityError.property "Unresolved data item requirements".toList)) := by
  refine ⟨?_, ?_, ?_, ?_, ?_, ?_, ?_, ?_, ?_, ?_⟩
  · intro h1 h2
    simp only [mapTokensToDataItem, hfound, selectRequirements, h1, h2, if_true]
    rfl
  · intro h1 h2 h3
    simp [mapTokensToDataItem, hfound, selectRequirements, h1, h2, h3, s_threeSpaceSample]
  · intro h1 h2 h3
    simp [mapTokensToDataItem, hfound, selectRequirements, h1, h2, h3, s_sample]
  · intro h1 h2 h3
    simp [mapTokensToDataItem, hfound, selectRequirements, h1, h2, h3, s_message]
  · intro h1 h2 h3 h4
    simp [mapTokensToDataItem, hfound, selectRequirements, h1, h2, h3, h4, s_alarm]
  · intro h1 h2 h3 h4 h5
    rcases h5 with h5 | h5 <;>
      simp [mapTokensToDataItem, hfound, selectRequirements, h1, h2, h3, h4, h5, s_dataSet]
  · intro h1 h2 h3 h4 h5 h6 h7
    rcases h7 with h7 | h7 <;>
      simp [mapTokensToDataItem, hfound, selectRequirements, h1, h2, h3, h4, h5, h6, h7,
        s_assetEvent]
  · intro h1 h2 h3 h4 h5 h6 h7 h8
    simp [mapTokensToDataItem, hfound, selectRequirements, h1, h2, h3, h4, h5, h6, h7, h8,
      s_event]
  · intro h1 h2 h3
    simp [mapTokensToDataItem, hfound, selectRequirements, h1, h2, h3, s_condition]
  · intro h1 h2 h3
    simp [mapTokensToDataItem, hfound, selectRequirements, h1, h2, h3]

/-- Witness of C1 on the dictionary of `instances`: the scalar Sample `Xa` is zipped
against the single field `VALUE` of type `DOUBLE`, and the uncategorised item `odd`
raises the property error. -/
theorem mapTokensToDataItem_selects_schema_witness :
    mapTokensToDataItem instances.dictionary instances.freshMapper 5
        ["Xa".toList, "3.14".toList] =
      zipProperties instances.dictionary instances.freshMapper
        (instances.scalarSample "Xa".toList) 5 [⟨"VALUE".toList, .DOUBLE, false⟩]
        ["3.14".toList] ∧
    (mapTokensToDataItem instances.dictionary instances.freshMapper 5
        ["odd".toList, "1".toList]).out =
      Outcome.thrown (EntityError.property "Unresolved data item requirements".toList) :=
  ⟨(mapTokensToDataItem_selects_schema instances.dictionary instances.freshMapper 5
      "Xa".toList ["3.14".toList] (instances.scalarSample "Xa".toList) (by decide)).2.2.1
      (by decide) (by decide) (by decide),
   (mapTokensToDataItem_selects_schema instances.dictionary instances.freshMapper 5
      "odd".toList ["1".toList] (instances.uncategorised "odd".toList) (by decide)).2.2.2.2.2.2.2.2.2
      (by decide) (by decide) (by decide)⟩

/-! ### The loop of `zipProperties` -/

/-- When no exception is raised, the loop of `zipProperties` leaves the token iterator
behind as many tokens as there are requirements. -/
theorem zipLoop_token (env : Collaborators) (di : DataItem) :
    ∀ (reqs : Requirements) (toks : TokenList) (props : Properties) (lg : List LogEntry),
      (zipLoop env di reqs toks props lg).raised = none →
      (zipLoop env di reqs toks props lg).token = toks.drop reqs.length := by
  intro reqs
  induction reqs with
  | nil => intro toks props lg _; simp [zipLoop]
  | cons req reqs ih =>
    intro toks props lg h
    cases toks with
    | nil => simp [zipLoop]
    | cons tok toks =>
      simp only [zipLoop] at h ⊢
      cases hb : zipBody env di req tok props lg with
      | next p l =>
        rw [hb] at h
        simpa using ih toks p l h
      | raised p l e =>
        rw [hb] at h
        simp at h

/-- When no exception is raised, the properties and the log built by the loop of
`zipProperties` are those of the loop body applied to the requirements and tokens
paired by position. -/
theorem zipLoop_state (env : Collaborators) (di : DataItem) :
    ∀ (reqs : Requirements) (toks : TokenList) (props : Properties) (lg : List LogEntry),
      (zipLoop env di reqs toks props lg).raised = none →
      ((zipLoop env di reqs toks props lg).props, (zipLoop env di reqs toks props lg).logger) =
        (reqs.zip toks).foldl (fun acc p => (zipBody env di p.1 p.2 acc.1 acc.2).state)
          (props, lg) := by
  intro reqs
  induction reqs with
  | nil => intro toks props lg _; simp [zipLoop]
  | cons req reqs ih =>
    intro toks props lg h
    cases toks with
    | nil => simp [zipLoop]
    | cons tok toks =>
      simp only [zipLoop] at h ⊢
      cases hb : zipBody env di req tok props lg with
      | next p l =>
        rw [hb] at h
        simp only [List.zip_cons_cons, List.foldl_cons, hb, ZipBody.state]
        exact ih toks p l h
      | raised p l e =>
        rw [hb] at h
        simp at h

/-- The loop of `zipProperties` never moves the token iterator backwards or past the
end: what is left is a suffix of the tokens it was given. -/
theorem zipLoop_token_suffix (env : Collaborators) (di : DataItem) :
    ∀ (reqs : Requirements) (toks : TokenList) (props : Properties) (lg : List LogEntry),
      (zipLoop env di reqs toks props lg).token <:+ toks := by
  intro reqs
  induction reqs with
  | nil => intro toks props lg; simp [zipLoop]
  | cons req reqs ih =>
    intro toks props lg
    cases toks with
    | nil => simp [zipLoop]
    | cons tok toks =>
      simp only [zipLoop]
      cases hb : zipBody env di req tok props lg with
      | next p l => exact (ih toks p l).trans (List.suffix_cons tok toks)
      | raised p l e => exact List.suffix_refl _

/-! ### Mapping one data item, and a line of scalar Samples -/

/-- One iteration of the mapping loop on the key and the value of a known scalar
Sample whose value is accepted: the observation is appended, and the iterator stands
behind the value. -/
theorem mapOne_scalar_pair (env : Collaborators) (m : ShdrTokenMapper) (tsd : Timestamped)
    (key v : Str) (rest : TokenList) (acc : EntityList) (di : DataItem) (props : Properties)
    (e : Entity)
    (hord : key.headD '\x00' ≠ '@')
    (hfound : env.m_getDataItem (env.m_getDevice ((splitKey key).2.getD [])) (splitKey key).1
      = some di)
    (hs : di.isSample = true) (ht : di.isTimeSeries = false) (h3 : di.is3D = false)
    (hbody : zipBody env di ⟨"VALUE".toList, .DOUBLE, false⟩ v [] m.g_logger
      = ZipBody.next props m.g_logger)
    (hmake : env.make di props tsd.m_timestamp = (some e, [])) :
    mapOne env tsd ⟨key :: v :: rest, acc, m⟩ =
      some ⟨rest, acc ++ [withDuration tsd.m_duration e], m⟩ := by
  have hm : ({ m with g_logger := m.g_logger } : ShdrTokenMapper) = m := by cases m; rfl
  have hsel : selectRequirements di = some s_sample := by
    simp [selectRequirements, hs, ht, h3]
  have hz : zipLoop env di s_sample (v :: rest) [] m.g_logger = ⟨props, rest, m.g_logger, none⟩ := by
    show zipLoop env di [⟨"VALUE".toList, .DOUBLE, false⟩] (v :: rest) [] m.g_logger = _
    rw [zipLoop, hbody]
    rfl
  have hr : mapTokensToDataItem env m tsd.m_timestamp (key :: v :: rest) =
      ⟨.returned (some e), rest, [], m⟩ := by
    simp only [mapTokensToDataItem, hfound, hsel, zipProperties, hz, hmake, hm]
  have hne : (key.headD '\x00' == '@') = false := beq_eq_false_iff_ne.mpr hord
  cases hd : tsd.m_duration with
  | none =>
    simp only [mapOne, hne, hr, hd, Bool.false_eq_true, if_false]
    simp [withDuration]
  | some d =>
    simp only [mapOne, hne, hr, hd, Bool.false_eq_true, if_false]
    simp [withDuration, Entity.setProperty]

/-- A line made of the (key, value) pairs of known scalar Samples with accepted values
maps, with fuel for one iteration per pair, to the observations of the pairs in the
order of the line. -/
theorem mapLoop_scalar_pairs (env : Collaborators) (m : ShdrTokenMapper) (tsd : Timestamped)
    (obs : Str × Str → Entity) :
    ∀ (pairs : List (Str × Str)) (acc : EntityList) (fuel : Nat),
      pairs.length ≤ fuel →
      (∀ p ∈ pairs, p.1.headD '\x00' ≠ '@' ∧ ∃ di props,
        env.m_getDataItem (env.m_getDevice ((splitKey p.1).2.getD [])) (splitKey p.1).1
          = some di ∧
        di.isSample = true ∧ di.isTimeSeries = false ∧ di.is3D = false ∧
        zipBody env di ⟨"VALUE".toList, .DOUBLE, false⟩ p.2 [] m.g_logger
          = ZipBody.next props m.g_logger ∧
        env.make di props tsd.m_timestamp = (some (obs p), [])) →
      mapLoop env tsd fuel ⟨pairs.flatMap (fun p => [p.1, p.2]), acc, m⟩ =
        LoopResult.done (acc ++ pairs.map (fun p => withDuration tsd.m_duration (obs p))) m := by
  intro pairs
  induction pairs with
  | nil =>
    intro acc fuel _ _
    cases fuel <;> simp [mapLoop]
  | cons p ps ih =>
    intro acc fuel hfuel hall
    obtain ⟨hord, di, props, hfound, hs, ht, h3, hbody, hmake⟩ := hall p (List.mem_cons_self _ _)
    cases fuel with
    | zero => simp at hfuel
    | succ fuel =>
      have hstep := mapOne_scalar_pair env m tsd p.1 p.2 (ps.flatMap (fun p => [p.1, p.2])) acc
        di props (obs p) hord hfound hs ht h3 hbody hmake
      have hrec := ih (acc ++ [withDuration tsd.m_duration (obs p)]) fuel (by simpa using hfuel)
        (fun q hq => hall q (List.mem_cons_of_mem _ hq))
      simp only [List.flatMap_cons, List.cons_append, List.nil_append, mapLoop, hstep, hrec,
        List.map_cons, List.append_assoc]

/-- Claim C2.  Mapping a known data item whose schema has `k` fields on `n` remaining
tokens consumes, when no conversion error is raised, exactly `min k n` tokens after
the key, pairing token `i` with field `i` (the properties handed to the observation
factory are those of the loop body over the fields and tokens zipped by position),
so that mapping resumes at the token behind them.  In particular a line made of `m`
(key, value) pairs of known scalar Samples with accepted values, the keys being
ordinary tokens (a token starting with `@` is an asset command), yields exactly the
`m` observations of the pairs, in the order of the line. -/
theorem mapping_consumes_schema_fields :
    (∀ (env : Collaborators) (m : ShdrTokenMapper) (ts : Timestamp) (key : Str)
        (toks : TokenList) (di : DataItem) (reqs : Requirements),
      env.m_getDataItem (env.m_getDevice ((splitKey key).2.getD [])) (splitKey key).1
        = some di →
      selectRequirements di = some reqs →
      (∀ e, (mapTokensToDataItem env m ts (key :: toks)).out ≠ Outcome.thrown e) →
      (mapTokensToDataItem env m ts (key :: toks)).token
          = toks.drop (min reqs.length toks.length) ∧
      (mapTokensToDataItem env m ts (key :: toks)).token.length
          = toks.length - min reqs.length toks.length ∧
      (mapTokensToDataItem env m ts (key :: toks)).out = Outcome.returned
        (env.make di ((reqs.zip toks).foldl
          (fun acc p => (zipBody env di p.1 p.2 acc.1 acc.2).state) ([], m.g_logger)).1 ts).1) ∧
    (∀ (env : Collaborators) (m : ShdrTokenMapper) (ts : Timestamp) (dur : Option Decimal)
        (pairs : List (Str × Str)) (obs : Str × Str → Entity),
      (∀ p ∈ pairs, p.1.headD '\x00' ≠ '@' ∧ ∃ di props,
        env.m_getDataItem (env.m_getDevice ((splitKey p.1).2.getD [])) (splitKey p.1).1
          = some di ∧
        di.isSample = true ∧ di.isTimeSeries = false ∧ di.is3D = false ∧
        zipBody env di ⟨"VALUE".toList, .DOUBLE, false⟩ p.2 [] m.g_logger
          = ZipBody.next props m.g_logger ∧
        env.make di props ts = (some (obs p), [])) →
      ShdrTokenMapper.apply env m ⟨pairs.flatMap (fun p => [p.1, p.2]), ts, dur⟩ =
        Mapped.done ⟨[], ts, dur, pairs.map (fun p => withDuration dur (obs p))⟩ m ∧
      (pairs.map (fun p => withDuration dur (obs p))).length = pairs.length) := by
  constructor
  · intro env m ts key toks di reqs hfound hreqs hok
    have hmap : mapTokensToDataItem env m ts (key :: toks) = zipProperties env m di ts reqs toks := by
      simp [mapTokensToDataItem, hfound, hreqs]
    rw [hmap] at hok ⊢
    have hnone : (zipLoop env di reqs toks [] m.g_logger).raised = none := by
      cases hz : (zipLoop env di reqs toks [] m.g_logger).raised with
      | none => rfl
      | some e =>
        exfalso
        apply hok e
        simp [zipProperties, hz]
    have htok := zipLoop_token env di reqs toks [] m.g_logger hnone
    have hst := zipLoop_state env di reqs toks [] m.g_logger hnone
    have hdrop : toks.drop (min reqs.length toks.length) = toks.drop reqs.length := by
      rcases Nat.le_total reqs.length toks.length with h | h
      · rw [Nat.min_eq_left h]
      · rw [Nat.min_eq_right h, List.drop_length, List.drop_eq_nil_of_le h]
    have hprops : (zipLoop env di reqs toks [] m.g_logger).props =
        ((reqs.zip toks).foldl (fun acc p => (zipBody env di p.1 p.2 acc.1 acc.2).state)
          ([], m.g_logger)).1 := by
      rw [← hst]
    refine ⟨?_, ?_, ?_⟩
    · simp [zipProperties, hnone, htok, hdrop]
    · simp only [zipProperties, hnone, htok]
      rw [← hdrop, List.length_drop]
    · simp [zipProperties, hnone, hprops]
  · intro env m ts dur pairs obs hall
    refine ⟨?_, by simp⟩
    have hlen : pairs.length ≤ (pairs.flatMap (fun p => [p.1, p.2])).length := by
      clear hall
      induction pairs with
      | nil => simp
      | cons p ps ih =>
        simp only [List.flatMap_cons, List.length_append, List.length_cons, List.length_nil]
        omega
    have h := mapLoop_scalar_pairs env m ⟨pairs.flatMap (fun p => [p.1, p.2]), ts, dur⟩ obs pairs []
      (pairs.flatMap (fun p => [p.1, p.2])).length hlen hall
    simp only [ShdrTokenMapper.apply, h, List.nil_append]

/-- Witness of C2 on the dictionary of `instances`: the Alarm `alarmX` takes its five
fields out of seven remaining tokens and leaves the next key and its value; and the
line `Xa|3.14|Yb|2.5` of two scalar Samples gives their two observations in order. -/
theorem mapping_consumes_schema_fields_witness :
    (mapTokensToDataItem instances.dictionary instances.freshMapper 5
        ["alarmX".toList, "OVERTEMP".toList, [], "HIGH".toList, "ACTIVE".toList,
          "coolant too hot".toList, "Xa".toList, "3.14".toList]).token
      = ["Xa".toList, "3.14".toList] ∧
    ShdrTokenMapper.apply instances.dictionary instances.freshMapper
        ⟨["Xa".toList, "3.14".toList, "Yb".toList, "2.5".toList], 5, none⟩ =
      Mapped.done ⟨[], 5, none,
        [⟨"Xa".toList, [("VALUE".toList, Value.string "3.14".toList)], some 5⟩,
         ⟨"Yb".toList, [("VALUE".toList, Value.string "2.5".toList)], some 5⟩]⟩
        instances.freshMapper := by
  constructor
  · have h := (mapping_consumes_schema_fields.1 instances.dictionary instances.freshMapper 5
      "alarmX".toList ["OVERTEMP".toList, [], "HIGH".toList, "ACTIVE".toList,
          "coolant too hot".toList, "Xa".toList, "3.14".toList]
      (instances.alarmEvent "alarmX".toList) s_alarm (by decide) (by decide)
      (by
        intro e h
        have h2 : ∃ o, (mapTokensToDataItem instances.dictionary instances.freshMapper 5
            ["alarmX".toList, "OVERTEMP".toList, [], "HIGH".toList, "ACTIVE".toList,
              "coolant too hot".toList, "Xa".toList, "3.14".toList]).out
              = Outcome.returned o := ⟨_, rfl⟩
        obtain ⟨o, ho⟩ := h2
        rw [ho] at h
        cases h)).1
    exact h
  · have h := (mapping_consumes_schema_fields.2 instances.dictionary instances.freshMapper 5 none
      [("Xa".toList, "3.14".toList), ("Yb".toList, "2.5".toList)]
      (fun p => ⟨p.1, [("VALUE".toList, Value.string p.2)], some 5⟩)
      (by
        intro p hp
        simp only [List.mem_cons, List.mem_singleton, List.not_mem_nil, or_false] at hp
        rcases hp with rfl | rfl
        · exact ⟨by decide, instances.scalarSample "Xa".toList,
            [("VALUE".toList, Value.string "3.14".toList)],
            by decide, rfl, rfl, rfl, by decide, by decide⟩
        · exact ⟨by decide, instances.scalarSample "Yb".toList,
            [("VALUE".toList, Value.string "2.5".toList)],
            by decide, rfl, rfl, rfl, by decide, by decide⟩)).1
    exact h

/-! ### An unknown data-item key -/

/-- Counterexample to C3 as stated.  In the frame `Zz|1|Xa|3.14`, where `Zz` is not in
the dictionary, the rest of the line is not skipped: the token `1` is looked up as
the next key (a second warning is logged for it), and the observation of `Xa` is
produced from the tokens that follow the unknown key. -/
theorem unknown_key_rest_of_line_is_mapped :
    instances.dictionary.m_getDataItem
        (instances.dictionary.m_getDevice ((splitKey "Zz".toList).2.getD []))
        (splitKey "Zz".toList).1 = none ∧
    ShdrTokenMapper.apply instances.dictionary instances.freshMapper
        ⟨["Zz".toList, "1".toList, "Xa".toList, "3.14".toList], 5, none⟩ =
      Mapped.done
        ⟨[], 5, none, [⟨"Xa".toList, [("VALUE".toList, Value.string "3.14".toList)], some 5⟩]⟩
        ⟨["Zz".toList, "1".toList],
         [⟨.LWARN, "() Could not find data item: Zz".toList⟩,
          ⟨.LWARN, "() Could not find data item: 1".toList⟩]⟩ ∧
    ¬ (∀ res mapper, ShdrTokenMapper.apply instances.dictionary instances.freshMapper
        ⟨["Zz".toList, "1".toList, "Xa".toList, "3.14".toList], 5, none⟩ = Mapped.done res mapper →
        res.value = []) := by
  have h : ShdrTokenMapper.apply instances.dictionary instances.freshMapper
        ⟨["Zz".toList, "1".toList, "Xa".toList, "3.14".toList], 5, none⟩ =
      Mapped.done
        ⟨[], 5, none, [⟨"Xa".toList, [("VALUE".toList, Value.string "3.14".toList)], some 5⟩]⟩
        ⟨["Zz".toList, "1".toList],
         [⟨.LWARN, "() Could not find data item: Zz".toList⟩,
          ⟨.LWARN, "() Could not find data item: 1".toList⟩]⟩ := by decide
  refine ⟨by decide, h, ?_⟩
  intro hall
  have := hall _ _ h
  simp at this

/-- Claim C3, amended.  When the key at the head of the tokens is an ordinary token
that the dictionary does not resolve, `mapTokensToDataItem` returns no entity and
consumes the key token only; the mapping loop resumes at the token that follows,
and the frame maps like the frame of the following tokens, taken up with the mapper
state that the failed lookup leaves. -/
theorem unknown_key_consumes_only_the_key (env : Collaborators) (m : ShdrTokenMapper)
    (ts : Timestamp) (dur : Option Decimal) (key : Str) (rest : TokenList)
    (hord : key.headD '\x00' ≠ '@')
    (hunknown : env.m_getDataItem (env.m_getDevice ((splitKey key).2.getD [])) (splitKey key).1
      = none) :
    (mapTokensToDataItem env m ts (key :: rest)).out = Outcome.returned none ∧
    (mapTokensToDataItem env m ts (key :: rest)).token = rest ∧
    (mapTokensToDataItem env m ts (key :: rest)).errors = [] ∧
    ShdrTokenMapper.apply env m ⟨key :: rest, ts, dur⟩ =
      ShdrTokenMapper.apply env (mapTokensToDataItem env m ts (key :: rest)).mapper
        ⟨rest, ts, dur⟩ := by
  have hne : (key.headD '\x00' == '@') = false := beq_eq_false_iff_ne.mpr hord
  have hout : (mapTokensToDataItem env m ts (key :: rest)).out = Outcome.returned none := by
    simp only [mapTokensToDataItem, hunknown]
    split <;> rfl
  have htok : (mapTokensToDataItem env m ts (key :: rest)).token = rest := by
    simp only [mapTokensToDataItem, hunknown]
    split <;> rfl
  have herr : (mapTokensToDataItem env m ts (key :: rest)).errors = [] := by
    simp only [mapTokensToDataItem, hunknown]
    split <;> rfl
  refine ⟨hout, htok, herr, ?_⟩
  have hstep : ∀ tokens, mapOne env ⟨tokens, ts, dur⟩ ⟨key :: rest, [], m⟩ =
      some ⟨rest, [], (mapTokensToDataItem env m ts (key :: rest)).mapper⟩ := by
    intro tokens
    cases dur <;> simp only [mapOne, hne, Bool.false_eq_true, if_false, hout, htok]
  have hindep : ∀ (fuel : Nat) (st : LoopState) (t1 t2 : TokenList),
      mapLoop env ⟨t1, ts, dur⟩ fuel st = mapLoop env ⟨t2, ts, dur⟩ fuel st := by
    intro fuel
    induction fuel with
    | zero => intro st t1 t2; simp only [mapLoop]
    | succ fuel ih =>
      intro st t1 t2
      have hone : mapOne env ⟨t1, ts, dur⟩ st = mapOne env ⟨t2, ts, dur⟩ st := rfl
      simp only [mapLoop, hone]
      cases st.token with
      | nil => rfl
      | cons t tl =>
        simp only
        cases mapOne env ⟨t2, ts, dur⟩ st with
        | none => rfl
        | some st2 => exact ih st2 t1 t2
  simp only [ShdrTokenMapper.apply, List.length_cons, mapLoop, hstep]
  rw [hindep rest.length _ (key :: rest) rest]

/-- Witness of the amended C3 on the dictionary of `instances`, for the unknown key
`Zz` followed by `1|Xa|3.14`. -/
theorem unknown_key_consumes_only_the_key_witness :
    "Zz".toList.headD '\x00' ≠ '@' ∧
    (mapTokensToDataItem instances.dictionary instances.freshMapper 5
      ["Zz".toList, "1".toList, "Xa".toList, "3.14".toList]).token
      = ["1".toList, "Xa".toList, "3.14".toList] ∧
    ShdrTokenMapper.apply instances.dictionary instances.freshMapper
        ⟨["Zz".toList, "1".toList, "Xa".toList, "3.14".toList], 5, none⟩ =
      ShdrTokenMapper.apply instances.dictionary
        (mapTokensToDataItem instances.dictionary instances.freshMapper 5
          ["Zz".toList, "1".toList, "Xa".toList, "3.14".toList]).mapper
        ⟨["1".toList, "Xa".toList, "3.14".toList], 5, none⟩ :=
  ⟨by decide,
   (unknown_key_consumes_only_the_key instances.dictionary instances.freshMapper 5 none
      "Zz".toList ["1".toList, "Xa".toList, "3.14".toList] (by decide) (by decide)).2.1,
   (unknown_key_consumes_only_the_key instances.dictionary instances.freshMapper 5 none
      "Zz".toList ["1".toList, "Xa".toList, "3.14".toList] (by decide) (by decide)).2.2.2⟩

end source

/-! ### Searching and slicing strings -/

/-- A search that skips a first part without a match continues in the second part. -/
theorem findIf_append_of_forall_false (p : Char → Bool) :
    ∀ (l1 l2 : Str), (∀ x ∈ l1, p x = false) →
      findIf p (l1 ++ l2) = (findIf p l2).map (· + l1.length) := by
  intro l1
  induction l1 with
  | nil => intro l2 _; simp
  | cons a l1 ih =>
    intro l2 h
    have ha : p a = false := h a (List.mem_cons_self _ _)
    have ht : ∀ x ∈ l1, p x = false := fun x hx => h x (List.mem_cons_of_mem _ hx)
    have hc : findIf p (a :: l1 ++ l2) = (findIf p (l1 ++ l2)).map (· + 1) := by
      show findIf p (a :: (l1 ++ l2)) = _
      simp only [findIf, ha, Bool.false_eq_true, if_false]
    rw [hc, ih l2 ht]
    cases findIf p l2 with
    | none => rfl
    | some i =>
      simp only [Option.map_some', List.length_cons, Option.some.injEq]
      omega

/-- A search in a string without a match finds nothing. -/
theorem findIf_eq_none_of_forall_false (p : Char → Bool) :
    ∀ (l : Str), (∀ x ∈ l, p x = false) → findIf p l = none := by
  intro l
  induction l with
  | nil => intro _; rfl
  | cons a l ih =>
    intro h
    have ha : p a = false := h a (List.mem_cons_self _ _)
    simp [findIf, ha, ih (fun x hx => h x (List.mem_cons_of_mem _ hx))]

/-- The position of the first `ch` in `l1 ++ ch :: l2`, when `l1` has none. -/
theorem find_append_cons (ch : Char) (l1 l2 : Str) (h : ch ∉ l1) :
    find (l1 ++ ch :: l2) ch = l1.length := by
  have hall : ∀ x ∈ l1, (fun c => c == ch) x = false := by
    intro x hx
    simp only [beq_eq_false_iff_ne, ne_eq]
    rintro rfl
    exact h hx
  simp [find, findIf_append_of_forall_false _ l1 (ch :: l2) hall, findIf]

/-- The search for a character that the string does not contain gives `npos`. -/
theorem find_eq_npos_of_not_mem (ch : Char) (l : Str) (h : ch ∉ l) : find l ch = npos := by
  have hall : ∀ x ∈ l, (fun c => c == ch) x = false := by
    intro x hx
    simp only [beq_eq_false_iff_ne, ne_eq]
    rintro rfl
    exact h hx
  simp [find, findIf_eq_none_of_forall_false _ l hall]

namespace source

open entity

/-! ### The device prefix of a key -/

/-- Claim C4, as the code has it.  For a key `device:item` with a non-empty device name
without `:`, `splitKey` returns `item` as the data-item key, but as device it returns
the device name without its last character (`substr(0, c - 1)` takes `c - 1`
characters), which differs from the device name; for a key without `:` it returns the
whole key and no device. -/
theorem splitKey_drops_last_device_character (device item : Str)
    (hne : device ≠ []) (hcolon : ':' ∉ device)
    (hlen : (device ++ ':' :: item).length < sizeMod) :
    splitKey (device ++ ':' :: item) = (item, some device.dropLast) ∧
    device.dropLast ≠ device ∧
    (∀ key : Str, ':' ∉ key → splitKey key = (key, none)) := by
  have hfind := find_append_cons ':' device item hcolon
  have hpos : 0 < device.length := List.length_pos.mpr hne
  simp only [List.length_append, List.length_cons] at hlen
  have hnpos : (device.length != npos) = true := by
    simp only [bne_iff_ne, ne_eq, npos]
    omega
  have hadd : sizeAdd device.length 1 = device.length + 1 := by
    simp only [sizeAdd]
    exact Nat.mod_eq_of_lt (by omega)
  have hsub : sizeSub device.length 1 = device.length - 1 := by
    have h1 : (1 : Nat) % sizeMod = 1 := Nat.mod_eq_of_lt (by simp [sizeMod])
    simp only [sizeSub, h1]
    have h2 : device.length + sizeMod - 1 = (device.length - 1) + sizeMod := by omega
    rw [h2, Nat.add_mod_right]
    exact Nat.mod_eq_of_lt (by omega)
  refine ⟨?_, ?_, ?_⟩
  · simp only [splitKey, hfind, hnpos, if_true, hadd, hsub, substr]
    have hd : List.drop (device.length + 1) (device ++ ':' :: item) = item := by
      rw [show device ++ ':' :: item = (device ++ [':']) ++ item by simp]
      rw [List.drop_append_of_le_length (by simp)]
      simp
    have hmin1 : min npos ((device ++ ':' :: item).length - (device.length + 1)) = item.length := by
      simp only [List.length_append, List.length_cons, npos]
      omega
    have hmin2 : min (device.length - 1) ((device ++ ':' :: item).length - 0)
        = device.length - 1 := by
      simp only [List.length_append, List.length_cons]
      omega
    rw [hd, hmin1, hmin2, List.take_length, List.drop_zero,
      List.take_append_of_le_length (by omega), List.dropLast_eq_take]
  · intro h
    have := congrArg List.length h
    simp only [List.length_dropLast] at this
    omega
  · intro key hkey
    simp [splitKey, find_eq_npos_of_not_mem ':' key hkey]

/-- Witness of C4 at the key `dev:Xa`: the data-item key is `Xa`, the device handed to
the device lookup is `de`, not `dev`. -/
theorem splitKey_drops_last_device_character_witness :
    splitKey "dev:Xa".toList = ("Xa".toList, some "de".toList) ∧
    "de".toList ≠ "dev".toList :=
  ⟨(splitKey_drops_last_device_character "dev".toList "Xa".toList (by decide) (by decide)
      (by decide)).1,
   (splitKey_drops_last_device_character "dev".toList "Xa".toList (by decide) (by decide)
      (by decide)).2.1⟩

/-! ### The duration suffix of a time stamp -/

/-- Claim C9, as the code has it.  On the token `2021-01-19T12:00:00.123Z@1.5` the
function `getDuration` truncates the token to `2021-01-19T12:00:00.123Z`, but the
duration it returns is `2021`, the number at the start of the token, where `std::stod`
begins to read; it is not `1.5`, the number behind the `@`.  A token whose text before
the `@` does not start with a number makes `std::stod` raise `invalid_argument`.  A
token without `@` gives no duration and is left unchanged. -/
theorem getDuration_reads_from_token_start :
    getDuration "2021-01-19T12:00:00.123Z@1.5".toList =
      DurationResult.returned (some ⟨2021, 0⟩) "2021-01-19T12:00:00.123Z".toList ∧
    stod "1.5".toList = some (⟨15, -1⟩, 3) ∧
    getDuration "2021-01-19T12:00:00.123Z@1.5".toList ≠
      DurationResult.returned (some ⟨15, -1⟩) "2021-01-19T12:00:00.123Z".toList ∧
    getDuration "T12:00:00Z@1.5".toList = DurationResult.invalid_argument ∧
    getDuration "2021-01-19T12:00:00.123Z".toList =
      DurationResult.returned none "2021-01-19T12:00:00.123Z".toList := by
  refine ⟨by decide, by decide, by decide, by decide, by decide⟩

/-! ### The token `UNAVAILABLE` -/

/-- The comparison of `unavailable` holds exactly when the first string, upper-cased,
is the second one. -/
theorem equal_toupper_iff :
    ∀ (s t : Str), equal (fun a b => toupper a == b) s t = true ↔ s.map toupper = t := by
  intro s
  induction s with
  | nil =>
    intro t
    cases t <;> simp [equal]
  | cons a s ih =>
    intro t
    cases t with
    | nil => simp [equal]
    | cons b t => simp [equal, ih t]

/-- A token that reads `UNAVAILABLE` in some case contains no colon. -/
theorem not_colon_mem_of_unavailable (tok : Str) (h : unavailable tok = true) : ':' ∉ tok := by
  intro hmem
  have hup : tok.map toupper = "UNAVAILABLE".toList := (equal_toupper_iff tok _).mp h
  have : toupper ':' ∈ tok.map toupper := List.mem_map_of_mem _ hmem
  rw [hup] at this
  revert this
  decide

/-- Claim C10.  The function `unavailable` holds of a token exactly when the token,
upper-cased, is `UNAVAILABLE` (same length, every character matching up to ASCII
case).  For such a token paired with the field `VALUE` or `level`, the body of the
loop of `zipProperties` goes on with the properties and the log unchanged, whatever
the conversion function is: the token is not converted and no property is set.
Paired with any other field the token takes the ordinary path: it is handed to
`convertType` as it is and stored under the name of the field when converted. -/
theorem zipBody_unavailable :
    (∀ tok : Str, unavailable tok = true ↔ upcase tok = "UNAVAILABLE".toList) ∧
    (∀ (env : Collaborators) (di : DataItem) (req : Requirement) (tok : Str)
        (props : Properties) (lg : List LogEntry),
      unavailable tok = true →
      tok.length = 11 ∧
      ((req.getName = "VALUE".toList ∨ req.getName = "level".toList) →
        zipBody env di req tok props lg = ZipBody.next props lg) ∧
      (req.getName ≠ "VALUE".toList → req.getName ≠ "level".toList →
        zipBody env di req tok props lg =
          match env.convertType req di.isTable (Value.string tok) with
          | .converted v => ZipBody.next (props.insert_or_assign req.getName v) lg
          | .notConverted =>
            ZipBody.next props (lg ++ [⟨.LWARN, "Cannot convert value for: ".toList ++ tok⟩])
          | .raised e =>
            ZipBody.raised props
              (lg ++ [⟨.LWARN,
                "Cannot convert value for: ".toList ++ tok ++ " - ".toList ++ e.what⟩]) e)) := by
  constructor
  · intro tok
    exact equal_toupper_iff tok _
  · intro env di req tok props lg hu
    have hup : tok.map toupper = "UNAVAILABLE".toList := (equal_toupper_iff tok _).mp hu
    have hlen : tok.length = 11 := by
      have := congrArg List.length hup
      simpa using this
    have hne : tok.isEmpty = false := by
      cases tok with
      | nil => simp at hlen
      | cons a t => rfl
    refine ⟨hlen, ?_, ?_⟩
    · intro hname
      rcases hname with h | h <;> simp [zipBody, hne, hu, h]
    · intro h1 h2
      have hfind : find tok ':' = npos :=
        find_eq_npos_of_not_mem ':' tok (not_colon_mem_of_unavailable tok hu)
      have hex : extractResetTrigger di tok props = (tok, props) := by
        simp [extractResetTrigger, hfind]
      have hb1 : (req.getName == "VALUE".toList) = false := beq_eq_false_iff_ne.mpr h1
      have hb2 : (req.getName == "level".toList) = false := beq_eq_false_iff_ne.mpr h2
      simp only [zipBody, hne, hu, hb1, hb2, hex, Bool.false_eq_true, if_false, Bool.or_self,
        Bool.and_false]

/-- Witness of C10: the token `Unavailable` paired with `VALUE` sets nothing, and
paired with `nativeCode` it is stored as an ordinary value. -/
theorem zipBody_unavailable_witness :
    unavailable "Unavailable".toList = true ∧
    zipBody instances.dictionary (instances.alarmEvent "alarmX".toList)
        ⟨"VALUE".toList, .STRING, false⟩ "Unavailable".toList [] [] = ZipBody.next [] [] ∧
    zipBody instances.dictionary (instances.alarmEvent "alarmX".toList)
        ⟨"nativeCode".toList, .STRING, false⟩ "Unavailable".toList [] [] =
      ZipBody.next [("nativeCode".toList, Value.string "Unavailable".toList)] [] :=
  ⟨by decide,
   (zipBody_unavailable.2 instances.dictionary (instances.alarmEvent "alarmX".toList)
      ⟨"VALUE".toList, .STRING, false⟩ "Unavailable".toList [] [] (by decide)).2.1
      (Or.inl rfl),
   (zipBody_unavailable.2 instances.dictionary (instances.alarmEvent "alarmX".toList)
      ⟨"nativeCode".toList, .STRING, false⟩ "Unavailable".toList [] [] (by decide)).2.2
      (by decide) (by decide)⟩

end source

/-! ### Decimal numerals -/

/-- The decimal digit characters: each is a digit with the expected value, occurs in
the digit set searched by `startHeartbeats`, and is neither white space nor a sign. -/
theorem digitChar_props :
    ∀ d, d < 10 →
      isdigit (Nat.digitChar d) = true ∧ digitVal (Nat.digitChar d) = d ∧
      "0123456789".toList.contains (Nat.digitChar d) = true ∧
      isspace (Nat.digitChar d) = false ∧ Nat.digitChar d ≠ '-' ∧ Nat.digitChar d ≠ '+' ∧
      " \t\n\r".toList.contains (Nat.digitChar d) = false := by
  decide

/-- The numeral that `Nat.toDigitsCore` puts in front of its accumulator: a non-empty
string of decimal digit characters whose value is the number. -/
theorem toDigitsCore_decimal :
    ∀ (fuel n : Nat) (ds : List Char), n < fuel →
      ∃ l : List Char, Nat.toDigitsCore 10 fuel n ds = l ++ ds ∧ l ≠ [] ∧ l.length ≤ fuel ∧
        (∀ c ∈ l, ∃ d, d < 10 ∧ c = Nat.digitChar d) ∧
        l.foldl (fun acc c => acc * 10 + digitVal c) 0 = n := by
  intro fuel
  induction fuel with
  | zero => intro n ds h; omega
  | succ fuel ih =>
    intro n ds hn
    have hd : n % 10 < 10 := Nat.mod_lt _ (by decide)
    by_cases h0 : n / 10 = 0
    · refine ⟨[Nat.digitChar (n % 10)], ?_, by simp, by simp, ?_, ?_⟩
      · simp [Nat.toDigitsCore, h0]
      · intro c hc
        simp only [List.mem_singleton] at hc
        exact ⟨n % 10, hd, hc⟩
      · simp only [List.foldl_cons, List.foldl_nil, Nat.zero_mul, Nat.zero_add,
          (digitChar_props _ hd).2.1]
        omega
    · have hlt : n / 10 < fuel := by omega
      obtain ⟨l, hl, _, hlen, hdig, hval⟩ := ih (n / 10) (Nat.digitChar (n % 10) :: ds) hlt
      refine ⟨l ++ [Nat.digitChar (n % 10)], ?_, by simp, ?_, ?_, ?_⟩
      · simp [Nat.toDigitsCore, h0, hl]
      · simp only [List.length_append, List.length_cons, List.length_nil]
        omega
      · intro c hc
        simp only [List.mem_append, List.mem_singleton] at hc
        rcases hc with hc | hc
        · exact hdig c hc
        · exact ⟨n % 10, hd, hc⟩
      · simp only [List.foldl_append, List.foldl_cons, List.foldl_nil, hval,
          (digitChar_props _ hd).2.1]
        omega

/-- The numeral `Nat.toDigits 10 n`: a non-empty string of decimal digit characters
whose value is `n`. -/
theorem toDigits_decimal (n : Nat) :
    Nat.toDigits 10 n ≠ [] ∧ (Nat.toDigits 10 n).length ≤ n + 1 ∧
      (∀ c ∈ Nat.toDigits 10 n, ∃ d, d < 10 ∧ c = Nat.digitChar d) ∧
      (Nat.toDigits 10 n).foldl (fun acc c => acc * 10 + digitVal c) 0 = n := by
  obtain ⟨l, hl, hne, hlen, hdig, hval⟩ := toDigitsCore_decimal (n + 1) n [] (Nat.lt_succ_self n)
  have : Nat.toDigits 10 n = l := by simp [Nat.toDigits, hl]
  rw [this]
  exact ⟨hne, hlen, hdig, hval⟩

/-- Reading the digits of a string made of decimal digit characters reads all of it. -/
theorem readDigits_of_digits (l : Str) (h : ∀ c ∈ l, ∃ d, d < 10 ∧ c = Nat.digitChar d) :
    source.readDigits l = (l.foldl (fun acc c => acc * 10 + digitVal c) 0, l.length) := by
  have hall : l.takeWhile isdigit = l := by
    rw [List.takeWhile_eq_self_iff]
    intro c hc
    obtain ⟨d, hd, rfl⟩ := h c hc
    exact (digitChar_props d hd).1
  simp [source.readDigits, hall]

/-- A string that starts with neither sign has no sign. -/
theorem readSign_cons_of_ne (a : Char) (t : Str) (h1 : a ≠ '-') (h2 : a ≠ '+') :
    source.readSign (a :: t) = (false, 0) := by
  unfold source.readSign
  split
  · rename_i heq
    simp only [List.cons.injEq] at heq
    exact absurd heq.1 h1
  · rename_i heq
    simp only [List.cons.injEq] at heq
    exact absurd heq.1 h2
  · rfl

/-- The last match of a search in a string whose last character matches is that
character. -/
theorem findLastIf_concat (p : Char → Bool) (z : Char) (hz : p z = true) :
    ∀ l : Str, findLastIf p (l ++ [z]) = some l.length := by
  intro l
  induction l with
  | nil => simp [findLastIf, hz]
  | cons a l ih => simp [findLastIf, ih]

/-- Reading a line from a stream that holds the line, a newline and more, when the
line has no newline in it. -/
theorem getline_append_newline (line rest : Str) (h : '\n' ∉ line) :
    adapter.Connector.getline (line ++ '\n' :: rest) = (line, rest) := by
  have hall : ∀ a ∈ line, (fun c : Char => c != '\n') a = true := by
    intro a ha
    simp only [bne_iff_ne, ne_eq]
    rintro rfl
    exact h ha
  simp only [adapter.Connector.getline, List.takeWhile_append_of_pos hall,
    List.dropWhile_append_of_pos hall]
  simp

namespace adapter

open Connector

/-- On a decimal numeral below `2 ^ 31`, `atoi` gives the number. -/
theorem atoi_toDigits (n : Nat) (hn : n < 2 ^ 31) :
    Connector.atoi (Nat.toDigits 10 n) = (n : Int) := by
  obtain ⟨hne, _, hdig, hval⟩ := toDigits_decimal n
  cases hl : Nat.toDigits 10 n with
  | nil => exact absurd hl hne
  | cons a t =>
    rw [hl] at hdig hval
    obtain ⟨d, hd, ha⟩ := hdig a (List.mem_cons_self _ _)
    have hp := digitChar_props d hd
    rw [← ha] at hp
    have hws : (a :: t).dropWhile isspace = a :: t := by
      simp [List.dropWhile, hp.2.2.2.1]
    have hsign := readSign_cons_of_ne a t hp.2.2.2.2.1 hp.2.2.2.2.2.1
    have hread := readDigits_of_digits (a :: t) hdig
    rw [hval] at hread
    simp only [Connector.atoi, hws, hsign, List.drop_zero, hread, Bool.false_eq_true, if_false]
    have h31 : (2 : Int) ^ 31 = 2147483648 := by norm_num
    have h32 : (2 : Int) ^ 32 = 4294967296 := by norm_num
    have h63 : (2 : Int) ^ 63 = 9223372036854775808 := by norm_num
    have hn' : (n : Int) < 2147483648 := by
      have : n < 2147483648 := by simpa using hn
      exact_mod_cast this
    have hn0 : (0 : Int) ≤ n := Int.ofNat_nonneg n
    rw [h31, h32, h63]
    have hmin : min (n : Int) (9223372036854775808 - 1) = n := min_eq_left (by omega)
    have hmax : max (-9223372036854775808 : Int) n = n := max_eq_right (by omega)
    rw [hmin, hmax]
    omega

/-- What `startHeartbeats` does on the line `* PONG <n>` for a decimal numeral `n`
below `2 ^ 31`: inside the window it switches heartbeats on with frequency `n`, sets
the receive limit to `2 n`, and arms the receive timeout and the heartbeat timer;
outside it leaves the connector as it is. -/
theorem startHeartbeats_pong_eq (c : Connector) (n : Nat) (hn : n < 2 ^ 31) :
    startHeartbeats c ("* PONG ".toList ++ Nat.toDigits 10 n) =
      if 0 < n ∧ n < 1800000 then
        { c with m_heartbeats := true, m_heartbeatFrequency := (n : Int),
                 m_receiveTimeLimit := 2 * (n : Int),
                 m_receiveTimeout := some (2 * (n : Int), Handler.receiveTimeout),
                 m_heartbeatTimer := some ((n : Int), Handler.heartbeat) }
      else c := by
  have hatoi := atoi_toDigits n hn
  obtain ⟨hne, hlen, hdig, _⟩ := toDigits_decimal n
  cases hl : Nat.toDigits 10 n with
  | nil => exact absurd hl hne
  | cons a t =>
    rw [hl] at hatoi hdig hlen
    obtain ⟨d, hd, ha⟩ := hdig a (List.mem_cons_self _ _)
    have hp := digitChar_props d hd
    rw [← ha] at hp
    have hpre : "* PONG ".toList = ['*', ' ', 'P', 'O', 'N', 'G', ' '] := rfl
    have hpos : find_first_of ("* PONG ".toList ++ a :: t) "0123456789".toList 7 = 7 := by
      simp only [find_first_of, hpre, List.cons_append, List.nil_append, List.drop_succ_cons,
        List.drop_zero, findIf, hp.2.2.1, if_true, Nat.add_zero]
    have hsub : substr ("* PONG ".toList ++ a :: t) 7 npos = a :: t := by
      simp only [substr, hpre, List.cons_append, List.nil_append, List.drop_succ_cons,
        List.drop_zero, List.length_cons]
      have hmin : min npos (t.length + 1 + 1 + 1 + 1 + 1 + 1 + 1 + 1 - 7) = (a :: t).length := by
        simp only [List.length_cons, npos, sizeMod] at hlen ⊢
        have : n < 2147483648 := by simpa using hn
        omega
      rw [hmin, List.take_length]
    have hlen7 : decide (("* PONG ".toList ++ a :: t).length > 7) = true := by
      simp [hpre]
    have h6 : (("* PONG ".toList ++ a :: t).getD 6 '\x00' == ' ') = true := by
      simp [hpre]
    have hnp : ((7 : Nat) != npos) = true := by decide
    simp only [startHeartbeats, hpos, hsub, hatoi, hlen7, h6, hnp, Bool.and_self, if_true,
      setReceiveTimeout]
    by_cases hw : 0 < n ∧ n < 1800000
    · have h1 : decide ((n : Int) > 0) = true := by
        simp only [gt_iff_lt, decide_eq_true_eq]
        exact_mod_cast hw.1
      have h2 : decide ((n : Int) < 30 * 60 * 1000) = true := by
        simp only [decide_eq_true_eq]
        have := hw.2
        omega
      simp only [h1, h2, Bool.and_self, if_true, hw, and_self]
    · have h12 : (decide ((n : Int) > 0) && decide ((n : Int) < 30 * 60 * 1000)) = false := by
        rw [Bool.and_eq_false_iff]
        simp only [gt_iff_lt, decide_eq_false_iff_not, not_lt]
        by_cases h0 : 0 < n
        · right
          have : ¬ n < 1800000 := fun h => hw ⟨h0, h⟩
          omega
        · left
          omega
      simp only [h12, Bool.false_eq_true, if_false, hw]

/-- The line `* PONG <n>`, read from the incoming stream while heartbeats are off, is
handed to `startHeartbeats` as it is, after the receive timeout has been set. -/
theorem parseSocketBuffer_pong (c : Connector) (n : Nat) (rest : Str) (hn : n < 2 ^ 31)
    (hoff : c.m_heartbeats = false)
    (hin : c.m_incoming = "* PONG ".toList ++ Nat.toDigits 10 n ++ '\n' :: rest) :
    parseSocketBuffer c =
      startHeartbeats { setReceiveTimeout c with m_incoming := rest }
        ("* PONG ".toList ++ Nat.toDigits 10 n) := by
  obtain ⟨hne, hlen, hdig, _⟩ := toDigits_decimal n
  have hpre : "* PONG ".toList = ['*', ' ', 'P', 'O', 'N', 'G', ' '] := rfl
  have hnl : '\n' ∉ "* PONG ".toList ++ Nat.toDigits 10 n := by
    intro hmem
    rcases List.mem_append.mp hmem with h | h
    · revert h; decide
    · obtain ⟨d, hd, hc⟩ := hdig _ h
      have := (digitChar_props d hd).2.2.2.2.2.2
      rw [← hc] at this
      revert this
      decide
  have hget := getline_append_newline _ rest hnl
  have hlast : Nat.toDigits 10 n = (Nat.toDigits 10 n).dropLast ++ [(Nat.toDigits 10 n).getLast hne] :=
    (List.dropLast_concat_getLast hne).symm
  obtain ⟨d, hd, hz⟩ := hdig _ (List.getLast_mem hne)
  have hpz : (fun c : Char => !" \t\n\r".toList.contains c) ((Nat.toDigits 10 n).getLast hne) = true := by
    have := (digitChar_props d hd).2.2.2.2.2.2
    rw [← hz] at this
    simp only [this, Bool.not_false]
  have hlen2 : ("* PONG ".toList ++ Nat.toDigits 10 n).length
      = ("* PONG ".toList ++ (Nat.toDigits 10 n).dropLast).length + 1 := by
    conv_lhs => rw [hlast]
    simp only [List.length_append, List.length_cons, List.length_nil]
    omega
  have hend : find_last_not_of ("* PONG ".toList ++ Nat.toDigits 10 n) " \t\n\r".toList
      = ("* PONG ".toList ++ (Nat.toDigits 10 n).dropLast).length := by
    have := findLastIf_concat (fun c : Char => !" \t\n\r".toList.contains c)
      ((Nat.toDigits 10 n).getLast hne) hpz ("* PONG ".toList ++ (Nat.toDigits 10 n).dropLast)
    rw [List.append_assoc, ← hlast] at this
    simp only [find_last_not_of, this, Option.getD_some]
  have hbound : ("* PONG ".toList ++ Nat.toDigits 10 n).length < npos := by
    have h7 : "* PONG ".toList.length = 7 := rfl
    have : n < 2147483648 := by simpa using hn
    simp only [List.length_append, h7, npos, sizeMod]
    omega
  have hnp : (("* PONG ".toList ++ (Nat.toDigits 10 n).dropLast).length != npos) = true := by
    simp only [bne_iff_ne, ne_eq]
    omega
  have hadd : sizeAdd ("* PONG ".toList ++ (Nat.toDigits 10 n).dropLast).length 1
      = ("* PONG ".toList ++ Nat.toDigits 10 n).length := by
    rw [hlen2]
    simp only [sizeAdd]
    apply Nat.mod_eq_of_lt
    rw [← hlen2]
    simp only [npos, sizeMod] at hbound ⊢
    omega
  have herase : mtconnect.erase ("* PONG ".toList ++ Nat.toDigits 10 n)
      ("* PONG ".toList ++ Nat.toDigits 10 n).length = "* PONG ".toList ++ Nat.toDigits 10 n := by
    simp [mtconnect.erase]
  have hempty : ("* PONG ".toList ++ Nat.toDigits 10 n).isEmpty = false := by
    simp [hpre]
  have hstar : (("* PONG ".toList ++ Nat.toDigits 10 n).getD 0 '\x00' == '*') = true := by
    simp [hpre]
  have hsix : (substr ("* PONG ".toList ++ Nat.toDigits 10 n) 0 6 == "* PONG".toList) = true := by
    have h6 : min 6 (("* PONG ".toList ++ Nat.toDigits 10 n).length - 0) = 6 := by
      have h7 : "* PONG ".toList.length = 7 := rfl
      simp only [List.length_append, h7]
      omega
    simp only [substr, h6, List.drop_zero]
    simp [hpre]
  have hin' : (setReceiveTimeout c).m_incoming
      = "* PONG ".toList ++ Nat.toDigits 10 n ++ '\n' :: rest := hin
  have hoff' : (setReceiveTimeout c).m_heartbeats = false := hoff
  simp only [parseSocketBuffer, hin', hget, hempty, hend, hnp, hadd, herase, hstar, hsix,
    hoff', Bool.false_eq_true, if_false, if_true, Bool.not_false]

/-- Claim C5.  A line `* PONG <n>`, with `n` a decimal numeral below `2 ^ 31`, that is
read while heartbeats are not yet active is handed to `startHeartbeats`, which
enables heartbeats if and only if `1 ≤ n < 1 800 000`; when it does, the heartbeat
frequency is `n` milliseconds and the receive time limit is exactly `2 n`
milliseconds. -/
theorem pong_enables_heartbeats_in_window (c : Connector) (n : Nat) (rest : Str)
    (hn : n < 2 ^ 31) (hoff : c.m_heartbeats = false)
    (hin : c.m_incoming = "* PONG ".toList ++ Nat.toDigits 10 n ++ '\n' :: rest) :
    parseSocketBuffer c =
      startHeartbeats { setReceiveTimeout c with m_incoming := rest }
        ("* PONG ".toList ++ Nat.toDigits 10 n) ∧
    ((startHeartbeats c ("* PONG ".toList ++ Nat.toDigits 10 n)).m_heartbeats = true ↔
      (1 ≤ n ∧ n < 1800000)) ∧
    ((parseSocketBuffer c).m_heartbeats = true ↔ (1 ≤ n ∧ n < 1800000)) ∧
    (1 ≤ n → n < 1800000 →
      (startHeartbeats c ("* PONG ".toList ++ Nat.toDigits 10 n)).m_heartbeatFrequency = (n : Int) ∧
      (startHeartbeats c ("* PONG ".toList ++ Nat.toDigits 10 n)).m_receiveTimeLimit
        = 2 * (n : Int) ∧
      (parseSocketBuffer c).m_heartbeatFrequency = (n : Int) ∧
      (parseSocketBuffer c).m_receiveTimeLimit = 2 * (n : Int)) := by
  have hparse := parseSocketBuffer_pong c n rest hn hoff hin
  have h1 := startHeartbeats_pong_eq c n hn
  have h2 := startHeartbeats_pong_eq { setReceiveTimeout c with m_incoming := rest } n hn
  refine ⟨hparse, ?_, ?_, ?_⟩
  · rw [h1]
    by_cases hw : 0 < n ∧ n < 1800000
    · rw [if_pos hw]
      exact ⟨fun _ => ⟨hw.1, hw.2⟩, fun _ => rfl⟩
    · rw [if_neg hw, hoff]
      exact ⟨fun h => absurd h (by decide), fun h => absurd ⟨h.1, h.2⟩ hw⟩
  · rw [hparse, h2]
    by_cases hw : 0 < n ∧ n < 1800000
    · rw [if_pos hw]
      exact ⟨fun _ => ⟨hw.1, hw.2⟩, fun _ => rfl⟩
    · rw [if_neg hw]
      have hoff2 : ({ setReceiveTimeout c with m_incoming := rest } : Connector).m_heartbeats
          = false := hoff
      rw [hoff2]
      exact ⟨fun h => absurd h (by decide), fun h => absurd ⟨h.1, h.2⟩ hw⟩
  · intro ha hb
    have hw : 0 < n ∧ n < 1800000 := ⟨by omega, hb⟩
    rw [hparse, h1, h2]
    simp only [hw, and_self, if_true]

/-- Witness of C5: the connector of `instances`, just connected, receives the line
`* PONG 500`. -/
theorem pong_enables_heartbeats_in_window_witness :
    (parseSocketBuffer
        { instances.connectedConnector with m_incoming := "* PONG 500\n".toList }).m_heartbeats
      = true ∧
    (parseSocketBuffer
        { instances.connectedConnector with m_incoming := "* PONG 500\n".toList }).m_heartbeatFrequency
      = 500 ∧
    (parseSocketBuffer
        { instances.connectedConnector with m_incoming := "* PONG 500\n".toList }).m_receiveTimeLimit
      = 1000 :=
  have h := pong_enables_heartbeats_in_window
    { instances.connectedConnector with m_incoming := "* PONG 500\n".toList } 500 []
    (by decide) (by decide) (by decide)
  ⟨h.2.2.1.mpr (by decide), (h.2.2.2 (by decide) (by decide)).2.2.1,
    (h.2.2.2 (by decide) (by decide)).2.2.2⟩

/-! ### The heartbeat line -/

/-- Claim C6, as the code has it.  When the heartbeat timer fires on a connected
session, `heartbeat` re-arms the heartbeat timer to the heartbeat frequency, but the
line it appends to the outgoing stream is `* * PING` and a newline: it passes
`* PING` to `sendCommand`, which puts `* ` in front of every command.  The line
written on a successful connect, `sendCommand("PING")`, is `* PING` and a newline,
so the two lines differ. -/
theorem heartbeat_sends_doubled_marker (c : Connector) (hc : c.m_connected = true) :
    (heartbeat c ErrorCode.success).m_outgoing = c.m_outgoing ++ "* * PING\n".toList ∧
    (heartbeat c ErrorCode.success).m_heartbeatTimer
      = some (c.m_heartbeatFrequency, Handler.heartbeat) ∧
    (sendCommand c "PING".toList).m_outgoing = c.m_outgoing ++ "* PING\n".toList ∧
    (heartbeat c ErrorCode.success).m_outgoing ≠ (sendCommand c "PING".toList).m_outgoing := by
  have h1 : (heartbeat c ErrorCode.success).m_outgoing = c.m_outgoing ++ "* * PING\n".toList := by
    simp only [heartbeat, sendCommand, hc, if_true]
    rfl
  have h2 : (sendCommand c "PING".toList).m_outgoing = c.m_outgoing ++ "* PING\n".toList := by
    simp only [sendCommand, hc, if_true]
    rfl
  refine ⟨h1, ?_, h2, ?_⟩
  · simp only [heartbeat, sendCommand, hc, if_true]
  · rw [h1, h2]
    intro h
    have := List.append_cancel_left h
    revert this
    decide

/-- Witness of C6: the connector of `instances` wrote `* PING` when it connected; after
`* PONG 500` has started the heartbeats and the heartbeat timer has expired once, the
outgoing stream holds `* PING` followed by `* * PING`. -/
theorem heartbeat_sends_doubled_marker_witness :
    instances.connectedConnector.m_connected = true ∧
    instances.connectedConnector.m_outgoing = "* PING\n".toList ∧
    (heartbeat instances.connectedConnector ErrorCode.success).m_outgoing
      = "* PING\n".toList ++ "* * PING\n".toList ∧
    (instances.connectedConnector.run
        [Event.readDone ErrorCode.success "* PONG 500\n".toList,
         Event.heartbeatTimerExpired]).m_outgoing
      = "* PING\n* * PING\n".toList :=
  ⟨by decide, by decide,
   (heartbeat_sends_doubled_marker instances.connectedConnector (by decide)).1,
   by decide⟩

/-! ### Failures of the session -/

/-- A connector that is not connected and has no timer armed stays so under every
event but the completion of a connect, and no virtual method is called. -/
theorem handle_closed (d : Connector) (hconn : d.m_connected = false)
    (h1 : d.m_timer = none) (h2 : d.m_heartbeatTimer = none) (h3 : d.m_receiveTimeout = none)
    (e : Event) (hev : ∀ ec, e ≠ Event.connectDone ec) :
    (handle d e).m_connected = false ∧ (handle d e).m_timer = none ∧
    (handle d e).m_heartbeatTimer = none ∧ (handle d e).m_receiveTimeout = none ∧
    (handle d e).calls = d.calls := by
  cases e with
  | connectDone ec => exact absurd rfl (hev ec)
  | readDone ec bytes => simp [handle, reader, hconn, h1, h2, h3]
  | writeDone ec =>
    cases ec <;> simp [handle, writer, ErrorCode.isError, close, hconn, h1, h2, h3]
  | timerExpired => simp [handle, h1, hconn, h2, h3]
  | heartbeatTimerExpired => simp [handle, h2, hconn, h1, h3]
  | receiveTimeoutExpired => simp [handle, h3, hconn, h1, h2]

/-- A connector that is not connected and has no timer armed stays so under every
sequence of events without the completion of a connect. -/
theorem run_closed (events : List Event) :
    ∀ (d : Connector), d.m_connected = false → d.m_timer = none → d.m_heartbeatTimer = none →
      d.m_receiveTimeout = none → (∀ e ∈ events, ∀ ec, e ≠ Event.connectDone ec) →
      (d.run events).m_connected = false ∧ (d.run events).m_timer = none ∧
      (d.run events).calls = d.calls := by
  induction events with
  | nil => intro d hconn h1 _ _ _; exact ⟨hconn, h1, rfl⟩
  | cons e es ih =>
    intro d hconn h1 h2 h3 hev
    obtain ⟨g0, g1, g2, g3, g4⟩ := handle_closed d hconn h1 h2 h3 e (hev e (List.mem_cons_self _ _))
    have := ih (handle d e) g0 g1 g2 g3 (fun x hx => hev x (List.mem_cons_of_mem _ hx))
    simp only [run, List.foldl_cons] at this ⊢
    rw [g4] at this
    exact this

/-- Claim C7, as the code has it.  On a connected session a read error makes `reader`
close the session and arm the reconnect timer to `m_reconnectInterval`.  A write
error and the expiry of the receive watchdog set by `setReceiveTimeout` only call
`close`: the session is closed, but the reconnect timer is left cancelled and no
timer is armed, so that under every later sequence of events (the completion of a
connect apart, which nothing has started) the connector stays disconnected and calls
no virtual method: no connect attempt follows. -/
theorem write_error_and_watchdog_do_not_reconnect (c : Connector)
    (hc : c.m_connected = true) :
    ((reader c ErrorCode.failure).m_connected = false ∧
      (reader c ErrorCode.failure).m_timer = some (c.m_reconnectInterval, Handler.tryConnect)) ∧
    (writer c ErrorCode.failure = close c ∧
      (writer c ErrorCode.failure).m_connected = false ∧
      (writer c ErrorCode.failure).m_timer = none) ∧
    (receiveTimeoutHandler c ErrorCode.success = close c ∧
      (receiveTimeoutHandler c ErrorCode.success).m_connected = false ∧
      (receiveTimeoutHandler c ErrorCode.success).m_timer = none) ∧
    (∀ events : List Event, (∀ e ∈ events, ∀ ec, e ≠ Event.connectDone ec) →
      ((close c).run events).m_connected = false ∧
      ((close c).run events).m_timer = none ∧
      ((close c).run events).calls = (close c).calls) := by
  have hclose : (close c).m_connected = false ∧ (close c).m_timer = none ∧
      (close c).m_heartbeatTimer = none ∧ (close c).m_receiveTimeout = none := by
    simp [close, hc]
  refine ⟨?_, ?_, ?_, ?_⟩
  · simp [reader, hc, ErrorCode.isError, reconnect, asyncTryConnect, close]
  · refine ⟨by simp [writer, ErrorCode.isError], ?_, ?_⟩
    · simp [writer, ErrorCode.isError, hclose.1]
    · simp [writer, ErrorCode.isError, hclose.2.1]
  · refine ⟨rfl, hclose.1, hclose.2.1⟩
  · intro events hev
    exact run_closed events (close c) hclose.1 hclose.2.1 hclose.2.2.1 hclose.2.2.2 hev

/-- Witness of C7 on the connector of `instances`: after a write error the session is
closed and the reconnect timer is not armed, also when the outstanding read
completes with the cancellation status afterwards; after a read error the reconnect
timer is armed to the reconnect interval of 10 000 ms. -/
theorem write_error_and_watchdog_do_not_reconnect_witness :
    instances.connectedConnector.m_connected = true ∧
    (instances.connectedConnector.run [Event.writeDone ErrorCode.failure]).m_connected = false ∧
    (instances.connectedConnector.run [Event.writeDone ErrorCode.failure]).m_timer = none ∧
    ((Connector.close instances.connectedConnector).run
        [Event.readDone ErrorCode.operation_aborted [], Event.timerExpired]).m_timer = none ∧
    (instances.connectedConnector.run [Event.readDone ErrorCode.failure []]).m_timer
      = some (10000, Handler.tryConnect) :=
  ⟨by decide, by decide, by decide,
   ((write_error_and_watchdog_do_not_reconnect instances.connectedConnector (by decide)).2.2.2
      [Event.readDone ErrorCode.operation_aborted [], Event.timerExpired]
      (by
        intro e he ec
        simp only [List.mem_cons, List.mem_singleton, List.not_mem_nil, or_false] at he
        rcases he with rfl | rfl <;> exact Event.noConfusion)).2.1,
   by decide⟩

/-! ### The session after a reconnect -/

set_option maxRecDepth 100000

/-- Claim C8, as the code has it.  A new connector connects, `* PONG 500` starts the
heartbeats, a read error closes the session, the reconnect timer expires and the
connect succeeds again.  The new session is connected, but `m_heartbeats` is still
set and the receive time limit is still 1000 ms, not the legacy timeout of 10 000 ms:
neither `close` nor `connected` resets them.  The heartbeat timer, cancelled by
`close`, is not armed, and a new `* PONG 500` is not honoured: it leaves the
heartbeat timer unarmed.  After the first connect the session is unheartbeated with
the legacy timeout as receive time limit. -/
theorem reconnect_keeps_heartbeat_state :
    ((Connector.create 10 10 60000).connect.run [Event.connectDone ErrorCode.success]).m_heartbeats
      = false ∧
    ((Connector.create 10 10 60000).connect.run
      [Event.connectDone ErrorCode.success]).m_receiveTimeLimit = 10000 ∧
    ((Connector.create 10 10 60000).connect.run
      [Event.connectDone ErrorCode.success,
       Event.readDone ErrorCode.success "* PONG 500\n".toList,
       Event.readDone ErrorCode.failure [],
       Event.timerExpired,
       Event.connectDone ErrorCode.success]).m_connected = true ∧
    ((Connector.create 10 10 60000).connect.run
      [Event.connectDone ErrorCode.success,
       Event.readDone ErrorCode.success "* PONG 500\n".toList,
       Event.readDone ErrorCode.failure [],
       Event.timerExpired,
       Event.connectDone ErrorCode.success]).m_heartbeats = true ∧
    ((Connector.create 10 10 60000).connect.run
      [Event.connectDone ErrorCode.success,
       Event.readDone ErrorCode.success "* PONG 500\n".toList,
       Event.readDone ErrorCode.failure [],
       Event.timerExpired,
       Event.connectDone ErrorCode.success]).m_receiveTimeLimit = 1000 ∧
    ((Connector.create 10 10 60000).connect.run
      [Event.connectDone ErrorCode.success,
       Event.readDone ErrorCode.success "* PONG 500\n".toList,
       Event.readDone ErrorCode.failure [],
       Event.timerExpired,
       Event.connectDone ErrorCode.success]).m_legacyTimeout = 10000 ∧
    ((Connector.create 10 10 60000).connect.run
      [Event.connectDone ErrorCode.success,
       Event.readDone ErrorCode.success "* PONG 500\n".toList,
       Event.readDone ErrorCode.failure [],
       Event.timerExpired,
       Event.connectDone ErrorCode.success]).m_heartbeatTimer = none ∧
    ((Connector.create 10 10 60000).connect.run
      [Event.connectDone ErrorCode.success,
       Event.readDone ErrorCode.success "* PONG 500\n".toList,
       Event.readDone ErrorCode.failure [],
       Event.timerExpired,
       Event.connectDone ErrorCode.success,
       Event.readDone ErrorCode.success "* PONG 500\n".toList]).m_heartbeatTimer = none := by
  refine ⟨by decide, by decide, by decide, by decide, by decide, by decide, by decide, by decide⟩

end adapter

/-! ### Property maps -/

namespace entity

/-- Looking up a key after `insert_or_assign`: the new value under the assigned key,
the old lookup under every other key. -/
theorem Properties.find_insert_or_assign (props : Properties) (key : Str) (v : Value)
    (k : Str) :
    (props.insert_or_assign key v).find k = if key = k then some v else props.find k := by
  induction props with
  | nil => simp [Properties.insert_or_assign, Properties.find]
  | cons hd tl ih =>
    obtain ⟨a, w⟩ := hd
    by_cases h : a = key
    · subst h
      by_cases hk : a = k
      · simp [Properties.insert_or_assign, Properties.find, hk]
      · simp [Properties.insert_or_assign, Properties.find, hk]
    · by_cases hk : a = k
      · subst hk
        have hne : ¬ key = a := fun h' => h h'.symm
        simp [Properties.insert_or_assign, Properties.find, h, hne]
      · simp [Properties.insert_or_assign, Properties.find, h, hk, ih]

end entity

namespace source

open entity

/-! ### Empty tokens -/

/-- The properties that `extractResetTrigger` leaves have, besides those it was given,
at most the key `resetTriggered`. -/
theorem extractResetTrigger_find (di : DataItem) (tok : Str) (props : Properties) (k : Str)
    (h : (extractResetTrigger di tok props).2.find k ≠ none) :
    props.find k ≠ none ∨ k = "resetTriggered".toList := by
  unfold extractResetTrigger at h
  simp only at h
  split at h
  · split at h
    · rw [Properties.find_insert_or_assign] at h
      by_cases hk : "resetTriggered".toList = k
      · exact Or.inr hk.symm
      · rw [if_neg hk] at h
        exact Or.inl h
    · rw [Properties.find_insert_or_assign] at h
      by_cases hk : "resetTriggered".toList = k
      · exact Or.inr hk.symm
      · rw [if_neg hk] at h
        exact Or.inl h
  · exact Or.inl h

/-- A key found after the body of the loop of `zipProperties` was there before, or is
`resetTriggered`, or is the name of the field, whose token is then not empty. -/
theorem zipBody_find (env : Collaborators) (di : DataItem) (req : Requirement) (tok : Str)
    (props : Properties) (lg : List LogEntry) (k : Str)
    (h : (zipBody env di req tok props lg).state.1.find k ≠ none) :
    props.find k ≠ none ∨ k = "resetTriggered".toList ∨ (req.getName = k ∧ tok ≠ []) := by
  unfold zipBody at h
  split at h
  · exact Or.inl h
  · rename_i hne
    have htok : tok ≠ [] := by
      intro h0
      apply hne
      simp [h0]
    split at h
    · exact Or.inl h
    · simp only at h
      split at h
      · simp only [ZipBody.state] at h
        rw [Properties.find_insert_or_assign] at h
        by_cases hk : req.getName = k
        · exact Or.inr (Or.inr ⟨hk, htok⟩)
        · rw [if_neg hk] at h
          rcases extractResetTrigger_find di tok props k h with h' | h'
          · exact Or.inl h'
          · exact Or.inr (Or.inl h')
      · simp only [ZipBody.state] at h
        rcases extractResetTrigger_find di tok props k h with h' | h'
        · exact Or.inl h'
        · exact Or.inr (Or.inl h')
      · simp only [ZipBody.state] at h
        rcases extractResetTrigger_find di tok props k h with h' | h'
        · exact Or.inl h'
        · exact Or.inr (Or.inl h')

/-- A key found in the properties built by the loop of `zipProperties` was there
before, or is `resetTriggered`, or is the name of a field paired with a non-empty
token. -/
theorem zipLoop_find (env : Collaborators) (di : DataItem) (k : Str) :
    ∀ (reqs : Requirements) (toks : TokenList) (props : Properties) (lg : List LogEntry),
      (zipLoop env di reqs toks props lg).props.find k ≠ none →
      props.find k ≠ none ∨ k = "resetTriggered".toList ∨
        ∃ req tok, (req, tok) ∈ reqs.zip toks ∧ req.getName = k ∧ tok ≠ [] := by
  intro reqs
  induction reqs with
  | nil => intro toks props lg h; exact Or.inl (by simpa [zipLoop] using h)
  | cons req reqs ih =>
    intro toks props lg h
    cases toks with
    | nil => exact Or.inl (by simpa [zipLoop] using h)
    | cons tok toks =>
      simp only [zipLoop] at h
      have hbody := zipBody_find env di req tok props lg k
      cases hb : zipBody env di req tok props lg with
      | next p l =>
        rw [hb] at h hbody
        simp only [ZipBody.state] at hbody
        rcases ih toks p l h with h1 | h1 | ⟨r, t, hmem, hname, hne⟩
        · rcases hbody h1 with h2 | h2 | h2
          · exact Or.inl h2
          · exact Or.inr (Or.inl h2)
          · exact Or.inr (Or.inr ⟨req, tok, by simp, h2.1, h2.2⟩)
        · exact Or.inr (Or.inl h1)
        · exact Or.inr (Or.inr ⟨r, t, by simp [hmem], hname, hne⟩)
      | raised p l e =>
        rw [hb] at h hbody
        simp only [ZipBody.state] at hbody
        rcases hbody h with h2 | h2 | h2
        · exact Or.inl h2
        · exact Or.inr (Or.inl h2)
        · exact Or.inr (Or.inr ⟨req, tok, by simp, h2.1, h2.2⟩)

/-- In a schema whose field names are distinct, the name of a field determines the
token that the field is paired with. -/
theorem zip_token_unique :
    ∀ (reqs : Requirements) (toks : TokenList) (r r2 : Requirement) (t t2 : Str),
      (reqs.map Requirement.getName).Nodup → (r, t) ∈ reqs.zip toks →
      (r2, t2) ∈ reqs.zip toks → r.getName = r2.getName → t = t2 := by
  intro reqs
  induction reqs with
  | nil => intro toks r r2 t t2 _ h; simp at h
  | cons req reqs ih =>
    intro toks r r2 t t2 hnodup h1 h2 hname
    cases toks with
    | nil => simp at h1
    | cons tok toks =>
      simp only [List.map_cons, List.nodup_cons] at hnodup
      simp only [List.zip_cons_cons, List.mem_cons, Prod.mk.injEq] at h1 h2
      have hin : ∀ (x : Requirement) (y : Str), (x, y) ∈ reqs.zip toks →
          x.getName ∈ reqs.map Requirement.getName :=
        fun x y hxy => List.mem_map_of_mem _ (List.of_mem_zip hxy).1
      rcases h1 with ⟨rfl, rfl⟩ | h1
      · rcases h2 with ⟨rfl, rfl⟩ | h2
        · rfl
        · exact absurd (hname ▸ hin r2 t2 h2) hnodup.1
      · rcases h2 with ⟨rfl, rfl⟩ | h2
        · exact absurd (hname ▸ hin r t h1) hnodup.1
        · exact ih toks r r2 t t2 hnodup.2 h1 h2 hname

/-- The loop of `zipProperties` builds the same properties and log, and raises the
same exception, as on the fields and tokens that are left when every pair with an
empty token is taken out. -/
theorem zipLoop_filter_nonempty (env : Collaborators) (di : DataItem) :
    ∀ (reqs : Requirements) (toks : TokenList) (props : Properties) (lg : List LogEntry),
      (zipLoop env di reqs toks props lg).props =
        (zipLoop env di (((reqs.zip toks).filter (fun p => !p.2.isEmpty)).map Prod.fst)
          (((reqs.zip toks).filter (fun p => !p.2.isEmpty)).map Prod.snd) props lg).props ∧
      (zipLoop env di reqs toks props lg).logger =
        (zipLoop env di (((reqs.zip toks).filter (fun p => !p.2.isEmpty)).map Prod.fst)
          (((reqs.zip toks).filter (fun p => !p.2.isEmpty)).map Prod.snd) props lg).logger ∧
      (zipLoop env di reqs toks props lg).raised =
        (zipLoop env di (((reqs.zip toks).filter (fun p => !p.2.isEmpty)).map Prod.fst)
          (((reqs.zip toks).filter (fun p => !p.2.isEmpty)).map Prod.snd) props lg).raised := by
  intro reqs
  induction reqs with
  | nil => intro toks props lg; simp [zipLoop]
  | cons req reqs ih =>
    intro toks props lg
    cases toks with
    | nil => simp [zipLoop]
    | cons tok toks =>
      by_cases he : tok.isEmpty = true
      · have hb : zipBody env di req tok props lg = ZipBody.next props lg := by
          simp [zipBody, he]
        have hf : ((req :: reqs).zip (tok :: toks)).filter (fun p => !p.2.isEmpty)
            = (reqs.zip toks).filter (fun p => !p.2.isEmpty) := by
          simp [List.filter_cons, he]
        rw [hf]
        simp only [zipLoop, hb]
        exact ih toks props lg
      · have hf : ((req :: reqs).zip (tok :: toks)).filter (fun p => !p.2.isEmpty)
            = (req, tok) :: (reqs.zip toks).filter (fun p => !p.2.isEmpty) := by
          simp [List.filter_cons, he]
        rw [hf]
        simp only [List.map_cons, zipLoop]
        cases zipBody env di req tok props lg with
        | next p l => exact ih toks p l
        | raised p l e => exact ⟨rfl, rfl, rfl⟩

/-- Claim C11.  A field whose paired token is empty gets no property and does not
affect the pairing of the other fields.  The body of the loop of `zipProperties`
leaves the properties and the log as they are on an empty token; the loop builds
what it builds on the (field, token) pairs that are left when the pairs with an
empty token are taken out; and in a schema with distinct field names, started
without properties, the name of a field paired with an empty token is not a key of
the properties built. -/
theorem zipLoop_skips_empty_tokens :
    (∀ (env : Collaborators) (di : DataItem) (req : Requirement) (props : Properties)
        (lg : List LogEntry), zipBody env di req [] props lg = ZipBody.next props lg) ∧
    (∀ (env : Collaborators) (di : DataItem) (reqs : Requirements) (toks : TokenList)
        (props : Properties) (lg : List LogEntry),
      (zipLoop env di reqs toks props lg).props =
        (zipLoop env di (((reqs.zip toks).filter (fun p => !p.2.isEmpty)).map Prod.fst)
          (((reqs.zip toks).filter (fun p => !p.2.isEmpty)).map Prod.snd) props lg).props) ∧
    (∀ (env : Collaborators) (di : DataItem) (reqs : Requirements) (toks : TokenList)
        (lg : List LogEntry) (req : Requirement),
      (reqs.map Requirement.getName).Nodup → (req, []) ∈ reqs.zip toks →
      req.getName ≠ "resetTriggered".toList →
      (zipLoop env di reqs toks [] lg).props.find req.getName = none) := by
  refine ⟨?_, ?_, ?_⟩
  · intro env di req props lg
    simp [zipBody]
  · intro env di reqs toks props lg
    exact (zipLoop_filter_nonempty env di reqs toks props lg).1
  · intro env di reqs toks lg req hnodup hmem hname
    by_contra hfound
    rcases zipLoop_find env di req.getName reqs toks [] lg hfound with h | h | ⟨r, t, hrt, hn, hne⟩
    · exact h rfl
    · exact hname h
    · exact hne (zip_token_unique reqs toks r req t [] hnodup hrt hmem hn)

/-- Witness of C11: for the Alarm `alarmX` the tokens `OVERTEMP`, empty, `HIGH`,
`ACTIVE`, `coolant too hot` give exactly `code`, `severity`, `state` and `VALUE`, and
no `nativeCode`. -/
theorem zipLoop_skips_empty_tokens_witness :
    (zipLoop instances.dictionary (instances.alarmEvent "alarmX".toList) s_alarm
        ["OVERTEMP".toList, [], "HIGH".toList, "ACTIVE".toList, "coolant too hot".toList]
        [] []).props =
      [("code".toList, Value.string "OVERTEMP".toList),
       ("severity".toList, Value.string "HIGH".toList),
       ("state".toList, Value.string "ACTIVE".toList),
       ("VALUE".toList, Value.string "coolant too hot".toList)] ∧
    (zipLoop instances.dictionary (instances.alarmEvent "alarmX".toList) s_alarm
        ["OVERTEMP".toList, [], "HIGH".toList, "ACTIVE".toList, "coolant too hot".toList]
        [] []).props.find "nativeCode".toList = none :=
  ⟨by decide,
   zipLoop_skips_empty_tokens.2.2 instances.dictionary (instances.alarmEvent "alarmX".toList)
     s_alarm ["OVERTEMP".toList, [], "HIGH".toList, "ACTIVE".toList, "coolant too hot".toList]
     [] ⟨"nativeCode".toList, .STRING, false⟩ (by decide) (by decide) (by decide)⟩

/-! ### A value that cannot be converted -/

/-- Counterexample to C12 as stated.  With a conversion that raises a property error on
the text `x` for the `INTEGER` field `sampleCount`, the frame `Ts|x|100|1 2 3` of the
TimeSeries `Ts` produces no observation at all: `zipProperties` ends with the
exception, the fields `sampleRate` and `VALUE` are not converted, and the loop of
`operator()` goes on at the token `x`, which it looks up as a key. -/
theorem raised_conversion_drops_observation :
    instances.strictDictionary.convertType ⟨"sampleCount".toList, .INTEGER, true⟩ false
        (Value.string "x".toList) =
      Conversion.raised (EntityError.property "cannot convert to integer: x".toList) ∧
    (zipProperties instances.strictDictionary instances.freshMapper
        (instances.timeSeries "Ts".toList) 5 s_timeseries
        ["x".toList, "100".toList, "1 2 3".toList]).out =
      Outcome.thrown (EntityError.property "cannot convert to integer: x".toList) ∧
    ShdrTokenMapper.apply instances.strictDictionary instances.freshMapper
        ⟨["Ts".toList, "x".toList, "100".toList, "1 2 3".toList], 5, none⟩ =
      Mapped.done ⟨[], 5, none, []⟩
        ⟨["x".toList, "100".toList, "1 2 3".toList],
         [⟨.LWARN, "Cannot convert value for: x - cannot convert to integer: x".toList⟩,
          ⟨.LERROR, "Could not create observation: cannot convert to integer: x".toList⟩,
          ⟨.LWARN, "() Could not find data item: x".toList⟩,
          ⟨.LWARN, "() Could not find data item: 100".toList⟩,
          ⟨.LWARN, "() Could not find data item: 1 2 3".toList⟩]⟩ := by
  refine ⟨by decide, by decide, by decide⟩

/-- Claim C12, amended.  For a token that is neither empty nor skipped as
`UNAVAILABLE`: when `convertType` returns `false`, a warning is logged, the property
of the field is not set, and the loop of `zipProperties` goes on with the remaining
fields and tokens; when `convertType` raises a property error, a warning is logged
and the loop ends with the exception, the token iterator on the token that raised
it.  A loop that ends with an exception makes `zipProperties` raise it: no
observation is built, and the iteration of the loop of `operator()` for an ordinary
key of a known data item appends no entity and logs the error. -/
theorem conversion_failure_false_or_raised (env : Collaborators) (m : ShdrTokenMapper)
    (tsd : Timestamped) (di : DataItem) (req : Requirement) (reqs : Requirements) (tok : Str)
    (toks : TokenList) (props : Properties) (lg : List LogEntry)
    (hne : tok ≠ [])
    (hnu : (unavailable tok &&
      (req.getName == "VALUE".toList || req.getName == "level".toList)) = false) :
    (env.convertType req di.isTable (Value.string (extractResetTrigger di tok props).1)
        = Conversion.notConverted →
      zipLoop env di (req :: reqs) (tok :: toks) props lg =
        zipLoop env di reqs toks (extractResetTrigger di tok props).2
          (lg ++ [⟨.LWARN, "Cannot convert value for: ".toList ++ tok⟩])) ∧
    (∀ e, env.convertType req di.isTable (Value.string (extractResetTrigger di tok props).1)
        = Conversion.raised e →
      zipLoop env di (req :: reqs) (tok :: toks) props lg =
        ⟨(extractResetTrigger di tok props).2, tok :: toks,
          lg ++ [⟨.LWARN,
            "Cannot convert value for: ".toList ++ tok ++ " - ".toList ++ e.what⟩],
          some e⟩) ∧
    (∀ (e : EntityError) (key : Str) (schema : Requirements) (tokens : TokenList)
        (acc : EntityList),
      (zipLoop env di schema tokens [] m.g_logger).raised = some e →
      (zipProperties env m di tsd.m_timestamp schema tokens).out = Outcome.thrown e ∧
      (key.headD '\x00' ≠ '@' →
        env.m_getDataItem (env.m_getDevice ((splitKey key).2.getD [])) (splitKey key).1
          = some di →
        selectRequirements di = some schema →
        mapOne env tsd ⟨key :: tokens, acc, m⟩ =
          some ⟨(zipLoop env di schema tokens [] m.g_logger).token, acc,
            ({ m with g_logger := (zipLoop env di schema tokens [] m.g_logger).logger } :
              ShdrTokenMapper).log .LERROR
              ("Could not create observation: ".toList ++ e.what)⟩)) := by
  have hempty : tok.isEmpty = false := by
    cases tok with
    | nil => exact absurd rfl hne
    | cons a t => rfl
  refine ⟨?_, ?_, ?_⟩
  · intro hc
    have hb : zipBody env di req tok props lg = ZipBody.next (extractResetTrigger di tok props).2
        (lg ++ [⟨.LWARN, "Cannot convert value for: ".toList ++ tok⟩]) := by
      simp only [zipBody, hempty, hnu, hc, Bool.false_eq_true, if_false]
    simp only [zipLoop, hb]
  · intro e hc
    have hb : zipBody env di req tok props lg = ZipBody.raised (extractResetTrigger di tok props).2
        (lg ++ [⟨.LWARN,
          "Cannot convert value for: ".toList ++ tok ++ " - ".toList ++ e.what⟩]) e := by
      simp only [zipBody, hempty, hnu, hc, Bool.false_eq_true, if_false]
    simp only [zipLoop, hb]
  · intro e key schema tokens acc hraised
    have hzip : zipProperties env m di tsd.m_timestamp schema tokens =
        ⟨Outcome.thrown e, (zipLoop env di schema tokens [] m.g_logger).token, [],
          { m with g_logger := (zipLoop env di schema tokens [] m.g_logger).logger }⟩ := by
      simp only [zipProperties, hraised]
    refine ⟨by rw [hzip], ?_⟩
    intro hord hfound hsel
    have hneq : (key.headD '\x00' == '@') = false := beq_eq_false_iff_ne.mpr hord
    have hmap : mapTokensToDataItem env m tsd.m_timestamp (key :: tokens) =
        zipProperties env m di tsd.m_timestamp schema tokens := by
      simp only [mapTokensToDataItem, hfound, hsel]
    simp only [mapOne, hneq, Bool.false_eq_true, if_false, hmap, hzip]

/-- Witness of the amended C12 with the conversion `strictConvert`: for the scalar
Sample `Xa` the text `abc` is not converted to `DOUBLE` (the conversion returns
`false`) and the loop goes on; for the TimeSeries `Ts` the text `x` raises on
`sampleCount` and the loop ends with the exception. -/
theorem conversion_failure_false_or_raised_witness :
    zipLoop instances.strictDictionary (instances.timeSeries "Ts".toList)
        (⟨"sampleRate".toList, .DOUBLE, true⟩ :: [⟨"VALUE".toList, .VECTOR, true⟩])
        ("abc".toList :: ["1 2 3".toList]) [] [] =
      zipLoop instances.strictDictionary (instances.timeSeries "Ts".toList)
        [⟨"VALUE".toList, .VECTOR, true⟩] ["1 2 3".toList]
        (extractResetTrigger (instances.timeSeries "Ts".toList) "abc".toList []).2
        ([] ++ [⟨.LWARN, "Cannot convert value for: ".toList ++ "abc".toList⟩]) ∧
    (zipProperties instances.strictDictionary instances.freshMapper
        (instances.timeSeries "Ts".toList) 5 s_timeseries
        ["x".toList, "100".toList, "1 2 3".toList]).out =
      Outcome.thrown (EntityError.property "cannot convert to integer: x".toList) :=
  ⟨(conversion_failure_false_or_raised instances.strictDictionary instances.freshMapper
      ⟨[], 5, none⟩ (instances.timeSeries "Ts".toList) ⟨"sampleRate".toList, .DOUBLE, true⟩
      [⟨"VALUE".toList, .VECTOR, true⟩] "abc".toList ["1 2 3".toList] [] []
      (by decide) (by decide)).1 (by decide),
   ((conversion_failure_false_or_raised instances.strictDictionary instances.freshMapper
      ⟨[], 5, none⟩ (instances.timeSeries "Ts".toList) ⟨"sampleRate".toList, .DOUBLE, true⟩
      [⟨"VALUE".toList, .VECTOR, true⟩] "abc".toList ["1 2 3".toList] [] []
      (by decide) (by decide)).2.2 (EntityError.property "cannot convert to integer: x".toList)
      "Ts".toList s_timeseries ["x".toList, "100".toList, "1 2 3".toList] []
      (by decide)).1⟩

end source

/-! ### Slices around a separator -/

/-- A string that contains a character splits at the first occurrence of it. -/
theorem split_at_first (ch : Char) :
    ∀ tok : Str, ch ∈ tok → ∃ a b : Str, tok = a ++ ch :: b ∧ ch ∉ a := by
  intro tok
  induction tok with
  | nil => intro h; simp at h
  | cons x xs ih =>
    intro h
    by_cases hx : x = ch
    · exact ⟨[], xs, by simp [hx], by simp⟩
    · have hmem : ch ∈ xs := by
        rcases List.mem_cons.mp h with h' | h'
        · exact absurd h'.symm hx
        · exact h'
      obtain ⟨a, b, hab, hna⟩ := ih hmem
      refine ⟨x :: a, b, by simp [hab], ?_⟩
      intro hc
      rcases List.mem_cons.mp hc with h' | h'
      · exact hx h'.symm
      · exact hna h'

/-- The slice from behind a separator to the end. -/
theorem substr_after (a b : Str) (c : Char) (hlen : (a ++ c :: b).length < sizeMod) :
    substr (a ++ c :: b) (sizeAdd a.length 1) npos = b := by
  simp only [List.length_append, List.length_cons] at hlen
  have hadd : sizeAdd a.length 1 = a.length + 1 := Nat.mod_eq_of_lt (by omega)
  have hd : List.drop (a.length + 1) (a ++ c :: b) = b := by
    rw [show a ++ c :: b = (a ++ [c]) ++ b by simp]
    rw [List.drop_append_of_le_length (by simp)]
    simp
  have hmin : min npos ((a ++ c :: b).length - (a.length + 1)) = b.length := by
    simp only [List.length_append, List.length_cons, npos]
    omega
  simp only [substr, hadd, hd, hmin, List.take_length]

/-- The slice of the first characters of a string. -/
theorem substr_before (a rest : Str) : substr (a ++ rest) 0 a.length = a := by
  have hmin : min a.length ((a ++ rest).length - 0) = a.length := by
    simp only [List.length_append]
    omega
  simp only [substr, hmin, List.drop_zero, List.take_left']

/-- The first character of the given set at or after a position, when the characters
between the position and that character are not in the set. -/
theorem find_first_of_skip (chars pre mid v : Str) (w : Char)
    (hmid : ∀ x ∈ mid, chars.contains x = false) (hw : chars.contains w = true) :
    find_first_of (pre ++ (mid ++ w :: v)) chars pre.length = pre.length + mid.length := by
  have hd : List.drop pre.length (pre ++ (mid ++ w :: v)) = mid ++ w :: v := by simp
  have hf : findIf (fun c => chars.contains c) (mid ++ w :: v) = some mid.length := by
    rw [findIf_append_of_forall_false _ mid (w :: v) hmid]
    simp only [findIf, hw, if_true, Option.map_some', Nat.zero_add]
  simp only [find_first_of, hd, hf]

namespace source

open entity

/-! ### The reset trigger -/

/-- Claim C13.  For a Sample data item that has a reset trigger, or DataSet or Table
semantics, and a token that contains `:`, `extractResetTrigger` splits the token at
its first `:`: the value returned is the part before it, the property
`resetTriggered` is set to the part behind it in upper case, and the value, `:` and
the part behind it make up the token. -/
theorem extractResetTrigger_sample (di : DataItem) (tok : Str) (props : Properties)
    (hs : di.isSample = true)
    (hsem : di.hasResetTrigger = true ∨ di.isTable = true ∨ di.isDataSet = true)
    (hcolon : ':' ∈ tok) (hlen : tok.length < sizeMod) :
    ∃ value trigger : Str,
      ':' ∉ value ∧ value ++ ":".toList ++ trigger = tok ∧
      extractResetTrigger di tok props =
        (value, props.insert_or_assign "resetTriggered".toList (Value.string (upcase trigger))) ∧
      (extractResetTrigger di tok props).2.find "resetTriggered".toList
        = some (Value.string (trigger.map toupper)) := by
  obtain ⟨a, b, hab, hna⟩ := split_at_first ':' tok hcolon
  subst hab
  have hfind := find_append_cons ':' a b hna
  have hnpos : (a.length != npos) = true := by
    simp only [List.length_append, List.length_cons] at hlen
    simp only [bne_iff_ne, ne_eq, npos]
    omega
  have hsem' : (di.hasResetTrigger || di.isTable || di.isDataSet) = true := by
    rcases hsem with h | h | h <;> simp [h]
  have hex : extractResetTrigger di (a ++ ':' :: b) props =
      (a, props.insert_or_assign "resetTriggered".toList (Value.string (upcase b))) := by
    simp only [extractResetTrigger, hfind, hnpos, hsem', hs, Bool.and_self, if_true,
      substr_after a b ':' hlen, substr_before a (':' :: b)]
  refine ⟨a, b, hna, by simp, hex, ?_⟩
  rw [hex]
  simp [Properties.find_insert_or_assign, upcase]

/-- Witness of C13: for a scalar Sample with a reset trigger the token `12.5:daily`
gives the value `12.5` and sets `resetTriggered` to `DAILY`. -/
theorem extractResetTrigger_sample_witness :
    (∃ value trigger : Str,
      ':' ∉ value ∧ value ++ ":".toList ++ trigger = "12.5:daily".toList ∧
      extractResetTrigger (instances.resettingSample "Xr".toList) "12.5:daily".toList [] =
        (value, Properties.insert_or_assign [] "resetTriggered".toList
          (Value.string (upcase trigger))) ∧
      (extractResetTrigger (instances.resettingSample "Xr".toList) "12.5:daily".toList []).2.find
        "resetTriggered".toList = some (Value.string (trigger.map toupper))) ∧
    extractResetTrigger (instances.resettingSample "Xr".toList) "12.5:daily".toList [] =
      ("12.5".toList, [("resetTriggered".toList, Value.string "DAILY".toList)]) :=
  ⟨extractResetTrigger_sample (instances.resettingSample "Xr".toList) "12.5:daily".toList []
      (by decide) (Or.inl (by decide)) (by decide) (by decide),
   by decide⟩

/-- Counterexample to C14 as stated.  For an Event with DataSet semantics and the token
`a=1 t=12:30 b=2`, whose first white space stands before its first `:`, the trigger
is not the text up to the first white space and the value is not the rest behind
that white space (that would be `=1` and `t=12:30 b=2`): the trigger recorded is
`=1 T=12:30` and the value is `b=2`, because the white space is searched from the
first `:` on. -/
theorem reset_trigger_not_at_first_whitespace :
    extractResetTrigger (instances.dataSetEvent "Ds".toList) "a=1 t=12:30 b=2".toList [] =
      ("b=2".toList, [("resetTriggered".toList, Value.string "=1 T=12:30".toList)]) ∧
    extractResetTrigger (instances.dataSetEvent "Ds".toList) "a=1 t=12:30 b=2".toList [] ≠
      ("t=12:30 b=2".toList, [("resetTriggered".toList, Value.string "=1".toList)]) := by
  refine ⟨by decide, by decide⟩

/-- Claim C14, amended.  For a data item that is not a Sample and has a reset trigger,
or DataSet or Table semantics, and a token `a:b w v`, where `a` has no `:`, `b` has
neither space nor tab and `w` is a space or a tab (the first one at or behind the
first `:`), the reset trigger recorded is the text of the token before `w` without
its first character, in upper case, and the value is `v`, the rest of the token
behind `w`.  When the token starts with the `:`, the trigger is `b` in upper case. -/
theorem extractResetTrigger_non_sample (di : DataItem) (a b v : Str) (w : Char)
    (props : Properties)
    (hs : di.isSample = false)
    (hsem : di.hasResetTrigger = true ∨ di.isTable = true ∨ di.isDataSet = true)
    (hcolon : ':' ∉ a) (hb : ∀ x ∈ b, x ≠ ' ' ∧ x ≠ '\t') (hw : w = ' ' ∨ w = '\t')
    (hlen : (a ++ ':' :: (b ++ w :: v)).length < sizeMod) :
    extractResetTrigger di (a ++ ':' :: (b ++ w :: v)) props =
      (v, props.insert_or_assign "resetTriggered".toList
        (Value.string (upcase ((a ++ ':' :: b).drop 1)))) ∧
    (a = [] → extractResetTrigger di (':' :: (b ++ w :: v)) props =
      (v, props.insert_or_assign "resetTriggered".toList (Value.string (upcase b)))) := by
  have hfind := find_append_cons ':' a (b ++ w :: v) hcolon
  have hlen' := hlen
  simp only [List.length_append, List.length_cons] at hlen'
  have hnpos : (a.length != npos) = true := by
    simp only [bne_iff_ne, ne_eq, npos]
    omega
  have hsem' : (di.hasResetTrigger || di.isTable || di.isDataSet) = true := by
    rcases hsem with h | h | h <;> simp [h]
  have hmid : ∀ x ∈ ':' :: b, " \t".toList.contains x = false := by
    intro x hx
    rcases List.mem_cons.mp hx with rfl | hx
    · decide
    · have := hb x hx
      simp [this.1, this.2]
  have hwc : " \t".toList.contains w = true := by
    rcases hw with rfl | rfl <;> decide
  have hef : find_first_of (a ++ ':' :: (b ++ w :: v)) " \t".toList a.length
      = a.length + (b.length + 1) := by
    have := find_first_of_skip " \t".toList a (':' :: b) v w hmid hwc
    simpa using this
  have hsub : sizeSub (a.length + (b.length + 1)) 1 = a.length + b.length := by
    have h1 : (1 : Nat) % sizeMod = 1 := Nat.mod_eq_of_lt (by simp [sizeMod])
    simp only [sizeSub, h1]
    have h2 : a.length + (b.length + 1) + sizeMod - 1 = (a.length + b.length) + sizeMod := by
      omega
    rw [h2, Nat.add_mod_right]
    exact Nat.mod_eq_of_lt (by omega)
  have hval : substr (a ++ ':' :: (b ++ w :: v)) (sizeAdd (a.length + (b.length + 1)) 1) npos
      = v := by
    have h := substr_after (a ++ ':' :: b) v w (by simpa using hlen)
    simpa using h
  have htrig : substr (a ++ ':' :: (b ++ w :: v)) 1 (a.length + b.length)
      = (a ++ ':' :: b).drop 1 := by
    have hsplit : a ++ ':' :: (b ++ w :: v) = (a ++ ':' :: b) ++ w :: v := by simp
    have hmin : min (a.length + b.length) ((a ++ ':' :: (b ++ w :: v)).length - 1)
        = a.length + b.length := by
      simp only [List.length_append, List.length_cons]
      omega
    simp only [substr, hmin]
    rw [hsplit, List.drop_append_of_le_length (by simp; omega)]
    rw [List.take_append_of_le_length (by simp)]
    apply List.take_of_length_le
    simp
  have hmain : extractResetTrigger di (a ++ ':' :: (b ++ w :: v)) props =
      (v, props.insert_or_assign "resetTriggered".toList
        (Value.string (upcase ((a ++ ':' :: b).drop 1)))) := by
    simp only [extractResetTrigger, hfind, hnpos, hsem', hs, Bool.and_self, if_true, hef, hsub,
      hval, htrig, Bool.false_eq_true, if_false]
  refine ⟨hmain, ?_⟩
  intro ha
  subst ha
  simpa using hmain

/-- Witness of the amended C14: for an Event with DataSet semantics the token
`:manual a=1 b=2` sets `resetTriggered` to `MANUAL` and gives the value `a=1 b=2`. -/
theorem extractResetTrigger_non_sample_witness :
    extractResetTrigger (instances.dataSetEvent "Ds".toList) ":manual a=1 b=2".toList [] =
      ("a=1 b=2".toList, [("resetTriggered".toList, Value.string "MANUAL".toList)]) :=
  ((extractResetTrigger_non_sample (instances.dataSetEvent "Ds".toList) [] "manual".toList
      "a=1 b=2".toList ' ' [] (by decide) (Or.inr (Or.inr (by decide))) (by decide)
      (by decide) (Or.inl rfl) (by decide)).2 rfl)

/-! ### Asset commands -/

/-- The mapping loop reads the time stamp and the duration of the batch, not its
tokens: the tokens it maps are those of the loop state. -/
theorem mapLoop_batch_tokens (env : Collaborators) (ts : Timestamp) (dur : Option Decimal) :
    ∀ (fuel : Nat) (st : LoopState) (t1 t2 : TokenList),
      mapLoop env ⟨t1, ts, dur⟩ fuel st = mapLoop env ⟨t2, ts, dur⟩ fuel st := by
  intro fuel
  induction fuel with
  | zero => intro st t1 t2; simp only [mapLoop]
  | succ fuel ih =>
    intro st t1 t2
    have hone : mapOne env ⟨t1, ts, dur⟩ st = mapOne env ⟨t2, ts, dur⟩ st := rfl
    simp only [mapLoop, hone]
    cases st.token with
    | nil => rfl
    | cons t tl =>
      simp only
      cases mapOne env ⟨t2, ts, dur⟩ st with
      | none => rfl
      | some st2 => exact ih st2 t1 t2

/-- Claim C15.  A token that starts with `@` and is none of `@ASSET@`,
`@REMOVE_ALL_ASSETS@` and `@REMOVE_ASSET@` makes `mapTokesnToAsset` raise the entity
error "Unkown asset command" after it has consumed exactly that token; the loop of
`operator()` catches and logs it, appends no entity, and goes on with the token that
follows: the frame maps like the frame of the tokens behind the command. -/
theorem unknown_asset_command_is_skipped (env : Collaborators) (m : ShdrTokenMapper)
    (ts : Timestamp) (dur : Option Decimal) (tok : Str) (rest : TokenList) (acc : EntityList)
    (hat : tok.headD '\x00' = '@')
    (h1 : tok ≠ "@ASSET@".toList) (h2 : tok ≠ "@REMOVE_ALL_ASSETS@".toList)
    (h3 : tok ≠ "@REMOVE_ASSET@".toList) :
    mapTokesnToAsset env m ts (tok :: rest) =
      ⟨Outcome.thrown (EntityError.plain ("Unkown asset command ".toList ++ tok)), rest, [], m⟩ ∧
    mapOne env ⟨tok :: rest, ts, dur⟩ ⟨tok :: rest, acc, m⟩ =
      some ⟨rest, acc,
        m.log .LERROR
          ("Could not create observation: ".toList ++ ("Unkown asset command ".toList ++ tok))⟩ ∧
    ShdrTokenMapper.apply env m ⟨tok :: rest, ts, dur⟩ =
      ShdrTokenMapper.apply env
        (m.log .LERROR
          ("Could not create observation: ".toList ++ ("Unkown asset command ".toList ++ tok)))
        ⟨rest, ts, dur⟩ := by
  have hasset : mapTokesnToAsset env m ts (tok :: rest) =
      ⟨Outcome.thrown (EntityError.plain ("Unkown asset command ".toList ++ tok)), rest, [], m⟩ := by
    simp only [mapTokesnToAsset, h1, h2, h3, if_false]
  have hbeq : (tok.headD '\x00' == '@') = true := by
    rw [hat]
    rfl
  have hstep : ∀ (tokens : TokenList) (entities : EntityList),
      mapOne env ⟨tokens, ts, dur⟩ ⟨tok :: rest, entities, m⟩ =
        some ⟨rest, entities,
          m.log .LERROR
            ("Could not create observation: ".toList ++
              ("Unkown asset command ".toList ++ tok))⟩ := by
    intro tokens entities
    simp only [mapOne, hbeq, if_true, hasset, EntityError.what]
  refine ⟨hasset, hstep _ acc, ?_⟩
  simp only [ShdrTokenMapper.apply, List.length_cons, mapLoop, hstep]
  rw [mapLoop_batch_tokens env ts dur rest.length _ (tok :: rest) rest]

/-- Witness of C15 on the dictionary of `instances`: in the frame `@FOO@|Xa|3.14` the
unknown command is logged and skipped and the observation of `Xa` is produced. -/
theorem unknown_asset_command_is_skipped_witness :
    "@FOO@".toList.headD '\x00' = '@' ∧
    ShdrTokenMapper.apply instances.dictionary instances.freshMapper
        ⟨["@FOO@".toList, "Xa".toList, "3.14".toList], 5, none⟩ =
      ShdrTokenMapper.apply instances.dictionary
        (instances.freshMapper.log .LERROR
          ("Could not create observation: ".toList ++
            ("Unkown asset command ".toList ++ "@FOO@".toList)))
        ⟨["Xa".toList, "3.14".toList], 5, none⟩ ∧
    ShdrTokenMapper.apply instances.dictionary instances.freshMapper
        ⟨["@FOO@".toList, "Xa".toList, "3.14".toList], 5, none⟩ =
      Mapped.done
        ⟨[], 5, none, [⟨"Xa".toList, [("VALUE".toList, Value.string "3.14".toList)], some 5⟩]⟩
        ⟨[], [⟨.LERROR, "Could not create observation: Unkown asset command @FOO@".toList⟩]⟩ :=
  ⟨by decide,
   (unknown_asset_command_is_skipped instances.dictionary instances.freshMapper 5 none
      "@FOO@".toList ["Xa".toList, "3.14".toList] [] (by decide) (by decide) (by decide)
      (by decide)).2.2,
   by decide⟩

/-- Claim C16.  For every frame time stamp `t`: the tokens `@REMOVE_ASSET@`, `id` map
to one asset command named `RemoveAsset` with the property `assetId = id`; the token
`@REMOVE_ALL_ASSETS@` at the end of the list maps to one command named `RemoveAll`
without properties, and followed by a token `ty` to `RemoveAll` with the property
`type = ty`; each command carries the time stamp `t`.  The same holds of
`mapTokesnToAsset` when more tokens follow, which are left for the next iteration. -/
theorem asset_removal_commands (env : Collaborators) (m : ShdrTokenMapper) (t : Timestamp)
    (dur : Option Decimal) (id ty : Str) (rest : TokenList) :
    ShdrTokenMapper.apply env m ⟨["@REMOVE_ASSET@".toList, id], t, dur⟩ =
      Mapped.done ⟨[], t, dur,
        [⟨"RemoveAsset".toList, [("assetId".toList, Value.string id)], some t⟩]⟩ m ∧
    ShdrTokenMapper.apply env m ⟨["@REMOVE_ALL_ASSETS@".toList], t, dur⟩ =
      Mapped.done ⟨[], t, dur, [⟨"RemoveAll".toList, [], some t⟩]⟩ m ∧
    ShdrTokenMapper.apply env m ⟨["@REMOVE_ALL_ASSETS@".toList, ty], t, dur⟩ =
      Mapped.done ⟨[], t, dur,
        [⟨"RemoveAll".toList, [("type".toList, Value.string ty)], some t⟩]⟩ m ∧
    mapTokesnToAsset env m t ("@REMOVE_ASSET@".toList :: id :: rest) =
      ⟨Outcome.returned
        (some ⟨"RemoveAsset".toList, [("assetId".toList, Value.string id)], some t⟩),
        rest, [], m⟩ ∧
    mapTokesnToAsset env m t ("@REMOVE_ALL_ASSETS@".toList :: ty :: rest) =
      ⟨Outcome.returned
        (some ⟨"RemoveAll".toList, [("type".toList, Value.string ty)], some t⟩),
        rest, [], m⟩ := by
  have ha1 : ¬ "@REMOVE_ASSET@".toList = "@ASSET@".toList := by decide
  have ha2 : ¬ "@REMOVE_ASSET@".toList = "@REMOVE_ALL_ASSETS@".toList := by decide
  have hb1 : ¬ "@REMOVE_ALL_ASSETS@".toList = "@ASSET@".toList := by decide
  have hh1 : ("@REMOVE_ASSET@".toList.headD '\x00' == '@') = true := by decide
  have hh2 : ("@REMOVE_ALL_ASSETS@".toList.headD '\x00' == '@') = true := by decide
  have hr1 : ∀ more, mapTokesnToAsset env m t ("@REMOVE_ASSET@".toList :: id :: more) =
      ⟨Outcome.returned
        (some ⟨"RemoveAsset".toList, [("assetId".toList, Value.string id)], some t⟩),
        more, [], m⟩ := by
    intro more
    simp only [mapTokesnToAsset, ha1, ha2, if_false, if_true, Entity.setName,
      Entity.setProperty, Properties.insert_or_assign]
  have hr2 : mapTokesnToAsset env m t ["@REMOVE_ALL_ASSETS@".toList] =
      ⟨Outcome.returned (some ⟨"RemoveAll".toList, [], some t⟩), [], [], m⟩ := by
    simp only [mapTokesnToAsset, hb1, if_false, if_true, Entity.setName]
  have hr3 : ∀ more, mapTokesnToAsset env m t ("@REMOVE_ALL_ASSETS@".toList :: ty :: more) =
      ⟨Outcome.returned
        (some ⟨"RemoveAll".toList, [("type".toList, Value.string ty)], some t⟩),
        more, [], m⟩ := by
    intro more
    simp only [mapTokesnToAsset, hb1, if_false, if_true, Entity.setName,
      Entity.setProperty, Properties.insert_or_assign]
  refine ⟨?_, ?_, ?_, hr1 rest, hr3 rest⟩
  · simp only [ShdrTokenMapper.apply, List.length_cons, List.length_nil, mapLoop, mapOne, hh1,
      if_true, hr1, List.isEmpty, List.nil_append]
  · simp only [ShdrTokenMapper.apply, List.length_cons, List.length_nil, mapLoop, mapOne, hh2,
      if_true, hr2, List.isEmpty, List.nil_append]
  · simp only [ShdrTokenMapper.apply, List.length_cons, List.length_nil, mapLoop, mapOne, hh2,
      if_true, hr3, List.isEmpty, List.nil_append]

end source

/-! ### The last match of a search -/

/-- A search from the end in a string without a match finds nothing. -/
theorem findLastIf_eq_none_of_forall_false (p : Char → Bool) :
    ∀ l : Str, (∀ x ∈ l, p x = false) → findLastIf p l = none := by
  intro l
  induction l with
  | nil => intro _; rfl
  | cons a l ih =>
    intro h
    have ha : p a = false := h a (List.mem_cons_self _ _)
    simp [findLastIf, ih (fun x hx => h x (List.mem_cons_of_mem _ hx)), ha]

/-- The position that a search from the end finds lies in the string. -/
theorem findLastIf_lt_length (p : Char → Bool) :
    ∀ (l : Str) (i : Nat), findLastIf p l = some i → i < l.length := by
  intro l
  induction l with
  | nil => intro i h; simp [findLastIf] at h
  | cons a l ih =>
    intro i h
    simp only [findLastIf] at h
    cases hl : findLastIf p l with
    | none =>
      rw [hl] at h
      simp only at h
      split at h
      · simp only [Option.some.injEq] at h
        subst h
        simp
      · simp at h
    | some j =>
      rw [hl] at h
      simp only [Option.some.injEq] at h
      subst h
      have := ih j hl
      simp only [List.length_cons]
      omega

/-- The text up to the position that a search from the end finds ends in a character
that matches. -/
theorem findLastIf_take_getLast (p : Char → Bool) :
    ∀ (l : Str) (i : Nat), findLastIf p l = some i →
      ∃ z, (l.take (i + 1)).getLast? = some z ∧ p z = true := by
  intro l
  induction l with
  | nil => intro i h; simp [findLastIf] at h
  | cons a l ih =>
    intro i h
    simp only [findLastIf] at h
    cases hl : findLastIf p l with
    | none =>
      rw [hl] at h
      simp only at h
      split at h
      · rename_i hp
        simp only [Option.some.injEq] at h
        subst h
        exact ⟨a, by simp, hp⟩
      · simp at h
    | some j =>
      rw [hl] at h
      simp only [Option.some.injEq] at h
      subst h
      obtain ⟨z, hz, hpz⟩ := ih j hl
      refine ⟨z, ?_, hpz⟩
      rw [List.take_succ_cons, List.getLast?_cons, hz]
      rfl

/-- A search from the end finds a position at or behind every position that
matches. -/
theorem findLastIf_ge (p : Char → Bool) :
    ∀ (l : Str) (j : Nat) (x : Char), l[j]? = some x → p x = true →
      ∃ i, findLastIf p l = some i ∧ j ≤ i := by
  intro l
  induction l with
  | nil => intro j x h; simp at h
  | cons a l ih =>
    intro j x h hp
    cases j with
    | zero =>
      simp only [List.getElem?_cons_zero, Option.some.injEq] at h
      subst h
      cases hl : findLastIf p l with
      | none => exact ⟨0, by simp [findLastIf, hl, hp], Nat.le_refl 0⟩
      | some i => exact ⟨i + 1, by simp [findLastIf, hl], Nat.zero_le _⟩
    | succ j =>
      simp only [List.getElem?_cons_succ] at h
      obtain ⟨i, hi, hji⟩ := ih j x h hp
      exact ⟨i + 1, by simp [findLastIf, hi], by omega⟩

/-- The slice of the first `n` characters. -/
theorem substr_zero (s : Str) (n : Nat) : substr s 0 n = s.take n := by
  simp only [substr, List.drop_zero, Nat.sub_zero]
  rcases Nat.le_total n s.length with h | h
  · rw [Nat.min_eq_left h]
  · rw [Nat.min_eq_right h, List.take_length, List.take_of_length_le h]

/-- What the tail trimming of `parseSocketBuffer` leaves of a non-empty line: a
non-empty start of the line that reaches behind every character of the line that is
not white space; the whole line when all of it is white space. -/
theorem trim_take (txt : Str) (hne : txt ≠ []) (hlen : txt.length < npos) :
    ∃ k, 1 ≤ k ∧
      (if find_last_not_of txt " \t\n\r".toList != npos then
          mtconnect.erase txt (sizeAdd (find_last_not_of txt " \t\n\r".toList) 1)
        else txt) = txt.take k ∧
      (∀ (j : Nat) (x : Char), txt[j]? = some x → " \t\n\r".toList.contains x = false → j < k) ∧
      (findLastIf (fun c => !" \t\n\r".toList.contains c) txt = none → k = txt.length) ∧
      (∀ i, findLastIf (fun c => !" \t\n\r".toList.contains c) txt = some i → k = i + 1) := by
  have hpos : 0 < txt.length := List.length_pos.mpr hne
  cases hf : findLastIf (fun c => !" \t\n\r".toList.contains c) txt with
  | none =>
    refine ⟨txt.length, hpos, ?_, ?_, fun _ => rfl, fun i h => by simp at h⟩
    · have hb : (npos != npos) = false := by decide
      simp only [find_last_not_of, hf, Option.getD_none, hb, Bool.false_eq_true, if_false,
        List.take_length]
    · intro j x hj _
      exact (List.getElem?_eq_some_iff.mp hj).1
  | some i =>
    have hi := findLastIf_lt_length _ txt i hf
    have hnp : (i != npos) = true := by
      simp only [bne_iff_ne, ne_eq]
      omega
    have hadd : sizeAdd i 1 = i + 1 := by
      apply Nat.mod_eq_of_lt
      simp only [npos] at hlen
      omega
    refine ⟨i + 1, by omega, ?_, ?_, fun h => by simp at h, fun i2 h => by
      simp only [Option.some.injEq] at h; omega⟩
    · simp only [find_last_not_of, hf, Option.getD_some, hnp, if_true, hadd, mtconnect.erase]
    · intro j x hj hx
      obtain ⟨i2, hi2, hle⟩ := findLastIf_ge (fun c => !" \t\n\r".toList.contains c) txt j x hj
        (by simp only [hx, Bool.not_false])
      rw [hf] at hi2
      simp only [Option.some.injEq] at hi2
      omega

namespace adapter

open Connector

/-! ### The dispatch of a received line -/

/-- The method `startHeartbeats` calls no virtual method and leaves the streams and
the reconnect timer alone. -/
theorem startHeartbeats_frame (c : Connector) (arg : Str) :
    (startHeartbeats c arg).calls = c.calls ∧
    (startHeartbeats c arg).m_incoming = c.m_incoming ∧
    (startHeartbeats c arg).m_legacyTimeout = c.m_legacyTimeout := by
  unfold startHeartbeats
  simp only
  split
  · split
    · exact ⟨rfl, rfl, rfl⟩
    · exact ⟨rfl, rfl, rfl⟩
  · exact ⟨rfl, rfl, rfl⟩

/-- The line that `parseSocketBuffer` takes from a stream of at most `1024 * 1024`
characters is shorter than `npos`. -/
theorem getline_length_lt (buffer : Str) (hmax : buffer.length ≤ 1024 * 1024) :
    (getline buffer).1.length < npos := by
  have h := (List.takeWhile_prefix (l := buffer) (fun c : Char => c != '\n')).length_le
  have hn : (1024 * 1024 : Nat) < npos := by decide
  simp only [getline]
  omega

/-- What `parseSocketBuffer` does with a non-empty line, in terms of the text `line.take
k` that the trimming leaves. -/
theorem parseSocketBuffer_of_line (c : Connector) (hmax : c.m_incoming.length ≤ 1024 * 1024)
    (hne : (getline c.m_incoming).1 ≠ []) :
    ∃ k, 1 ≤ k ∧
      (∀ (j : Nat) (x : Char), ((getline c.m_incoming).1)[j]? = some x →
        " \t\n\r".toList.contains x = false → j < k) ∧
      (findLastIf (fun c => !" \t\n\r".toList.contains c) (getline c.m_incoming).1 = none →
        k = (getline c.m_incoming).1.length) ∧
      (∀ i, findLastIf (fun c => !" \t\n\r".toList.contains c) (getline c.m_incoming).1 = some i →
        k = i + 1) ∧
      parseSocketBuffer c =
        if ((getline c.m_incoming).1.take k).getD 0 '\x00' == '*' then
          if ((getline c.m_incoming).1.take k).take 6 == "* PONG".toList then
            if !c.m_heartbeats then
              startHeartbeats { setReceiveTimeout c with m_incoming := (getline c.m_incoming).2 }
                ((getline c.m_incoming).1.take k)
            else { setReceiveTimeout c with m_incoming := (getline c.m_incoming).2 }
          else
            { setReceiveTimeout c with
                m_incoming := (getline c.m_incoming).2,
                calls := c.calls ++ [Callback.protocolCommand ((getline c.m_incoming).1.take k)] }
        else
          { setReceiveTimeout c with
              m_incoming := (getline c.m_incoming).2,
              calls := c.calls ++ [Callback.processData ((getline c.m_incoming).1.take k)] } := by
  obtain ⟨k, hk1, hT, hcov, hnone, hsome⟩ :=
    trim_take (getline c.m_incoming).1 hne (getline_length_lt c.m_incoming hmax)
  refine ⟨k, hk1, hcov, hnone, hsome, ?_⟩
  have hempty : (getline c.m_incoming).1.isEmpty = false := by
    cases hl : (getline c.m_incoming).1 with
    | nil => exact absurd hl hne
    | cons a t => rfl
  have hinc : (setReceiveTimeout c).m_incoming = c.m_incoming := rfl
  have hhb : (setReceiveTimeout c).m_heartbeats = c.m_heartbeats := rfl
  have hcalls : (setReceiveTimeout c).calls = c.calls := rfl
  simp only [parseSocketBuffer, hinc, hempty, hT, substr_zero, hhb, hcalls, Bool.false_eq_true,
    if_false]

/-- Claim C17, as the code has it.  A line that consists of white space only (such as
the carriage return of an empty line that ends in CR LF) is not trimmed:
`find_last_not_of` finds nothing, the guard `end != npos` skips the `erase`, and the
whole line, white space included, is handed to `processData`.  A line that has a
character other than white space is cut behind the last such character, so the text
handed on ends in no white space. -/
theorem whitespace_line_is_not_trimmed (c : Connector)
    (hmax : c.m_incoming.length ≤ 1024 * 1024) (first : Char) (more : Str)
    (hline : (getline c.m_incoming).1 = first :: more) :
    ((∀ x ∈ first :: more, " \t\n\r".toList.contains x = true) →
      (parseSocketBuffer c).calls = c.calls ++ [Callback.processData (first :: more)]) ∧
    (∀ i, findLastIf (fun c => !" \t\n\r".toList.contains c) (first :: more) = some i →
      (∃ z, ((first :: more).take (i + 1)).getLast? = some z ∧
        " \t\n\r".toList.contains z = false) ∧
      ((parseSocketBuffer c).calls = c.calls ∨
        (parseSocketBuffer c).calls
          = c.calls ++ [Callback.protocolCommand ((first :: more).take (i + 1))] ∨
        (parseSocketBuffer c).calls
          = c.calls ++ [Callback.processData ((first :: more).take (i + 1))])) := by
  have hne : (getline c.m_incoming).1 ≠ [] := by rw [hline]; simp
  obtain ⟨k, hk1, _, hnone, hsome, hparse⟩ := parseSocketBuffer_of_line c hmax hne
  rw [hline] at hnone hsome hparse
  constructor
  · intro hws
    have hall : ∀ x ∈ first :: more, (fun c => !" \t\n\r".toList.contains c) x = false := by
      intro x hx
      simp only [hws x hx, Bool.not_true]
    have hk := hnone (findLastIf_eq_none_of_forall_false _ _ hall)
    have hfirst : (first == '*') = false := by
      have h1 := hws first (List.mem_cons_self _ _)
      rw [beq_eq_false_iff_ne]
      rintro rfl
      revert h1
      decide
    rw [hparse, hk, List.take_length]
    simp only [List.getD_cons_zero, hfirst, Bool.false_eq_true, if_false]
  · intro i hi
    have hk := hsome i hi
    obtain ⟨z, hz, hpz⟩ := findLastIf_take_getLast _ _ i hi
    refine ⟨⟨z, hz, by simpa using hpz⟩, ?_⟩
    rw [hparse, hk]
    split
    · split
      · left
        split
        · exact (startHeartbeats_frame _ _).1
        · rfl
      · right; left; rfl
    · right; right; rfl

/-- Witness of C17: the connector of `instances` receives an empty line that ends in
CR LF; the text handed to `processData` is the carriage return. -/
theorem whitespace_line_is_not_trimmed_witness :
    (parseSocketBuffer { instances.connectedConnector with m_incoming := "\r\n".toList }).calls =
      instances.connectedConnector.calls ++ [Callback.processData "\r".toList] ∧
    "\r".toList.getLast? = some '\r' :=
  ⟨(whitespace_line_is_not_trimmed
      { instances.connectedConnector with m_incoming := "\r\n".toList } (by decide) '\r' []
      (by decide)).1 (by decide),
   by decide⟩

/-- Claim C18.  A non-empty received line is dispatched to exactly one handler: when
its first character is `*` it is never passed to `processData`; it is handled as
heartbeat negotiation (no virtual method is called) when its first six characters
are `* PONG`, and passed once to `protocolCommand` otherwise; when its first
character is not `*` it is passed exactly once to `processData` and never to
`protocolCommand`.  An empty line is passed to no handler.  The text passed on is a
start of the line. -/
theorem parseSocketBuffer_dispatches_once (c : Connector)
    (hmax : c.m_incoming.length ≤ 1024 * 1024) :
    ((getline c.m_incoming).1 = [] → (parseSocketBuffer c).calls = c.calls) ∧
    (∀ (first : Char) (more : Str), (getline c.m_incoming).1 = first :: more →
      (first = '*' → (first :: more).take 6 = "* PONG".toList →
        (parseSocketBuffer c).calls = c.calls ∧
        ∃ text, text <+: first :: more ∧
          parseSocketBuffer c =
            if !c.m_heartbeats then
              startHeartbeats { setReceiveTimeout c with m_incoming := (getline c.m_incoming).2 }
                text
            else { setReceiveTimeout c with m_incoming := (getline c.m_incoming).2 }) ∧
      (first = '*' → (first :: more).take 6 ≠ "* PONG".toList →
        ∃ text, text <+: first :: more ∧
          (parseSocketBuffer c).calls = c.calls ++ [Callback.protocolCommand text]) ∧
      (first ≠ '*' →
        ∃ text, text <+: first :: more ∧
          (parseSocketBuffer c).calls = c.calls ++ [Callback.processData text])) := by
  constructor
  · intro hline
    have hinc : (setReceiveTimeout c).m_incoming = c.m_incoming := rfl
    simp only [parseSocketBuffer, hinc, hline, List.isEmpty, if_true]
    rfl
  · intro first more hline
    have hne : (getline c.m_incoming).1 ≠ [] := by rw [hline]; simp
    obtain ⟨k, hk1, hcov, _, _, hparse⟩ := parseSocketBuffer_of_line c hmax hne
    rw [hline] at hcov hparse
    have hhead : ((first :: more).take k).getD 0 '\x00' = first := by
      cases k with
      | zero => omega
      | succ k => simp
    rw [hhead] at hparse
    refine ⟨?_, ?_, ?_⟩
    · intro hstar hpong
      have hG : (first :: more)[5]? = some 'G' := by
        have h5 : ((first :: more).take 6)[5]? = some 'G' := by rw [hpong]; rfl
        rwa [List.getElem?_take_of_lt (by decide)] at h5
      have hk6 : 5 < k := hcov 5 'G' hG (by decide)
      have htake : ((first :: more).take k).take 6 = "* PONG".toList := by
        rw [List.take_take, Nat.min_eq_left (by omega), hpong]
      have hb1 : (first == '*') = true := by rw [hstar]; rfl
      have hb2 : (((first :: more).take k).take 6 == "* PONG".toList) = true := by
        rw [htake]; rfl
      rw [hparse]
      simp only [hb1, hb2, if_true]
      constructor
      · split
        · exact (startHeartbeats_frame _ _).1
        · rfl
      · exact ⟨(first :: more).take k, List.take_prefix _ _, rfl⟩
    · intro hstar hpong
      have hb1 : (first == '*') = true := by rw [hstar]; rfl
      have hb2 : (((first :: more).take k).take 6 == "* PONG".toList) = false := by
        rw [beq_eq_false_iff_ne]
        intro h
        apply hpong
        have hlen := congrArg List.length h
        rw [List.take_take] at h hlen
        have h6 : "* PONG".toList.length = 6 := rfl
        rw [h6, List.length_take] at hlen
        have hmin : min 6 k = 6 := by omega
        rw [hmin] at h
        exact h
      refine ⟨(first :: more).take k, List.take_prefix _ _, ?_⟩
      rw [hparse]
      simp only [hb1, hb2, if_true, Bool.false_eq_true, if_false]
    · intro hstar
      have hb1 : (first == '*') = false := beq_eq_false_iff_ne.mpr hstar
      refine ⟨(first :: more).take k, List.take_prefix _ _, ?_⟩
      rw [hparse]
      simp only [hb1, Bool.false_eq_true, if_false]

/-- Witness of C18 on the connector of `instances`: the line `* PONG 500` calls no
virtual method, the line `* hello` is passed to `protocolCommand`, the line
`Xa|3.14` to `processData`, and an empty line to neither. -/
theorem parseSocketBuffer_dispatches_once_witness :
    (parseSocketBuffer { instances.connectedConnector with m_incoming := "\nXa".toList }).calls
      = instances.connectedConnector.calls ∧
    (parseSocketBuffer
        { instances.connectedConnector with m_incoming := "* PONG 500\n".toList }).calls
      = instances.connectedConnector.calls ∧
    (parseSocketBuffer
        { instances.connectedConnector with m_incoming := "* hello \n".toList }).calls
      = instances.connectedConnector.calls ++ [Callback.protocolCommand "* hello".toList] ∧
    (parseSocketBuffer
        { instances.connectedConnector with m_incoming := "Xa|3.14\r\n".toList }).calls
      = instances.connectedConnector.calls ++ [Callback.processData "Xa|3.14".toList] :=
  ⟨(parseSocketBuffer_dispatches_once
      { instances.connectedConnector with m_incoming := "\nXa".toList } (by decide)).1
      (by decide),
   ((parseSocketBuffer_dispatches_once
      { instances.connectedConnector with m_incoming := "* PONG 500\n".toList } (by decide)).2
      '*' " PONG 500".toList (by decide)).1 rfl (by decide) |>.1,
   by decide, by decide⟩

/-! ### The receive watchdog -/

/-- The two ways `startHeartbeats` ends: it leaves the connector as it is, or it
accepts a frequency `f` in the window, switches heartbeats on, sets the receive
limit to `2 f` and arms the receive timeout and the heartbeat timer. -/
theorem startHeartbeats_cases (c : Connector) (arg : Str) :
    startHeartbeats c arg = c ∨
    ∃ f : Int, 0 < f ∧ f < 1800000 ∧
      startHeartbeats c arg =
        { c with m_heartbeats := true, m_heartbeatFrequency := f, m_receiveTimeLimit := 2 * f,
                 m_receiveTimeout := some (2 * f, Handler.receiveTimeout),
                 m_heartbeatTimer := some (f, Handler.heartbeat) } := by
  unfold startHeartbeats
  simp only
  split
  · split
    · rename_i hw
      right
      simp only [gt_iff_lt, Bool.and_eq_true, decide_eq_true_eq] at hw
      exact ⟨_, hw.1, by omega, rfl⟩
    · left; rfl
  · left; rfl

/-- The three ways `parseSocketBuffer` ends, seen from the connector with the receive
timeout set and the line taken off the stream: as that connector, through
`startHeartbeats` (when heartbeats were off), or with one more virtual method
called. -/
theorem parseSocketBuffer_cases (c : Connector) :
    parseSocketBuffer c = { setReceiveTimeout c with m_incoming := (getline c.m_incoming).2 } ∨
    (c.m_heartbeats = false ∧ ∃ text,
      parseSocketBuffer c =
        startHeartbeats { setReceiveTimeout c with m_incoming := (getline c.m_incoming).2 }
          text) ∨
    ∃ cb, parseSocketBuffer c =
      { setReceiveTimeout c with
          m_incoming := (getline c.m_incoming).2, calls := c.calls ++ [cb] } := by
  have hinc : (setReceiveTimeout c).m_incoming = c.m_incoming := rfl
  have hhb : (setReceiveTimeout c).m_heartbeats = c.m_heartbeats := rfl
  have hcalls : (setReceiveTimeout c).calls = c.calls := rfl
  unfold parseSocketBuffer
  simp only [hinc, hhb, hcalls]
  by_cases h1 : (getline c.m_incoming).1.isEmpty = true
  · rw [if_pos h1]
    left; rfl
  · rw [if_neg h1]
    generalize (if (find_last_not_of (getline c.m_incoming).1 " \t\n\r".toList != npos) = true
      then mtconnect.erase (getline c.m_incoming).1
        (sizeAdd (find_last_not_of (getline c.m_incoming).1 " \t\n\r".toList) 1)
      else (getline c.m_incoming).1) = text
    by_cases h2 : (text.getD 0 '\x00' == '*') = true
    · rw [if_pos h2]
      by_cases h3 : (substr text 0 6 == "* PONG".toList) = true
      · rw [if_pos h3]
        by_cases h4 : (!c.m_heartbeats) = true
        · rw [if_pos h4]
          right; left
          exact ⟨by simpa using h4, text, rfl⟩
        · rw [if_neg h4]
          left; rfl
      · rw [if_neg h3]
        right; right
        exact ⟨_, rfl⟩
    · rw [if_neg h2]
      right; right
      exact ⟨_, rfl⟩

/-- Claim C19.  Every call of `parseSocketBuffer`, whatever the stream holds, leaves the
receive watchdog armed to expire exactly the receive time limit that holds when the
call returns.  That limit is the one before the call, unless the line is a `* PONG`
that is accepted while heartbeats were off, from which on it is twice the heartbeat
frequency; and as long as the limit of a session without heartbeats is the legacy
timeout, it stays the legacy timeout until a PONG is accepted. -/
theorem parseSocketBuffer_rearms_watchdog (c : Connector) :
    (parseSocketBuffer c).m_receiveTimeout
      = some ((parseSocketBuffer c).m_receiveTimeLimit, Handler.receiveTimeout) ∧
    (((parseSocketBuffer c).m_receiveTimeLimit = c.m_receiveTimeLimit ∧
        (parseSocketBuffer c).m_heartbeats = c.m_heartbeats) ∨
      (c.m_heartbeats = false ∧ (parseSocketBuffer c).m_heartbeats = true ∧
        (parseSocketBuffer c).m_receiveTimeLimit
          = 2 * (parseSocketBuffer c).m_heartbeatFrequency)) ∧
    (parseSocketBuffer c).m_legacyTimeout = c.m_legacyTimeout ∧
    ((c.m_heartbeats = false → c.m_receiveTimeLimit = c.m_legacyTimeout) →
      (parseSocketBuffer c).m_heartbeats = false →
      (parseSocketBuffer c).m_receiveTimeLimit = (parseSocketBuffer c).m_legacyTimeout) := by
  have key : (parseSocketBuffer c).m_receiveTimeout
      = some ((parseSocketBuffer c).m_receiveTimeLimit, Handler.receiveTimeout) ∧
    (((parseSocketBuffer c).m_receiveTimeLimit = c.m_receiveTimeLimit ∧
        (parseSocketBuffer c).m_heartbeats = c.m_heartbeats) ∨
      (c.m_heartbeats = false ∧ (parseSocketBuffer c).m_heartbeats = true ∧
        (parseSocketBuffer c).m_receiveTimeLimit
          = 2 * (parseSocketBuffer c).m_heartbeatFrequency)) ∧
    (parseSocketBuffer c).m_legacyTimeout = c.m_legacyTimeout := by
    rcases parseSocketBuffer_cases c with h | ⟨hoff, text, h⟩ | ⟨cb, h⟩
    · rw [h]
      exact ⟨rfl, Or.inl ⟨rfl, rfl⟩, rfl⟩
    · rw [h]
      rcases startHeartbeats_cases
        { setReceiveTimeout c with m_incoming := (getline c.m_incoming).2 } text with hs | ⟨f, _, _, hs⟩
      · rw [hs]
        exact ⟨rfl, Or.inl ⟨rfl, rfl⟩, rfl⟩
      · rw [hs]
        exact ⟨rfl, Or.inr ⟨hoff, rfl, rfl⟩, rfl⟩
    · rw [h]
      exact ⟨rfl, Or.inl ⟨rfl, rfl⟩, rfl⟩
  refine ⟨key.1, key.2.1, key.2.2, ?_⟩
  intro hinv hoff'
  rcases key.2.1 with ⟨hl, hh⟩ | ⟨_, hon, _⟩
  · rw [hl, key.2.2]
    exact hinv (by rw [← hh]; exact hoff')
  · rw [hon] at hoff'
    exact absurd hoff' (by decide)

/-- Witness of C19 on the connector of `instances`, whose limit is the legacy timeout
of 10 000 ms: after an empty line and after a data line the watchdog is armed to
10 000 ms; after the line `* PONG 500` it is armed to 1000 ms. -/
theorem parseSocketBuffer_rearms_watchdog_witness :
    (parseSocketBuffer { instances.connectedConnector with m_incoming := "\n".toList }).m_receiveTimeout
      = some (10000, Handler.receiveTimeout) ∧
    (parseSocketBuffer
        { instances.connectedConnector with m_incoming := "Xa|3.14\n".toList }).m_receiveTimeLimit
      = 10000 ∧
    (parseSocketBuffer
        { instances.connectedConnector with m_incoming := "* PONG 500\n".toList }).m_receiveTimeout
      = some (1000, Handler.receiveTimeout) :=
  ⟨by decide,
   (parseSocketBuffer_rearms_watchdog
      { instances.connectedConnector with m_incoming := "Xa|3.14\n".toList }).2.2.2
      (by decide) (by decide),
   by decide⟩

/-! ### A PONG that is not accepted -/

/-- Claim C20, as the code has it.  The line `* PONG -5` does not leave the session
unheartbeated: `startHeartbeats` looks for the first digit from position 7 on, skips
the sign, reads `5`, and enables heartbeats with a frequency of 5 ms, a receive time
limit of 10 ms and the heartbeat timer armed.  A line whose argument is missing
(`* PONG`), is not a number (`* PONG abc`), is zero or is 1 800 000 leaves the
connector as it is. -/
theorem negative_pong_is_accepted :
    (startHeartbeats instances.connectedConnector "* PONG -5".toList).m_heartbeats = true ∧
    (startHeartbeats instances.connectedConnector "* PONG -5".toList).m_heartbeatFrequency = 5 ∧
    (startHeartbeats instances.connectedConnector "* PONG -5".toList).m_receiveTimeLimit = 10 ∧
    (startHeartbeats instances.connectedConnector "* PONG -5".toList).m_heartbeatTimer
      = some (5, Handler.heartbeat) ∧
    instances.connectedConnector.m_heartbeats = false ∧
    (parseSocketBuffer
        { instances.connectedConnector with m_incoming := "* PONG -5\n".toList }).m_heartbeats
      = true ∧
    startHeartbeats instances.connectedConnector "* PONG".toList
      = instances.connectedConnector ∧
    startHeartbeats instances.connectedConnector "* PONG abc".toList
      = instances.connectedConnector ∧
    startHeartbeats instances.connectedConnector "* PONG 0".toList
      = instances.connectedConnector ∧
    startHeartbeats instances.connectedConnector "* PONG 1800000".toList
      = instances.connectedConnector := by
  refine ⟨by decide, by decide, by decide, by decide, by decide, by decide, by decide,
    by decide, by decide, by decide⟩

end adapter

/-! ### The properties of an entity -/

namespace entity

/-- Looking up a key after `erase`: nothing under the erased key, the old lookup under
every other key. -/
theorem Properties.find_erase (props : Properties) (key k : Str) :
    (props.erase key).find k = if key = k then none else props.find k := by
  induction props with
  | nil => simp [Properties.erase, Properties.find]
  | cons hd tl ih =>
    obtain ⟨a, w⟩ := hd
    by_cases h : a = key
    · subst h
      by_cases hk : a = k
      · subst hk
        simpa [Properties.erase] using ih
      · simp [Properties.erase, Properties.find, hk, ih]
    · by_cases hk : a = k
      · subst hk
        have hne : ¬ key = a := fun h' => h h'.symm
        simp [Properties.erase, Properties.find, h, hne]
      · simp [Properties.erase, Properties.find, h, hk, ih]

/-- Claim C27.  After `e.setProperty(k, v)`, `getProperty(k)` returns `v` and
`hasProperty(k)` is true, while for a key `k2` different from `k` both are as before;
`getProperty` of a key that is not present returns the `monostate` value; and after
`erase(k)` the key `k` is not present, the other keys being as before. -/
theorem setProperty_getProperty (e : Entity) (k k2 : Str) (v : Value) (hk : k2 ≠ k) :
    (e.setProperty k v).getProperty k = v ∧
    (e.setProperty k v).hasProperty k = true ∧
    (e.setProperty k v).getProperty k2 = e.getProperty k2 ∧
    (e.setProperty k v).hasProperty k2 = e.hasProperty k2 ∧
    (e.hasProperty k = false → e.getProperty k = Value.monostate) ∧
    (e.erase k).hasProperty k = false ∧
    (e.erase k).getProperty k = Value.monostate ∧
    (e.erase k).getProperty k2 = e.getProperty k2 ∧
    (e.erase k).hasProperty k2 = e.hasProperty k2 ∧
    (e.setValue v).getValue = v := by
  have hne : ¬ k = k2 := fun h => hk h.symm
  refine ⟨?_, ?_, ?_, ?_, ?_, ?_, ?_, ?_, ?_, ?_⟩
  · simp [Entity.setProperty, Entity.getProperty, Properties.find_insert_or_assign]
  · simp [Entity.setProperty, Entity.hasProperty, Properties.find_insert_or_assign]
  · simp [Entity.setProperty, Entity.getProperty, Properties.find_insert_or_assign, hne]
  · simp [Entity.setProperty, Entity.hasProperty, Properties.find_insert_or_assign, hne]
  · intro h
    simp only [Entity.hasProperty] at h
    cases hf : e.m_properties.find k with
    | none => simp [Entity.getProperty, hf]
    | some w => rw [hf] at h; simp at h
  · simp [Entity.erase, Entity.hasProperty, Properties.find_erase]
  · simp [Entity.erase, Entity.getProperty, Properties.find_erase]
  · simp [Entity.erase, Entity.getProperty, Properties.find_erase, hne]
  · simp [Entity.erase, Entity.hasProperty, Properties.find_erase, hne]
  · simp [Entity.setValue, Entity.getValue, Entity.setProperty, Entity.getProperty,
      Properties.find_insert_or_assign]

/-- Witness of C27 on an entity with the properties `code` and `state`: setting
`severity` leaves `code` as it is, and a key that is not there reads as `monostate`. -/
theorem setProperty_getProperty_witness :
    ((⟨"Alarm".toList,
        [("code".toList, Value.string "OVERTEMP".toList),
         ("state".toList, Value.string "ACTIVE".toList)], none⟩ : Entity).setProperty
      "severity".toList (Value.string "HIGH".toList)).getProperty "code".toList
      = Value.string "OVERTEMP".toList ∧
    (⟨"Alarm".toList,
        [("code".toList, Value.string "OVERTEMP".toList),
         ("state".toList, Value.string "ACTIVE".toList)], none⟩ : Entity).getProperty
      "severity".toList = Value.monostate :=
  ⟨((setProperty_getProperty
      ⟨"Alarm".toList,
        [("code".toList, Value.string "OVERTEMP".toList),
         ("state".toList, Value.string "ACTIVE".toList)], none⟩
      "severity".toList "code".toList (Value.string "HIGH".toList) (by decide)).2.2.1).trans
      (by decide),
   (setProperty_getProperty
      ⟨"Alarm".toList,
        [("code".toList, Value.string "OVERTEMP".toList),
         ("state".toList, Value.string "ACTIVE".toList)], none⟩
      "severity".toList "code".toList (Value.string "HIGH".toList) (by decide)).2.2.2.2.1
      (by decide)⟩

end entity

namespace source

open entity

/-! ### A reset trigger without white space -/

/-- Claim C30.  For a data item that is not a Sample and has a reset trigger, or
DataSet or Table semantics, and a token that contains `:` but neither space nor tab
at or behind its first `:`, `extractResetTrigger` returns the whole token as the
value and sets `resetTriggered` to the token without its first character, in upper
case.  For a data item with none of these semantics, and for a token without `:`,
it returns the token and leaves the properties as they are. -/
theorem extractResetTrigger_without_whitespace (di : DataItem) (props : Properties) :
    (∀ (a b : Str), di.isSample = false →
      (di.hasResetTrigger = true ∨ di.isTable = true ∨ di.isDataSet = true) →
      ':' ∉ a → (∀ x ∈ b, x ≠ ' ' ∧ x ≠ '\t') → (a ++ ':' :: b).length < sizeMod →
      extractResetTrigger di (a ++ ':' :: b) props =
        (a ++ ':' :: b, props.insert_or_assign "resetTriggered".toList
          (Value.string (upcase ((a ++ ':' :: b).drop 1))))) ∧
    (∀ tok : Str, di.hasResetTrigger = false → di.isTable = false → di.isDataSet = false →
      extractResetTrigger di tok props = (tok, props)) ∧
    (∀ tok : Str, ':' ∉ tok → extractResetTrigger di tok props = (tok, props)) := by
  refine ⟨?_, ?_, ?_⟩
  · intro a b hs hsem hcolon hb hlen
    have hfind := find_append_cons ':' a b hcolon
    have hlen' := hlen
    simp only [List.length_append, List.length_cons, sizeMod] at hlen'
    have hnpos : (a.length != npos) = true := by
      simp only [bne_iff_ne, ne_eq, npos, sizeMod]
      omega
    have hsem' : (di.hasResetTrigger || di.isTable || di.isDataSet) = true := by
      rcases hsem with h | h | h <;> simp [h]
    have hd : List.drop a.length (a ++ ':' :: b) = ':' :: b := by simp
    have hall : ∀ x ∈ ':' :: b, (fun c => " \t".toList.contains c) x = false := by
      intro x hx
      rcases List.mem_cons.mp hx with rfl | hx
      · decide
      · have := hb x hx
        simp [this.1, this.2]
    have hef : find_first_of (a ++ ':' :: b) " \t".toList a.length = npos := by
      simp only [find_first_of, hd, findIf_eq_none_of_forall_false _ _ hall]
    have hsub : sizeSub npos 1 = npos - 1 := by decide
    have hadd : sizeAdd npos 1 = 0 := by decide
    have htrig : substr (a ++ ':' :: b) 1 (npos - 1) = (a ++ ':' :: b).drop 1 := by
      have hmin : min (npos - 1) ((a ++ ':' :: b).length - 1) = (a ++ ':' :: b).length - 1 := by
        simp only [List.length_append, List.length_cons, npos, sizeMod]
        omega
      simp only [substr, hmin]
      apply List.take_of_length_le
      simp
    have hval : substr (a ++ ':' :: b) 0 npos = a ++ ':' :: b := by
      rw [substr_zero]
      apply List.take_of_length_le
      simp only [List.length_append, List.length_cons, npos, sizeMod]
      omega
    simp only [extractResetTrigger, hfind, hnpos, hsem', hs, Bool.and_self, if_true, hef, hsub,
      hadd, htrig, hval, Bool.false_eq_true, if_false]
  · intro tok h1 h2 h3
    simp [extractResetTrigger, h1, h2, h3]
  · intro tok hcolon
    simp [extractResetTrigger, find_eq_npos_of_not_mem ':' tok hcolon]

/-- Witness of C30: for an Event with DataSet semantics the token `:manual` is returned
whole and sets `resetTriggered` to `MANUAL`; the token `a=1 b=2` has no `:` and is
returned with the properties unchanged. -/
theorem extractResetTrigger_without_whitespace_witness :
    extractResetTrigger (instances.dataSetEvent "Ds".toList) ":manual".toList [] =
      (":manual".toList, [("resetTriggered".toList, Value.string "MANUAL".toList)]) ∧
    extractResetTrigger (instances.dataSetEvent "Ds".toList) "a=1 b=2".toList [] =
      ("a=1 b=2".toList, []) :=
  ⟨(extractResetTrigger_without_whitespace (instances.dataSetEvent "Ds".toList) []).1
      [] "manual".toList (by decide) (Or.inr (Or.inr (by decide))) (by decide) (by decide)
      (by decide),
   (extractResetTrigger_without_whitespace (instances.dataSetEvent "Ds".toList) []).2.2
      "a=1 b=2".toList (by decide)⟩

/-! ### The progress of the mapping loop -/

/-- After `zipProperties` the token iterator stands on a suffix of the tokens given. -/
theorem zipProperties_token_suffix (env : Collaborators) (m : ShdrTokenMapper) (di : DataItem)
    (ts : Timestamp) (reqs : Requirements) (toks : TokenList) :
    (zipProperties env m di ts reqs toks).token <:+ toks := by
  have h := zipLoop_token_suffix env di reqs toks [] m.g_logger
  unfold zipProperties
  simp only
  split <;> exact h

/-- After `mapTokensToDataItem` the token iterator stands behind the key, on a suffix
of the tokens that follow the key. -/
theorem mapTokensToDataItem_token_suffix (env : Collaborators) (m : ShdrTokenMapper)
    (ts : Timestamp) (key : Str) (toks : TokenList) :
    (mapTokensToDataItem env m ts (key :: toks)).token <:+ toks := by
  simp only [mapTokensToDataItem]
  split
  · split <;> exact List.suffix_refl _
  · split
    · exact zipProperties_token_suffix env m _ ts _ toks
    · exact List.suffix_refl _

/-- After `mapTokesnToAsset` the token position recorded is a suffix of the tokens that
follow the command. -/
theorem mapTokesnToAsset_token_suffix (env : Collaborators) (m : ShdrTokenMapper)
    (ts : Timestamp) (command : Str) (toks : TokenList) :
    (mapTokesnToAsset env m ts (command :: toks)).token <:+ toks := by
  simp only [mapTokesnToAsset]
  split
  · split
    · rename_i a b body rest
      have hs : rest <:+ a :: b :: body :: rest :=
        ⟨[a, b, body], by simp⟩
      split <;> exact hs
    · exact List.nil_suffix
  · split
    · split
      · exact List.suffix_refl _
      · exact List.suffix_cons _ _
    · split
      · split
        · exact List.suffix_refl _
        · exact List.suffix_cons _ _
      · exact List.suffix_refl _

/-- An iteration of the mapping loop that is defined takes the first token and leaves
the iterator on a suffix of the tokens behind it. -/
theorem mapOne_token_suffix (env : Collaborators) (tsd : Timestamped) (st st2 : LoopState)
    (h : mapOne env tsd st = some st2) :
    ∃ tok toks, st.token = tok :: toks ∧ st2.token <:+ toks := by
  cases hst : st.token with
  | nil => simp [mapOne, hst] at h
  | cons tok toks =>
    refine ⟨tok, toks, rfl, ?_⟩
    have hA := mapTokesnToAsset_token_suffix env st.mapper tsd.m_timestamp tok toks
    have hD := mapTokensToDataItem_token_suffix env st.mapper tsd.m_timestamp tok toks
    simp only [mapOne, hst] at h
    by_cases hat : (tok.headD '\x00' == '@') = true
    · simp only [hat, if_true] at h
      split at h
      · split at h <;> (simp only [Option.some.injEq] at h; rw [← h]; exact hA)
      · simp only [Option.some.injEq] at h; rw [← h]; exact hA
      · simp only [Option.some.injEq] at h; rw [← h]; exact hA
      · simp at h
    · simp only [hat, Bool.false_eq_true, if_false] at h
      have htok : ∀ r : MapResult, r = (match (mapTokensToDataItem env st.mapper tsd.m_timestamp
            (tok :: toks)).out, tsd.m_duration with
          | Outcome.returned (some out), some d =>
            { mapTokensToDataItem env st.mapper tsd.m_timestamp (tok :: toks) with
              out := Outcome.returned
                (some (out.setProperty "duration".toList (Value.double d))) }
          | _, _ => mapTokensToDataItem env st.mapper tsd.m_timestamp (tok :: toks)) →
          r.token <:+ toks := by
        intro r hr
        rw [hr]
        split <;> exact hD
      have := htok _ rfl
      split at h
      · split at h <;> (simp only [Option.some.injEq] at h; rw [← h]; exact this)
      · simp only [Option.some.injEq] at h; rw [← h]; exact this
      · simp only [Option.some.injEq] at h; rw [← h]; exact this
      · simp at h

/-- With fuel for one iteration per token the mapping loop does not run out of fuel. -/
theorem mapLoop_fuel (env : Collaborators) (tsd : Timestamped) :
    ∀ (fuel : Nat) (st : LoopState), st.token.length ≤ fuel →
      mapLoop env tsd fuel st ≠ LoopResult.outOfFuel := by
  intro fuel
  induction fuel with
  | zero =>
    intro st h
    have : st.token = [] := List.length_eq_zero.mp (Nat.le_zero.mp h)
    simp [mapLoop, this]
  | succ fuel ih =>
    intro st h
    cases hst : st.token with
    | nil => simp [mapLoop, hst]
    | cons tok toks =>
      simp only [mapLoop, hst]
      cases hone : mapOne env tsd st with
      | none => simp
      | some st2 =>
        obtain ⟨tok2, toks2, heq, hsuf⟩ := mapOne_token_suffix env tsd st st2 hone
        have hl := hsuf.length_le
        rw [hst] at heq h
        simp only [List.cons.injEq] at heq
        simp only [List.length_cons] at h
        apply ih
        rw [← heq.2] at hl
        omega

/-- Claim C25, as the code has it.  Every iteration of the mapping loop that is
defined, also one that ends in a caught entity error or in an unknown data item,
takes at least one token and leaves the iterator inside the list (on a suffix of the
tokens behind the first one), so the loop, run with fuel for one iteration per
token, never runs out of fuel.  But the iteration is not always defined: for the
frame that ends in `@ASSET@|id`, `mapTokesnToAsset` dereferences and advances the
iterator three times behind the command, beyond the end of the list. -/
theorem mapping_loop_progress :
    (∀ (env : Collaborators) (tsd : Timestamped) (st st2 : LoopState),
      mapOne env tsd st = some st2 →
      st2.token.length < st.token.length ∧ st2.token <:+ st.token) ∧
    (∀ (env : Collaborators) (m : ShdrTokenMapper) (tsd : Timestamped),
      ShdrTokenMapper.apply env m tsd ≠ Mapped.outOfFuel) ∧
    mapOne instances.dictionary ⟨["@ASSET@".toList, "id".toList], 5, none⟩
      ⟨["@ASSET@".toList, "id".toList], [], instances.freshMapper⟩ = none ∧
    ShdrTokenMapper.apply instances.dictionary instances.freshMapper
      ⟨["Xa".toList, "3.14".toList, "@ASSET@".toList, "id".toList], 5, none⟩
      = Mapped.undefined := by
  refine ⟨?_, ?_, by decide, by decide⟩
  · intro env tsd st st2 h
    obtain ⟨tok, toks, heq, hsuf⟩ := mapOne_token_suffix env tsd st st2 h
    have hl := hsuf.length_le
    rw [heq]
    exact ⟨by simp only [List.length_cons]; omega, hsuf.trans (List.suffix_cons _ _)⟩
  · intro env m tsd h
    have hf := mapLoop_fuel env tsd tsd.m_tokens.length ⟨tsd.m_tokens, [], m⟩ (Nat.le_refl _)
    simp only [ShdrTokenMapper.apply] at h
    cases hl : mapLoop env tsd tsd.m_tokens.length ⟨tsd.m_tokens, [], m⟩ with
    | done es mp => rw [hl] at h; simp at h
    | undefined => rw [hl] at h; simp at h
    | outOfFuel => exact hf hl

/-- Witness of C25: the iteration on the unknown key `Zz` and the one on the unknown
command `@FOO@` each take exactly one token. -/
theorem mapping_loop_progress_witness :
    mapOne instances.dictionary ⟨[], 5, none⟩
        ⟨["Zz".toList, "1".toList], [], instances.freshMapper⟩ =
      some ⟨["1".toList], [],
        ⟨["Zz".toList], [⟨.LWARN, "() Could not find data item: Zz".toList⟩]⟩⟩ ∧
    (["1".toList] : TokenList).length < (["Zz".toList, "1".toList] : TokenList).length :=
  have h : mapOne instances.dictionary ⟨[], 5, none⟩
        ⟨["Zz".toList, "1".toList], [], instances.freshMapper⟩ =
      some ⟨["1".toList], [],
        ⟨["Zz".toList], [⟨.LWARN, "() Could not find data item: Zz".toList⟩]⟩⟩ := by decide
  ⟨h, (mapping_loop_progress.1 instances.dictionary ⟨[], 5, none⟩ _ _ h).1⟩

/-- Claim C26, as the code has it.  The asset branch reads tokens that do not exist: an
`@ASSET@` command followed by fewer than three tokens, and an `@REMOVE_ASSET@`
command followed by no token, dereference the end iterator of the token list
(`*token++` without a test against `end`), which is undefined.  Only the optional
type of `@REMOVE_ALL_ASSETS@` is read behind the test `token != end`. -/
theorem asset_branch_reads_past_end (env : Collaborators) (m : ShdrTokenMapper)
    (t : Timestamp) :
    (∀ rest : TokenList, rest.length < 3 →
      (mapTokesnToAsset env m t ("@ASSET@".toList :: rest)).out = Outcome.undefined) ∧
    (mapTokesnToAsset env m t ["@REMOVE_ASSET@".toList]).out = Outcome.undefined ∧
    (∀ dur : Option Decimal,
      ShdrTokenMapper.apply env m ⟨["@REMOVE_ASSET@".toList], t, dur⟩ = Mapped.undefined) ∧
    (mapTokesnToAsset env m t ["@REMOVE_ALL_ASSETS@".toList]).out =
      Outcome.returned (some ⟨"RemoveAll".toList, [], some t⟩) := by
  have ha1 : ¬ "@REMOVE_ASSET@".toList = "@ASSET@".toList := by decide
  have ha2 : ¬ "@REMOVE_ASSET@".toList = "@REMOVE_ALL_ASSETS@".toList := by decide
  have hb1 : ¬ "@REMOVE_ALL_ASSETS@".toList = "@ASSET@".toList := by decide
  have hr : mapTokesnToAsset env m t ["@REMOVE_ASSET@".toList] = ⟨Outcome.undefined, [], [], m⟩ := by
    simp only [mapTokesnToAsset, ha1, ha2, if_false, if_true]
  refine ⟨?_, by rw [hr], ?_, ?_⟩
  · intro rest hlen
    match rest, hlen with
    | [], _ => simp only [mapTokesnToAsset, if_true]
    | [_], _ => simp only [mapTokesnToAsset, if_true]
    | [_, _], _ => simp only [mapTokesnToAsset, if_true]
    | _ :: _ :: _ :: _, h => simp at h; omega
  · intro dur
    have hh : ("@REMOVE_ASSET@".toList.headD '\x00' == '@') = true := by decide
    simp only [ShdrTokenMapper.apply, List.length_cons, List.length_nil, mapLoop, mapOne, hh,
      if_true, hr]
  · simp only [mapTokesnToAsset, hb1, if_false, if_true, Entity.setName]

/-- Witness of C26 on the dictionary of `instances`: `@ASSET@` followed by an id and a
type only is undefined. -/
theorem asset_branch_reads_past_end_witness :
    (mapTokesnToAsset instances.dictionary instances.freshMapper 5
      ["@ASSET@".toList, "id".toList, "Tool".toList]).out = Outcome.undefined :=
  (asset_branch_reads_past_end instances.dictionary instances.freshMapper 5).1
    ["id".toList, "Tool".toList] (by decide)

end source

namespace adapter

open Connector

/-! ### Heartbeats that are already active -/

/-- Claim C28.  Once heartbeats are active, a received line, whatever it is and
whatever number a `* PONG` carries, leaves the heartbeat flag, the heartbeat
frequency and the receive time limit unchanged and does not touch the heartbeat
timer: `parseSocketBuffer` does not call `startHeartbeats`, it only sets the receive
timeout, takes the line from the stream and, for a line that is not a `* PONG`,
calls one virtual method. -/
theorem pong_ignored_when_heartbeats_active (c : Connector) (hon : c.m_heartbeats = true) :
    (parseSocketBuffer c).m_heartbeats = true ∧
    (parseSocketBuffer c).m_heartbeatFrequency = c.m_heartbeatFrequency ∧
    (parseSocketBuffer c).m_receiveTimeLimit = c.m_receiveTimeLimit ∧
    (parseSocketBuffer c).m_heartbeatTimer = c.m_heartbeatTimer ∧
    (parseSocketBuffer c = { setReceiveTimeout c with m_incoming := (getline c.m_incoming).2 } ∨
      ∃ cb, parseSocketBuffer c =
        { setReceiveTimeout c with
            m_incoming := (getline c.m_incoming).2, calls := c.calls ++ [cb] }) := by
  rcases parseSocketBuffer_cases c with h | ⟨hoff, _⟩ | ⟨cb, h⟩
  · rw [h]
    exact ⟨hon, rfl, rfl, rfl, Or.inl rfl⟩
  · rw [hon] at hoff
    exact absurd hoff (by decide)
  · rw [h]
    exact ⟨hon, rfl, rfl, rfl, Or.inr ⟨cb, rfl⟩⟩

/-- Witness of C28: the connector of `instances` has accepted `* PONG 500`; a further
`* PONG 700` leaves the frequency at 500 ms, the limit at 1000 ms and the heartbeat
timer as it was armed. -/
theorem pong_ignored_when_heartbeats_active_witness :
    (parseSocketBuffer
      { parseSocketBuffer
          { instances.connectedConnector with m_incoming := "* PONG 500\n".toList } with
        m_incoming := "* PONG 700\n".toList }).m_heartbeatFrequency = 500 ∧
    (parseSocketBuffer
      { parseSocketBuffer
          { instances.connectedConnector with m_incoming := "* PONG 500\n".toList } with
        m_incoming := "* PONG 700\n".toList }).m_heartbeatTimer
      = some (500, Handler.heartbeat) :=
  have h := pong_ignored_when_heartbeats_active
    { parseSocketBuffer
        { instances.connectedConnector with m_incoming := "* PONG 500\n".toList } with
      m_incoming := "* PONG 700\n".toList } (by decide)
  ⟨h.2.1.trans (by decide), h.2.2.2.1.trans (by decide)⟩

/-! ### Closing -/

/-- Counterexample to C21 as stated.  After `connect()` the connect attempt has opened
the socket and the connector is not connected; `close()` in this state cancels the
timers but does not close the socket, which is only closed under `if (m_connected)`. -/
theorem close_leaves_socket_of_pending_connect_open :
    (Connector.create 10 10 60000).connect.m_connected = false ∧
    (Connector.create 10 10 60000).connect.socketOpen = true ∧
    (Connector.create 10 10 60000).connect.close.socketOpen = true ∧
    ¬ ((Connector.create 10 10 60000).connect.close.m_connected = false ∧
        (Connector.create 10 10 60000).connect.close.socketOpen = false) := by
  refine ⟨by decide, by decide, by decide, by decide⟩

/-- Claim C21, amended.  In every state `close()` cancels the heartbeat timer, the
receive watchdog and the reconnect/read timer and leaves the connector not
connected.  When the connector was connected, it closes the socket and calls
`disconnected` exactly once; when it was not connected, it leaves the socket as it
is and calls nothing.  A second `close()` changes nothing. -/
theorem close_effect (c : Connector) :
    (close c).m_heartbeatTimer = none ∧ (close c).m_receiveTimeout = none ∧
    (close c).m_timer = none ∧ (close c).m_connected = false ∧
    (c.m_connected = true →
      (close c).socketOpen = false ∧ (close c).calls = c.calls ++ [Callback.disconnected]) ∧
    (c.m_connected = false →
      (close c).socketOpen = c.socketOpen ∧ (close c).calls = c.calls) ∧
    close (close c) = close c := by
  cases hc : c.m_connected with
  | true =>
    refine ⟨?_, ?_, ?_, ?_, ?_, ?_, ?_⟩ <;> simp [close, hc]
  | false =>
    refine ⟨?_, ?_, ?_, ?_, ?_, ?_, ?_⟩ <;> simp [close, hc]

/-- Witness of the amended C21 on the connector of `instances`: closing the connected
session closes the socket and calls `disconnected` once; closing again changes
nothing. -/
theorem close_effect_witness :
    instances.connectedConnector.m_connected = true ∧
    (close instances.connectedConnector).socketOpen = false ∧
    (close instances.connectedConnector).calls
      = [Callback.connecting, Callback.connected, Callback.disconnected] ∧
    close (close instances.connectedConnector) = close instances.connectedConnector :=
  ⟨by decide,
   ((close_effect instances.connectedConnector).2.2.2.2.1 (by decide)).1,
   ((close_effect instances.connectedConnector).2.2.2.2.1 (by decide)).2.trans (by decide),
   (close_effect instances.connectedConnector).2.2.2.2.2.2⟩

end adapter

namespace source

open entity

/-! ### Logging an unknown key once -/

/-- The number of warnings in a log. -/
theorem warnings_append (lg : List LogEntry) (e : LogEntry) :
    ((lg ++ [e]).filter (fun x => decide (x.level = Level.LWARN))).length =
      (lg.filter (fun x => decide (x.level = Level.LWARN))).length +
        (if e.level = Level.LWARN then 1 else 0) := by
  by_cases h : e.level = Level.LWARN <;> simp [List.filter_append, List.filter_cons, h]

/-- An iteration of the mapping loop only adds keys to the log-once set. -/
theorem mapOne_logOnce (env : Collaborators) (tsd : Timestamped) (st st2 : LoopState)
    (h : mapOne env tsd st = some st2) :
    st.mapper.m_logOnce ⊆ st2.mapper.m_logOnce := by
  cases hst : st.token with
  | nil => simp [mapOne, hst] at h
  | cons tok toks =>
    have hA : (mapTokesnToAsset env st.mapper tsd.m_timestamp (tok :: toks)).mapper
        = st.mapper := by
      simp only [mapTokesnToAsset]
      split
      · split
        · split <;> rfl
        · rfl
      · split
        · split <;> rfl
        · split
          · split <;> rfl
          · rfl
    have hZ : ∀ di reqs, (zipProperties env st.mapper di tsd.m_timestamp reqs toks).mapper.m_logOnce
        = st.mapper.m_logOnce := by
      intro di reqs
      unfold zipProperties
      simp only
      split <;> rfl
    have hD : st.mapper.m_logOnce ⊆
        (mapTokensToDataItem env st.mapper tsd.m_timestamp (tok :: toks)).mapper.m_logOnce := by
      simp only [mapTokensToDataItem]
      split
      · split
        · exact List.Subset.refl _
        · exact List.subset_append_left _ _
      · split
        · rw [hZ]
          exact List.Subset.refl _
        · exact List.Subset.refl _
    simp only [mapOne, hst] at h
    by_cases hat : (tok.headD '\x00' == '@') = true
    · simp only [hat, if_true, hA] at h
      split at h
      · split at h <;> (simp only [Option.some.injEq] at h; rw [← h]; exact List.Subset.refl _)
      · simp only [Option.some.injEq] at h; rw [← h]; exact List.Subset.refl _
      · simp only [Option.some.injEq] at h; rw [← h]; exact List.Subset.refl _
      · simp at h
    · simp only [hat, Bool.false_eq_true, if_false] at h
      have hm : ∀ r : MapResult, r = (match (mapTokensToDataItem env st.mapper tsd.m_timestamp
            (tok :: toks)).out, tsd.m_duration with
          | Outcome.returned (some out), some d =>
            { mapTokensToDataItem env st.mapper tsd.m_timestamp (tok :: toks) with
              out := Outcome.returned
                (some (out.setProperty "duration".toList (Value.double d))) }
          | _, _ => mapTokensToDataItem env st.mapper tsd.m_timestamp (tok :: toks)) →
          st.mapper.m_logOnce ⊆ r.mapper.m_logOnce := by
        intro r hr
        rw [hr]
        split <;> exact hD
      have := hm _ rfl
      split at h
      · split at h <;> (simp only [Option.some.injEq] at h; rw [← h]; exact this)
      · simp only [Option.some.injEq] at h; rw [← h]; exact this
      · simp only [Option.some.injEq] at h; rw [← h]; exact this
      · simp at h

/-- The mapping loop only adds keys to the log-once set. -/
theorem mapLoop_logOnce (env : Collaborators) (tsd : Timestamped) :
    ∀ (fuel : Nat) (st : LoopState) (es : EntityList) (mp : ShdrTokenMapper),
      mapLoop env tsd fuel st = LoopResult.done es mp →
      st.mapper.m_logOnce ⊆ mp.m_logOnce := by
  intro fuel
  induction fuel with
  | zero =>
    intro st es mp h
    obtain ⟨tokens, entities, mapper⟩ := st
    cases tokens with
    | nil =>
      simp only [mapLoop, LoopResult.done.injEq] at h
      rw [← h.2]
      exact List.Subset.refl _
    | cons tok toks => simp [mapLoop] at h
  | succ fuel ih =>
    intro st es mp h
    obtain ⟨tokens, entities, mapper⟩ := st
    cases tokens with
    | nil =>
      simp only [mapLoop, LoopResult.done.injEq] at h
      rw [← h.2]
      exact List.Subset.refl _
    | cons tok toks =>
      simp only [mapLoop] at h
      cases hone : mapOne env tsd ⟨tok :: toks, entities, mapper⟩ with
      | none => rw [hone] at h; simp at h
      | some st2 =>
        rw [hone] at h
        exact (mapOne_logOnce env tsd _ st2 hone).trans (ih st2 es mp h)

/-- Counterexample to C22 as stated.  The frame `Zz|1`, with `Zz` and `1` not in the
dictionary and a mapper that has logged nothing, emits no observation but logs two
warnings, not one: after the failed lookup of `Zz` the token `1` is looked up as the
next key and warned about as well. -/
theorem unknown_key_frame_logs_two_warnings :
    ShdrTokenMapper.apply instances.dictionary instances.freshMapper
        ⟨["Zz".toList, "1".toList], 5, none⟩ =
      Mapped.done ⟨[], 5, none, []⟩
        ⟨["Zz".toList, "1".toList],
         [⟨.LWARN, "() Could not find data item: Zz".toList⟩,
          ⟨.LWARN, "() Could not find data item: 1".toList⟩]⟩ ∧
    (([⟨.LWARN, "() Could not find data item: Zz".toList⟩,
       ⟨.LWARN, "() Could not find data item: 1".toList⟩] : List LogEntry).filter
      (fun x => decide (x.level = Level.LWARN))).length = 2 := by
  refine ⟨by decide, by decide⟩

/-- Claim C22, amended.  A failed lookup of the key `k` by a mapper whose log-once set
does not hold `k` logs exactly one warning and adds `k` to the set; a failed lookup
of a key that the set holds logs one entry at trace level and no warning, and leaves
the set as it is.  In both cases `k` is in the set afterwards, and it stays in the
set over every frame that the mapper handles later, so the warning for `k` is logged
once. -/
theorem unknown_key_warned_once (env : Collaborators) (m : ShdrTokenMapper) (ts : Timestamp)
    (key : Str) (rest : TokenList)
    (hunknown : env.m_getDataItem (env.m_getDevice ((splitKey key).2.getD [])) (splitKey key).1
      = none) :
    ((splitKey key).1 ∉ m.m_logOnce →
      (mapTokensToDataItem env m ts (key :: rest)).mapper =
        ⟨m.m_logOnce ++ [(splitKey key).1],
         m.g_logger ++ [⟨.LWARN,
           "(".toList ++ (env.m_getDevice ((splitKey key).2.getD [])).getName ++
             ") Could not find data item: ".toList ++ (splitKey key).1⟩]⟩ ∧
      ((mapTokensToDataItem env m ts (key :: rest)).mapper.g_logger.filter
          (fun x => decide (x.level = Level.LWARN))).length =
        (m.g_logger.filter (fun x => decide (x.level = Level.LWARN))).length + 1) ∧
    ((splitKey key).1 ∈ m.m_logOnce →
      (mapTokensToDataItem env m ts (key :: rest)).mapper =
        ⟨m.m_logOnce,
         m.g_logger ++ [⟨.LTRACE,
           "(".toList ++ (env.m_getDevice ((splitKey key).2.getD [])).getName ++
             ") Could not find data item: ".toList ++ (splitKey key).1⟩]⟩ ∧
      ((mapTokensToDataItem env m ts (key :: rest)).mapper.g_logger.filter
          (fun x => decide (x.level = Level.LWARN))).length =
        (m.g_logger.filter (fun x => decide (x.level = Level.LWARN))).length) ∧
    (splitKey key).1 ∈ (mapTokensToDataItem env m ts (key :: rest)).mapper.m_logOnce ∧
    (∀ (later : ShdrTokenMapper) (tsd : Timestamped) (res : Observations)
        (after : ShdrTokenMapper),
      (splitKey key).1 ∈ later.m_logOnce →
      ShdrTokenMapper.apply env later tsd = Mapped.done res after →
      (splitKey key).1 ∈ after.m_logOnce) := by
  have hnew : (splitKey key).1 ∉ m.m_logOnce →
      (mapTokensToDataItem env m ts (key :: rest)).mapper =
        ⟨m.m_logOnce ++ [(splitKey key).1],
         m.g_logger ++ [⟨.LWARN,
           "(".toList ++ (env.m_getDevice ((splitKey key).2.getD [])).getName ++
             ") Could not find data item: ".toList ++ (splitKey key).1⟩]⟩ := by
    intro hnot
    simp only [mapTokensToDataItem, hunknown, hnot, if_false, ShdrTokenMapper.log]
  have hold : (splitKey key).1 ∈ m.m_logOnce →
      (mapTokensToDataItem env m ts (key :: rest)).mapper =
        ⟨m.m_logOnce,
         m.g_logger ++ [⟨.LTRACE,
           "(".toList ++ (env.m_getDevice ((splitKey key).2.getD [])).getName ++
             ") Could not find data item: ".toList ++ (splitKey key).1⟩]⟩ := by
    intro hin
    simp only [mapTokensToDataItem, hunknown, hin, if_true, ShdrTokenMapper.log]
  refine ⟨?_, ?_, ?_, ?_⟩
  · intro hnot
    refine ⟨hnew hnot, ?_⟩
    rw [hnew hnot]
    simp only [warnings_append, if_true]
  · intro hin
    refine ⟨hold hin, ?_⟩
    rw [hold hin]
    simp only [warnings_append]
    simp
  · by_cases hin : (splitKey key).1 ∈ m.m_logOnce
    · rw [hold hin]
      exact hin
    · rw [hnew hin]
      simp
  · intro later tsd res after hin happly
    simp only [ShdrTokenMapper.apply] at happly
    cases hl : mapLoop env tsd tsd.m_tokens.length ⟨tsd.m_tokens, [], later⟩ with
    | done es mp =>
      rw [hl] at happly
      simp only [Mapped.done.injEq] at happly
      rw [← happly.2]
      exact mapLoop_logOnce env tsd _ _ es mp hl hin
    | undefined => rw [hl] at happly; simp at happly
    | outOfFuel => rw [hl] at happly; simp at happly

/-- Witness of the amended C22 on the dictionary of `instances`: the first frame with
the unknown key `Zz` logs a warning for it; in a second frame the same mapper logs
the failure at trace level only. -/
theorem unknown_key_warned_once_witness :
    (mapTokensToDataItem instances.dictionary instances.freshMapper 5 ["Zz".toList]).mapper =
      ⟨["Zz".toList], [⟨.LWARN, "() Could not find data item: Zz".toList⟩]⟩ ∧
    (mapTokensToDataItem instances.dictionary
        ⟨["Zz".toList], [⟨.LWARN, "() Could not find data item: Zz".toList⟩]⟩ 6
        ["Zz".toList]).mapper =
      ⟨["Zz".toList],
       [⟨.LWARN, "() Could not find data item: Zz".toList⟩,
        ⟨.LTRACE, "() Could not find data item: Zz".toList⟩]⟩ :=
  ⟨((unknown_key_warned_once instances.dictionary instances.freshMapper 5 "Zz".toList []
      (by decide)).1 (by decide)).1.trans (by decide),
   ((unknown_key_warned_once instances.dictionary
      ⟨["Zz".toList], [⟨.LWARN, "() Could not find data item: Zz".toList⟩]⟩ 6 "Zz".toList []
      (by decide)).2.1 (by decide)).1.trans (by decide)⟩

/-! ### The result of the mapper -/

/-- What an iteration of the mapping loop does to the list of entities: nothing, or it
appends the asset entity that `mapTokesnToAsset` returned with an empty error list,
or the observation that `mapTokensToDataItem` returned with an empty error list,
with the duration of the frame set. -/
theorem mapOne_entities (env : Collaborators) (tsd : Timestamped) (st st2 : LoopState)
    (h : mapOne env tsd st = some st2) :
    st2.entities = st.entities ∨
    ∃ e, st2.entities = st.entities ++ [e] ∧
      ((st.token.headD [] |>.headD '\x00') = '@' ∧
        (mapTokesnToAsset env st.mapper tsd.m_timestamp st.token).out
          = Outcome.returned (some e) ∧
        (mapTokesnToAsset env st.mapper tsd.m_timestamp st.token).errors = [] ∨
       (st.token.headD [] |>.headD '\x00') ≠ '@' ∧
        ∃ e0, (mapTokensToDataItem env st.mapper tsd.m_timestamp st.token).out
          = Outcome.returned (some e0) ∧
        (mapTokensToDataItem env st.mapper tsd.m_timestamp st.token).errors = [] ∧
        e = withDuration tsd.m_duration e0) := by
  obtain ⟨tokens, entities, mapper⟩ := st
  cases tokens with
  | nil => simp [mapOne] at h
  | cons tok toks =>
    simp only [mapOne] at h
    simp only [List.headD_cons]
    by_cases hat : (tok.headD '\x00' == '@') = true
    · have hat2 : tok.headD '\x00' = '@' := by simpa using hat
      simp only [hat, if_true] at h
      cases hout : (mapTokesnToAsset env mapper tsd.m_timestamp (tok :: toks)).out with
      | returned o =>
        cases o with
        | none =>
          rw [hout] at h
          simp only [Option.some.injEq] at h
          left; rw [← h]
        | some e =>
          rw [hout] at h
          simp only at h
          by_cases herr : (mapTokesnToAsset env mapper tsd.m_timestamp (tok :: toks)).errors.isEmpty
              = true
          · rw [if_pos herr] at h
            simp only [Option.some.injEq] at h
            right
            exact ⟨e, by rw [← h], Or.inl ⟨hat2, rfl, List.isEmpty_iff.mp herr⟩⟩
          · rw [if_neg herr] at h
            simp only [Option.some.injEq] at h
            left; rw [← h]
      | thrown e =>
        rw [hout] at h
        simp only [Option.some.injEq] at h
        left; rw [← h]
      | undefined =>
        rw [hout] at h
        simp at h
    · have hat2 : tok.headD '\x00' ≠ '@' := by simpa using hat
      simp only [hat, Bool.false_eq_true, if_false] at h
      cases hout : (mapTokensToDataItem env mapper tsd.m_timestamp (tok :: toks)).out with
      | returned o =>
        cases o with
        | none =>
          simp only [hout, Option.some.injEq] at h
          left; rw [← h]
        | some e0 =>
          cases hd : tsd.m_duration with
          | none =>
            simp only [hout, hd] at h
            by_cases herr : (mapTokensToDataItem env mapper tsd.m_timestamp (tok :: toks)).errors.isEmpty
                = true
            · rw [if_pos herr] at h
              simp only [Option.some.injEq] at h
              right
              exact ⟨e0, by rw [← h], Or.inr ⟨hat2, e0, rfl, List.isEmpty_iff.mp herr, rfl⟩⟩
            · rw [if_neg herr] at h
              simp only [Option.some.injEq] at h
              left; rw [← h]
          | some d =>
            simp only [hout, hd] at h
            by_cases herr : (mapTokensToDataItem env mapper tsd.m_timestamp (tok :: toks)).errors.isEmpty
                = true
            · rw [if_pos herr] at h
              simp only [Option.some.injEq] at h
              right
              exact ⟨withDuration (some d) e0, by rw [← h]; rfl,
                Or.inr ⟨hat2, e0, rfl, List.isEmpty_iff.mp herr, rfl⟩⟩
            · rw [if_neg herr] at h
              simp only [Option.some.injEq] at h
              left; rw [← h]
      | thrown e =>
        simp only [hout, Option.some.injEq] at h
        left; rw [← h]
      | undefined =>
        simp [hout] at h

/-- The entities with which the mapping loop ends: those it started with, followed by
entities each of which was returned, with an empty error list, by the mapping call
at some position of the tokens. -/
theorem mapLoop_entities (env : Collaborators) (tsd : Timestamped) :
    ∀ (fuel : Nat) (st : LoopState) (es : EntityList) (mp : ShdrTokenMapper),
      mapLoop env tsd fuel st = LoopResult.done es mp →
      st.entities <+: es ∧
      ∀ e ∈ es, e ∈ st.entities ∨
        ∃ (m0 : ShdrTokenMapper) (toks : TokenList), toks ≠ [] ∧ toks <:+ st.token ∧
          ((toks.headD [] |>.headD '\x00') = '@' ∧
            (mapTokesnToAsset env m0 tsd.m_timestamp toks).out = Outcome.returned (some e) ∧
            (mapTokesnToAsset env m0 tsd.m_timestamp toks).errors = [] ∨
           (toks.headD [] |>.headD '\x00') ≠ '@' ∧
            ∃ e0, (mapTokensToDataItem env m0 tsd.m_timestamp toks).out
              = Outcome.returned (some e0) ∧
            (mapTokensToDataItem env m0 tsd.m_timestamp toks).errors = [] ∧
            e = withDuration tsd.m_duration e0) := by
  intro fuel
  induction fuel with
  | zero =>
    intro st es mp h
    obtain ⟨tokens, entities, mapper⟩ := st
    cases tokens with
    | nil =>
      simp only [mapLoop, LoopResult.done.injEq] at h
      rw [← h.1]
      exact ⟨List.prefix_refl _, fun e he => Or.inl he⟩
    | cons tok toks => simp [mapLoop] at h
  | succ fuel ih =>
    intro st es mp h
    obtain ⟨tokens, entities, mapper⟩ := st
    cases tokens with
    | nil =>
      simp only [mapLoop, LoopResult.done.injEq] at h
      rw [← h.1]
      exact ⟨List.prefix_refl _, fun e he => Or.inl he⟩
    | cons tok rest =>
      simp only [mapLoop] at h
      cases hone : mapOne env tsd ⟨tok :: rest, entities, mapper⟩ with
      | none => rw [hone] at h; simp at h
      | some st2 =>
        rw [hone] at h
        obtain ⟨hpre, hall⟩ := ih st2 es mp h
        obtain ⟨tok2, rest2, heq, hsuf⟩ := mapOne_token_suffix env tsd _ st2 hone
        simp only [List.cons.injEq] at heq
        have hsuf2 : st2.token <:+ tok :: rest := by
          rw [← heq.2] at hsuf
          exact hsuf.trans (List.suffix_cons _ _)
        have hent := mapOne_entities env tsd _ st2 hone
        simp only at hent
        constructor
        · rcases hent with h1 | ⟨e1, h1, _⟩
          · rw [h1] at hpre; exact hpre
          · rw [h1] at hpre
            exact (List.prefix_append _ _).trans hpre
        · intro e he
          rcases hall e he with h2 | ⟨m0, toks, hne, hs, hp⟩
          · rcases hent with h1 | ⟨e1, h1, hp1⟩
            · rw [h1] at h2; exact Or.inl h2
            · rw [h1] at h2
              rcases List.mem_append.mp h2 with h3 | h3
              · exact Or.inl h3
              · simp only [List.mem_singleton] at h3
                subst h3
                exact Or.inr ⟨mapper, tok :: rest, by simp, List.suffix_refl _, hp1⟩
          · exact Or.inr ⟨m0, toks, hne, hs.trans hsuf2, hp⟩

/-- An iteration of the mapping loop does not read the entities collected so far: with more entities in front, it gives the same state with them in front. -/
theorem mapOne_acc (env : Collaborators) (tsd : Timestamped) (toks : TokenList)
    (acc0 acc : EntityList) (m : ShdrTokenMapper) (st2 : LoopState)
    (h : mapOne env tsd ⟨toks, acc0, m⟩ = some st2) :
    mapOne env tsd ⟨toks, acc ++ acc0, m⟩
      = some ⟨st2.token, acc ++ st2.entities, st2.mapper⟩ := by
  cases toks with
  | nil => simp [mapOne] at h
  | cons tok toks =>
    simp only [mapOne] at h ⊢
    by_cases hat : (tok.headD '\x00' == '@') = true
    · simp only [hat, if_true] at h ⊢
      cases hout : (mapTokesnToAsset env m tsd.m_timestamp (tok :: toks)).out with
      | returned o =>
        cases o with
        | none =>
          rw [hout] at h
          simp only [Option.some.injEq] at h ⊢
          subst h; simp
        | some e =>
          rw [hout] at h
          simp only at h ⊢
          by_cases herr : (mapTokesnToAsset env m tsd.m_timestamp (tok :: toks)).errors.isEmpty
              = true
          · rw [if_pos herr] at h ⊢
            simp only [Option.some.injEq] at h ⊢
            subst h; simp
          · rw [if_neg herr] at h ⊢
            simp only [Option.some.injEq] at h ⊢
            subst h; simp
      | thrown e =>
        rw [hout] at h
        simp only [Option.some.injEq] at h ⊢
        subst h; simp
      | undefined =>
        rw [hout] at h
        simp at h
    · simp only [hat, Bool.false_eq_true, if_false] at h ⊢
      cases hout : (mapTokensToDataItem env m tsd.m_timestamp (tok :: toks)).out with
      | returned o =>
        cases o with
        | none =>
          simp only [hout, Option.some.injEq] at h ⊢
          subst h; simp
        | some e0 =>
          cases hd : tsd.m_duration with
          | none =>
            simp only [hout, hd] at h ⊢
            by_cases herr : (mapTokensToDataItem env m tsd.m_timestamp (tok :: toks)).errors.isEmpty
                = true
            · rw [if_pos herr] at h ⊢
              simp only [Option.some.injEq] at h ⊢
              subst h; simp
            · rw [if_neg herr] at h ⊢
              simp only [Option.some.injEq] at h ⊢
              subst h; simp
          | some d =>
            simp only [hout, hd] at h ⊢
            by_cases herr : (mapTokensToDataItem env m tsd.m_timestamp (tok :: toks)).errors.isEmpty
                = true
            · rw [if_pos herr] at h ⊢
              simp only [Option.some.injEq] at h ⊢
              subst h; simp
            · rw [if_neg herr] at h ⊢
              simp only [Option.some.injEq] at h ⊢
              subst h; simp
      | thrown e =>
        simp only [hout, Option.some.injEq] at h ⊢
        subst h; simp
      | undefined =>
        simp only [hout] at h
        simp at h

/-- The mapping loop does not read the entities collected so far. -/
theorem mapLoop_acc (env : Collaborators) (tsd : Timestamped) :
    ∀ (fuel : Nat) (st : LoopState) (es : EntityList) (mp : ShdrTokenMapper),
      mapLoop env tsd fuel st = LoopResult.done es mp →
      ∀ (acc : EntityList),
        mapLoop env tsd fuel ⟨st.token, acc ++ st.entities, st.mapper⟩
          = LoopResult.done (acc ++ es) mp := by
  intro fuel
  induction fuel with
  | zero =>
    intro st es mp h acc
    obtain ⟨tokens, entities, mapper⟩ := st
    cases tokens with
    | nil =>
      simp only [mapLoop, LoopResult.done.injEq] at h ⊢
      exact ⟨by rw [h.1], h.2⟩
    | cons tok toks => simp [mapLoop] at h
  | succ fuel ih =>
    intro st es mp h acc
    obtain ⟨tokens, entities, mapper⟩ := st
    cases tokens with
    | nil =>
      simp only [mapLoop, LoopResult.done.injEq] at h ⊢
      exact ⟨by rw [h.1], h.2⟩
    | cons tok toks =>
      simp only [mapLoop] at h ⊢
      cases hone : mapOne env tsd ⟨tok :: toks, entities, mapper⟩ with
      | none => rw [hone] at h; simp at h
      | some st2 =>
        rw [hone] at h
        rw [mapOne_acc env tsd (tok :: toks) entities acc mapper st2 hone]
        exact ih st2 es mp h acc

/-- A mapping loop that ends gives the same result with any bound that is at least the number of tokens. -/
theorem mapLoop_more_fuel (env : Collaborators) (tsd : Timestamped) :
    ∀ (fuel : Nat) (st : LoopState) (es : EntityList) (mp : ShdrTokenMapper),
      mapLoop env tsd fuel st = LoopResult.done es mp →
      ∀ (fuel2 : Nat), st.token.length ≤ fuel2 →
        mapLoop env tsd fuel2 st = LoopResult.done es mp := by
  intro fuel
  induction fuel with
  | zero =>
    intro st es mp h fuel2 _
    obtain ⟨tokens, entities, mapper⟩ := st
    cases tokens with
    | nil =>
      simp only [mapLoop] at h
      cases fuel2 <;> simpa [mapLoop] using h
    | cons tok toks => simp [mapLoop] at h
  | succ fuel ih =>
    intro st es mp h fuel2 hl
    obtain ⟨tokens, entities, mapper⟩ := st
    cases tokens with
    | nil =>
      simp only [mapLoop] at h
      cases fuel2 <;> simpa [mapLoop] using h
    | cons tok toks =>
      cases fuel2 with
      | zero => simp at hl
      | succ fuel2 =>
        simp only [mapLoop] at h ⊢
        cases hone : mapOne env tsd ⟨tok :: toks, entities, mapper⟩ with
        | none => rw [hone] at h; simp at h
        | some st2 =>
          rw [hone] at h
          obtain ⟨tok2, toks2, heq, hsuf⟩ := mapOne_token_suffix env tsd _ st2 hone
          simp only [List.cons.injEq] at heq
          have hlen := hsuf.length_le
          rw [← heq.2] at hlen
          simp only [List.length_cons] at hl
          exact ih st2 es mp h fuel2 (by omega)

/-- The mapping loop reads the time stamp and the duration of the frame only. -/
theorem mapLoop_frame (env : Collaborators) (a b : TokenList) (ts : Timestamp)
    (dur : Option Decimal) :
    ∀ (fuel : Nat) (st : LoopState),
      mapLoop env ⟨a, ts, dur⟩ fuel st = mapLoop env ⟨b, ts, dur⟩ fuel st := by
  intro fuel
  induction fuel with
  | zero =>
    intro st
    obtain ⟨tokens, entities, mapper⟩ := st
    cases tokens <;> simp only [mapLoop]
  | succ fuel ih =>
    intro st
    obtain ⟨tokens, entities, mapper⟩ := st
    cases tokens with
    | nil => simp only [mapLoop]
    | cons tok toks =>
      simp only [mapLoop]
      have hone : mapOne env ⟨a, ts, dur⟩ ⟨tok :: toks, entities, mapper⟩
          = mapOne env ⟨b, ts, dur⟩ ⟨tok :: toks, entities, mapper⟩ := rfl
      rw [hone]
      cases mapOne env ⟨b, ts, dur⟩ ⟨tok :: toks, entities, mapper⟩ with
      | none => rfl
      | some st2 => exact ih st2

/-- The result of `operator()` on a frame: the entities of the first iteration, then those of `operator()` on the tokens that the first iteration leaves. -/
theorem apply_cons (env : Collaborators) (m : ShdrTokenMapper) (tok : Str) (toks : TokenList)
    (ts : Timestamp) (dur : Option Decimal) (st2 : LoopState) (res2 : Observations)
    (after : ShdrTokenMapper)
    (hone : mapOne env ⟨tok :: toks, ts, dur⟩ ⟨tok :: toks, [], m⟩ = some st2)
    (hrest : ShdrTokenMapper.apply env st2.mapper ⟨st2.token, ts, dur⟩
      = Mapped.done res2 after) :
    ShdrTokenMapper.apply env m ⟨tok :: toks, ts, dur⟩
      = Mapped.done ⟨[], ts, dur, st2.entities ++ res2.value⟩ after := by
  obtain ⟨tok2, toks2, heq, hsuf⟩ := mapOne_token_suffix env _ _ st2 hone
  simp only [List.cons.injEq] at heq
  have hlen := hsuf.length_le
  rw [← heq.2] at hlen
  simp only [ShdrTokenMapper.apply] at hrest
  cases hl : mapLoop env ⟨st2.token, ts, dur⟩ st2.token.length ⟨st2.token, [], st2.mapper⟩ with
  | undefined => rw [hl] at hrest; simp at hrest
  | outOfFuel => rw [hl] at hrest; simp at hrest
  | done es mp =>
    rw [hl] at hrest
    simp only [Mapped.done.injEq] at hrest
    obtain ⟨hres, hmp⟩ := hrest
    rw [mapLoop_frame env st2.token (tok :: toks) ts dur] at hl
    have h2 := mapLoop_more_fuel env _ _ _ es mp hl toks.length hlen
    have h3 := mapLoop_acc env _ _ _ es mp h2 st2.entities
    simp only [List.append_nil] at h3
    simp only [ShdrTokenMapper.apply, List.length_cons, mapLoop, hone, h3]
    rw [← hres, hmp]

/-- What an iteration of the mapping loop does to the list of entities, by the result of its mapping call. -/
theorem mapOne_step (env : Collaborators) (tsd : Timestamped) (st st2 : LoopState)
    (h : mapOne env tsd st = some st2) :
    ((st.token.headD [] |>.headD '\x00') = '@' →
      st2.token = (mapTokesnToAsset env st.mapper tsd.m_timestamp st.token).token ∧
      (∀ e, (mapTokesnToAsset env st.mapper tsd.m_timestamp st.token).out
            = Outcome.returned (some e) →
          (mapTokesnToAsset env st.mapper tsd.m_timestamp st.token).errors = [] →
          st2.entities = st.entities ++ [e]) ∧
      (((∀ e, (mapTokesnToAsset env st.mapper tsd.m_timestamp st.token).out
            ≠ Outcome.returned (some e)) ∨
          (mapTokesnToAsset env st.mapper tsd.m_timestamp st.token).errors ≠ []) →
        st2.entities = st.entities)) ∧
    ((st.token.headD [] |>.headD '\x00') ≠ '@' →
      st2.token = (mapTokensToDataItem env st.mapper tsd.m_timestamp st.token).token ∧
      (∀ e, (mapTokensToDataItem env st.mapper tsd.m_timestamp st.token).out
            = Outcome.returned (some e) →
          (mapTokensToDataItem env st.mapper tsd.m_timestamp st.token).errors = [] →
          st2.entities = st.entities ++ [withDuration tsd.m_duration e]) ∧
      (((∀ e, (mapTokensToDataItem env st.mapper tsd.m_timestamp st.token).out
            ≠ Outcome.returned (some e)) ∨
          (mapTokensToDataItem env st.mapper tsd.m_timestamp st.token).errors ≠ []) →
        st2.entities = st.entities)) := by
  obtain ⟨tokens, entities, mapper⟩ := st
  cases tokens with
  | nil => simp [mapOne] at h
  | cons tok toks =>
    simp only [mapOne] at h
    simp only [List.headD_cons]
    by_cases hat : (tok.headD '\x00' == '@') = true
    · have hat2 : tok.headD '\x00' = '@' := by simpa using hat
      refine ⟨fun _ => ?_, fun hn => absurd hat2 hn⟩
      simp only [hat, if_true] at h
      cases hout : (mapTokesnToAsset env mapper tsd.m_timestamp (tok :: toks)).out with
      | returned o =>
        cases o with
        | none =>
          rw [hout] at h
          simp only [Option.some.injEq] at h
          subst h
          refine ⟨rfl, ?_, fun _ => rfl⟩
          intro e1 he _
          cases he
        | some e1 =>
          rw [hout] at h
          simp only at h
          by_cases herr : (mapTokesnToAsset env mapper tsd.m_timestamp (tok :: toks)).errors.isEmpty
              = true
          · rw [if_pos herr] at h
            simp only [Option.some.injEq] at h
            subst h
            refine ⟨rfl, fun e he _ => ?_, fun hno => ?_⟩
            · cases he; rfl
            · rcases hno with hno | hno
              · exact absurd rfl (hno e1)
              · exact absurd (List.isEmpty_iff.mp herr) hno
          · rw [if_neg herr] at h
            simp only [Option.some.injEq] at h
            subst h
            refine ⟨rfl, fun e _ he => ?_, fun _ => rfl⟩
            exact absurd (List.isEmpty_iff.mpr he) herr
      | thrown e =>
        rw [hout] at h
        simp only [Option.some.injEq] at h
        subst h
        refine ⟨rfl, ?_, fun _ => rfl⟩
        intro e1 he _
        cases he
      | undefined =>
        rw [hout] at h
        simp at h
    · have hat2 : tok.headD '\x00' ≠ '@' := by simpa using hat
      refine ⟨fun hy => absurd hy hat2, fun _ => ?_⟩
      simp only [hat, Bool.false_eq_true, if_false] at h
      cases hout : (mapTokensToDataItem env mapper tsd.m_timestamp (tok :: toks)).out with
      | returned o =>
        cases o with
        | none =>
          simp only [hout, Option.some.injEq] at h
          subst h
          refine ⟨rfl, ?_, fun _ => rfl⟩
          intro e1 he _
          cases he
        | some e0 =>
          cases hd : tsd.m_duration with
          | none =>
            simp only [hout, hd] at h
            by_cases herr : (mapTokensToDataItem env mapper tsd.m_timestamp (tok :: toks)).errors.isEmpty
                = true
            · rw [if_pos herr] at h
              simp only [Option.some.injEq] at h
              subst h
              refine ⟨rfl, fun e he _ => ?_, fun hno => ?_⟩
              · cases he; rfl
              · rcases hno with hno | hno
                · exact absurd rfl (hno e0)
                · exact absurd (List.isEmpty_iff.mp herr) hno
            · rw [if_neg herr] at h
              simp only [Option.some.injEq] at h
              subst h
              refine ⟨rfl, fun e _ he => ?_, fun _ => rfl⟩
              exact absurd (List.isEmpty_iff.mpr he) herr
          | some d =>
            simp only [hout, hd] at h
            by_cases herr : (mapTokensToDataItem env mapper tsd.m_timestamp (tok :: toks)).errors.isEmpty
                = true
            · rw [if_pos herr] at h
              simp only [Option.some.injEq] at h
              subst h
              refine ⟨rfl, fun e he _ => ?_, fun hno => ?_⟩
              · cases he; rfl
              · rcases hno with hno | hno
                · exact absurd rfl (hno e0)
                · exact absurd (List.isEmpty_iff.mp herr) hno
            · rw [if_neg herr] at h
              simp only [Option.some.injEq] at h
              subst h
              refine ⟨rfl, fun e _ he => ?_, fun _ => rfl⟩
              exact absurd (List.isEmpty_iff.mpr he) herr
      | thrown e =>
        simp only [hout, Option.some.injEq] at h
        subst h
        refine ⟨rfl, ?_, fun _ => rfl⟩
        intro e1 he _
        cases he
      | undefined =>
        simp only [hout] at h
        simp at h

/-- Claim C29.  The result of `operator()` on a time-stamped token batch, for every
dictionary, time stamp and duration.  On no tokens it is the empty list of entities.
On the tokens `tok :: toks` it is the list of the entities of the first iteration
followed by the result of `operator()` on the tokens that this iteration leaves, so
the entities stand in the order of their tokens; it has an empty token list and the
time stamp and duration of the batch.  An iteration appends exactly the entity that
its mapping call (`mapTokesnToAsset` for a token starting with `@`, otherwise
`mapTokensToDataItem`) returned with an empty error list, an observation with the
duration of the frame set as property `duration` when the frame has one; it appends
nothing when the call returned no entity or reported an error in its error list.
Every entity of the result was so returned at some position of the frame. -/
theorem mapper_result (env : Collaborators) (ts : Timestamp) (dur : Option Decimal) :
    (∀ m : ShdrTokenMapper,
      ShdrTokenMapper.apply env m ⟨[], ts, dur⟩ = Mapped.done ⟨[], ts, dur, []⟩ m) ∧
    (∀ (m : ShdrTokenMapper) (tok : Str) (toks : TokenList) (st2 : LoopState)
        (res2 : Observations) (after : ShdrTokenMapper),
      mapOne env ⟨tok :: toks, ts, dur⟩ ⟨tok :: toks, [], m⟩ = some st2 →
      ShdrTokenMapper.apply env st2.mapper ⟨st2.token, ts, dur⟩ = Mapped.done res2 after →
      ShdrTokenMapper.apply env m ⟨tok :: toks, ts, dur⟩
        = Mapped.done ⟨[], ts, dur, st2.entities ++ res2.value⟩ after) ∧
    (∀ (m : ShdrTokenMapper) (tok : Str) (toks : TokenList),
      mapOne env ⟨tok :: toks, ts, dur⟩ ⟨tok :: toks, [], m⟩ = none →
      ShdrTokenMapper.apply env m ⟨tok :: toks, ts, dur⟩ = Mapped.undefined) ∧
    (∀ (tsd : Timestamped) (st st2 : LoopState), mapOne env tsd st = some st2 →
      ((st.token.headD [] |>.headD '\x00') = '@' →
        st2.token = (mapTokesnToAsset env st.mapper tsd.m_timestamp st.token).token ∧
        (∀ e, (mapTokesnToAsset env st.mapper tsd.m_timestamp st.token).out
              = Outcome.returned (some e) →
            (mapTokesnToAsset env st.mapper tsd.m_timestamp st.token).errors = [] →
            st2.entities = st.entities ++ [e]) ∧
        (((∀ e, (mapTokesnToAsset env st.mapper tsd.m_timestamp st.token).out
              ≠ Outcome.returned (some e)) ∨
            (mapTokesnToAsset env st.mapper tsd.m_timestamp st.token).errors ≠ []) →
          st2.entities = st.entities)) ∧
      ((st.token.headD [] |>.headD '\x00') ≠ '@' →
        st2.token = (mapTokensToDataItem env st.mapper tsd.m_timestamp st.token).token ∧
        (∀ e, (mapTokensToDataItem env st.mapper tsd.m_timestamp st.token).out
              = Outcome.returned (some e) →
            (mapTokensToDataItem env st.mapper tsd.m_timestamp st.token).errors = [] →
            st2.entities = st.entities ++ [withDuration tsd.m_duration e]) ∧
        (((∀ e, (mapTokensToDataItem env st.mapper tsd.m_timestamp st.token).out
              ≠ Outcome.returned (some e)) ∨
            (mapTokensToDataItem env st.mapper tsd.m_timestamp st.token).errors ≠ []) →
          st2.entities = st.entities))) ∧
    (∀ (m : ShdrTokenMapper) (tsd : Timestamped) (res : Observations)
        (after : ShdrTokenMapper),
      ShdrTokenMapper.apply env m tsd = Mapped.done res after →
      res.m_tokens = [] ∧ res.m_timestamp = tsd.m_timestamp ∧
      res.m_duration = tsd.m_duration ∧
      ∀ e ∈ res.value,
        ∃ (m0 : ShdrTokenMapper) (toks : TokenList), toks ≠ [] ∧ toks <:+ tsd.m_tokens ∧
          ((toks.headD [] |>.headD '\x00') = '@' ∧
            (mapTokesnToAsset env m0 tsd.m_timestamp toks).out = Outcome.returned (some e) ∧
            (mapTokesnToAsset env m0 tsd.m_timestamp toks).errors = [] ∨
           (toks.headD [] |>.headD '\x00') ≠ '@' ∧
            ∃ e0, (mapTokensToDataItem env m0 tsd.m_timestamp toks).out
              = Outcome.returned (some e0) ∧
            (mapTokensToDataItem env m0 tsd.m_timestamp toks).errors = [] ∧
            e = withDuration tsd.m_duration e0)) ∧
    (∀ (d : Decimal) (e : Entity),
      (withDuration (some d) e).getProperty "duration".toList = Value.double d ∧
      withDuration none e = e) := by
  refine ⟨fun m => rfl, ?_, ?_, ?_, ?_, ?_⟩
  · intro m tok toks st2 res2 after hone hrest
    exact apply_cons env m tok toks ts dur st2 res2 after hone hrest
  · intro m tok toks hone
    simp only [ShdrTokenMapper.apply, List.length_cons, mapLoop, hone]
  · intro tsd st st2 hone
    exact mapOne_step env tsd st st2 hone
  · intro m tsd res after h
    simp only [ShdrTokenMapper.apply] at h
    cases hl : mapLoop env tsd tsd.m_tokens.length ⟨tsd.m_tokens, [], m⟩ with
    | undefined => rw [hl] at h; simp at h
    | outOfFuel => rw [hl] at h; simp at h
    | done es mp =>
      rw [hl] at h
      simp only [Mapped.done.injEq] at h
      obtain ⟨hres, _⟩ := h
      subst hres
      refine ⟨rfl, rfl, rfl, ?_⟩
      intro e he
      rcases (mapLoop_entities env tsd _ _ es mp hl).2 e he with h1 | h1
      · simp at h1
      · exact h1
  · intro d e
    refine ⟨?_, rfl⟩
    simp [withDuration, Entity.setProperty, Entity.getProperty,
      Properties.find_insert_or_assign]

/-- Witness of C29 on the dictionary of `instances`: the frame
`Xa|3.14|@FOO@|@REMOVE_ASSET@|id1` with the duration 1.5.  The first iteration gives
the observation of `Xa` with the duration; the rest of the frame gives the command
`RemoveAsset`, the unknown command adding nothing; the result holds both, in this
order. -/
theorem mapper_result_witness :
    ShdrTokenMapper.apply instances.dictionary instances.freshMapper
        ⟨["Xa".toList, "3.14".toList, "@FOO@".toList, "@REMOVE_ASSET@".toList, "id1".toList],
          5, some ⟨15, -1⟩⟩ =
      Mapped.done
        ⟨[], 5, some ⟨15, -1⟩,
          [⟨"Xa".toList,
            [("VALUE".toList, Value.string "3.14".toList),
             ("duration".toList, Value.double ⟨15, -1⟩)], some 5⟩,
           ⟨"RemoveAsset".toList, [("assetId".toList, Value.string "id1".toList)], some 5⟩]⟩
        ⟨[], [⟨.LERROR, "Could not create observation: Unkown asset command @FOO@".toList⟩]⟩ :=
  (mapper_result instances.dictionary 5 (some ⟨15, -1⟩)).2.1 instances.freshMapper
    "Xa".toList ["3.14".toList, "@FOO@".toList, "@REMOVE_ASSET@".toList, "id1".toList]
    ⟨["@FOO@".toList, "@REMOVE_ASSET@".toList, "id1".toList],
      [⟨"Xa".toList,
        [("VALUE".toList, Value.string "3.14".toList),
         ("duration".toList, Value.double ⟨15, -1⟩)], some 5⟩],
      instances.freshMapper⟩
    ⟨[], 5, some ⟨15, -1⟩,
      [⟨"RemoveAsset".toList, [("assetId".toList, Value.string "id1".toList)], some 5⟩]⟩
    ⟨[], [⟨.LERROR, "Could not create observation: Unkown asset command @FOO@".toList⟩]⟩
    (by decide) (by decide)

end source

/-! ### The tokenizer -/

namespace adapter

namespace ShdrTokenizer

/-- The text that `splitUnescaped` leaves follows a `|` of the text. -/
theorem splitUnescaped_split : ∀ (t r : Str), (splitUnescaped t).2 = some r →
    ∃ a, t = a ++ '|' :: r := by
  intro t
  induction t using splitUnescaped.induct with
  | case1 => intro r h; simp [splitUnescaped] at h
  | case2 r0 =>
    intro r h
    simp only [splitUnescaped, Option.some.injEq] at h
    exact ⟨[], by rw [h]; rfl⟩
  | case3 r0 ih =>
    intro r h
    simp only [splitUnescaped] at h
    obtain ⟨a, ha⟩ := ih r h
    exact ⟨'\\' :: '|' :: a, by rw [ha]; rfl⟩
  | case4 c r0 h1 h2 ih =>
    intro r h
    rw [splitUnescaped.eq_4 c r0 h1 h2] at h
    obtain ⟨a, ha⟩ := ih r h
    exact ⟨c :: a, by rw [ha]; rfl⟩

/-- The text that `splitPipe` leaves follows a `|` of the text. -/
theorem splitPipe_split : ∀ (t r : Str), (splitPipe t).2 = some r →
    ∃ a, t = a ++ '|' :: r := by
  intro t
  induction t using splitPipe.induct with
  | case1 => intro r h; simp [splitPipe] at h
  | case2 r0 =>
    intro r h
    simp only [splitPipe, Option.some.injEq] at h
    exact ⟨[], by rw [h]; rfl⟩
  | case3 c r0 h1 ih =>
    intro r h
    rw [splitPipe.eq_3 c r0 h1] at h
    obtain ⟨a, ha⟩ := ih r h
    exact ⟨c :: a, by rw [ha]; rfl⟩

/-- Any bound above the length of the text gives the same tokens. -/
theorem tokensFrom_fuel : ∀ (f1 f2 : Nat) (t : Str), t.length < f1 → t.length < f2 →
    tokensFrom f1 t = tokensFrom f2 t := by
  intro f1
  induction f1 with
  | zero => intro f2 t h; omega
  | succ n ih =>
    intro f2 t h1 h2
    cases f2 with
    | zero => omega
    | succ m =>
      simp only [tokensFrom]
      cases hq : quotedBody (splitUnescaped t).1 with
      | some body =>
        cases hr : (splitUnescaped t).2 with
        | none => rfl
        | some rest =>
          obtain ⟨a, ha⟩ := splitUnescaped_split t rest hr
          have hl : rest.length < t.length := by rw [ha]; simp; omega
          simp only
          rw [ih m rest (by omega) (by omega)]
      | none =>
        cases hr : (splitPipe t).2 with
        | none => rfl
        | some rest =>
          obtain ⟨a, ha⟩ := splitPipe_split t rest hr
          have hl : rest.length < t.length := by rw [ha]; simp; omega
          simp only
          rw [ih m rest (by omega) (by omega)]

/-- A frame that is one well-formed quoted token. -/
theorem tokenize_quoted_last (t body : Str) (hq : quotedBody (splitUnescaped t).1 = some body)
    (hr : (splitUnescaped t).2 = none) : tokenize t = [unescape body] := by
  simp only [tokenize, tokensFrom, hq, hr]

/-- A frame that starts with a well-formed quoted token and goes on after its `|`. -/
theorem tokenize_quoted_more (t body rest : Str)
    (hq : quotedBody (splitUnescaped t).1 = some body)
    (hr : (splitUnescaped t).2 = some rest) :
    tokenize t = unescape body :: tokenize rest := by
  obtain ⟨a, ha⟩ := splitUnescaped_split t rest hr
  have hl : rest.length < t.length := by rw [ha]; simp; omega
  unfold tokenize
  rw [tokensFrom_fuel (rest.length + 1) t.length rest (by omega) hl]
  simp only [tokensFrom, hq, hr]

/-- A frame that is one token without a `|`. -/
theorem tokenize_plain_last (t : Str) (hq : quotedBody (splitUnescaped t).1 = none)
    (hr : (splitPipe t).2 = none) : tokenize t = [trim (splitPipe t).1] := by
  simp only [tokenize, tokensFrom, hq, hr]

/-- A frame that starts with a token that is not a well-formed quoted one. -/
theorem tokenize_plain_more (t rest : Str) (hq : quotedBody (splitUnescaped t).1 = none)
    (hr : (splitPipe t).2 = some rest) :
    tokenize t = trim (splitPipe t).1 :: tokenize rest := by
  obtain ⟨a, ha⟩ := splitPipe_split t rest hr
  have hl : rest.length < t.length := by rw [ha]; simp; omega
  unfold tokenize
  rw [tokensFrom_fuel (rest.length + 1) t.length rest (by omega) hl]
  simp only [tokensFrom, hq, hr]

/-- A double quote is an ordinary character of a run. -/
theorem splitUnescaped_quote (tail : Str) :
    splitUnescaped ('"' :: tail) = ('"' :: (splitUnescaped tail).1, (splitUnescaped tail).2) :=
  splitUnescaped.eq_4 '"' tail (by decide) (by intro r h; exact absurd h (by decide))

/-- A body whose pipes are all escaped belongs to one run, up to the quote after it. -/
theorem splitUnescaped_escapedOnly : ∀ (body : Str), escapedOnly body = true → ∀ (tail : Str),
    splitUnescaped (body ++ '"' :: tail)
      = (body ++ '"' :: (splitUnescaped tail).1, (splitUnescaped tail).2) := by
  intro body
  induction body using escapedOnly.induct with
  | case1 => intro _ tail; exact splitUnescaped_quote tail
  | case2 r => intro h; simp [escapedOnly] at h
  | case3 r ih =>
    intro h tail
    simp only [escapedOnly] at h
    simp only [List.cons_append, splitUnescaped, List.append_eq, ih h tail]
  | case4 c r h1 h2 ih =>
    intro h tail
    rw [escapedOnly.eq_4 c r h1 h2] at h
    have h3 : ∀ r1, c = '\\' → r ++ '"' :: tail = '|' :: r1 → False := by
      intro r1 hc hr
      cases r with
      | nil => simp at hr
      | cons d r2 =>
        simp only [List.cons_append, List.cons.injEq] at hr
        exact h2 r2 hc (by rw [hr.1])
    rw [List.cons_append, splitUnescaped.eq_4 c _ h1 h3, ih h tail]
    rfl

/-- The body of a run between two double quotes. -/
theorem quotedBody_quoted (body : Str) : quotedBody ('"' :: (body ++ ['"'])) = some body := by
  simp [quotedBody]

/-- The text after a `|` ends as the whole text does, when it is not empty. -/
theorem getLast_of_split (t a r : Str) (c : Char) (h : t = a ++ '|' :: r)
    (hl : t.getLast? ≠ some c) : r.getLast? ≠ some c := by
  cases r with
  | nil => simp
  | cons d r2 =>
    rw [h, List.getLast?_append, List.getLast?_cons_cons] at hl
    simpa using hl

/-- The run of a text that a `|` without a backslash before it follows. -/
theorem splitUnescaped_append : ∀ (t : Str), t.getLast? ≠ some '\\' → ∀ (rest : Str),
    splitUnescaped (t ++ '|' :: rest)
      = ((splitUnescaped t).1,
         some (((splitUnescaped t).2.map (fun r => r ++ '|' :: rest)).getD rest)) := by
  intro t
  induction t using splitUnescaped.induct with
  | case1 => intro _ rest; rfl
  | case2 r => intro _ rest; rfl
  | case3 r ih =>
    intro h rest
    have hr : r.getLast? ≠ some '\\' := getLast_of_split _ ['\\'] r _ rfl h
    simp only [List.cons_append, splitUnescaped, List.append_eq, ih hr rest]
  | case4 c r h1 h2 ih =>
    intro h rest
    cases r with
    | nil =>
      have hc : c ≠ '\\' := by simpa using h
      rw [splitUnescaped.eq_4 c [] h1 h2]
      show splitUnescaped (c :: '|' :: rest) = _
      rw [splitUnescaped.eq_4 c _ h1 (fun _ hc2 _ => hc hc2)]
      rfl
    | cons d r2 =>
      have hr : (d :: r2).getLast? ≠ some '\\' := by
        rw [List.getLast?_cons_cons] at h; exact h
      have h3 : ∀ r1, c = '\\' → (d :: r2) ++ '|' :: rest = '|' :: r1 → False := by
        intro r1 hc hr1
        simp only [List.cons_append, List.cons.injEq] at hr1
        exact h2 r2 hc (by rw [hr1.1])
      rw [List.cons_append, splitUnescaped.eq_4 c _ h1 h3, ih hr rest,
        splitUnescaped.eq_4 c _ h1 h2]

/-- The first piece of a text that a `|` follows. -/
theorem splitPipe_append : ∀ (t rest : Str),
    splitPipe (t ++ '|' :: rest)
      = ((splitPipe t).1, some (((splitPipe t).2.map (fun r => r ++ '|' :: rest)).getD rest)) := by
  intro t
  induction t using splitPipe.induct with
  | case1 => intro rest; rfl
  | case2 r => intro rest; rfl
  | case3 c r h1 ih =>
    intro rest
    rw [List.cons_append, splitPipe.eq_3 c _ h1, ih rest, splitPipe.eq_3 c _ h1]

/-- A `|` without a backslash before it separates the tokens before it from those after it. -/
theorem tokenize_append_aux : ∀ (n : Nat) (pre : Str), pre.length ≤ n →
    pre.getLast? ≠ some '\\' → ∀ (rest : Str),
    tokenize (pre ++ '|' :: rest) = tokenize pre ++ tokenize rest := by
  intro n
  induction n with
  | zero =>
    intro pre hn _ rest
    have : pre = [] := List.eq_nil_of_length_eq_zero (by omega)
    subst this
    rw [List.nil_append, tokenize_plain_more ('|' :: rest) rest rfl rfl, tokenize_plain_last [] rfl rfl]
    rfl
  | succ n ih =>
    intro pre hn hl rest
    cases hq : quotedBody (splitUnescaped pre).1 with
    | some body =>
      have hq2 : quotedBody (splitUnescaped (pre ++ '|' :: rest)).1 = some body := by
        rw [splitUnescaped_append pre hl rest]; exact hq
      cases hr : (splitUnescaped pre).2 with
      | none =>
        rw [tokenize_quoted_last pre body hq hr,
          tokenize_quoted_more (pre ++ '|' :: rest) body rest hq2
            (by rw [splitUnescaped_append pre hl rest, hr]; rfl)]
        rfl
      | some r =>
        obtain ⟨a, ha⟩ := splitUnescaped_split pre r hr
        have hlen : r.length ≤ n := by
          have : pre.length = a.length + (r.length + 1) := by rw [ha]; simp
          omega
        rw [tokenize_quoted_more pre body r hq hr,
          tokenize_quoted_more (pre ++ '|' :: rest) body (r ++ '|' :: rest) hq2
            (by rw [splitUnescaped_append pre hl rest, hr]; rfl),
          ih r hlen (getLast_of_split pre a r _ ha hl) rest]
        rfl
    | none =>
      have hq2 : quotedBody (splitUnescaped (pre ++ '|' :: rest)).1 = none := by
        rw [splitUnescaped_append pre hl rest]; exact hq
      have hp1 : (splitPipe (pre ++ '|' :: rest)).1 = (splitPipe pre).1 := by
        rw [splitPipe_append]
      cases hr : (splitPipe pre).2 with
      | none =>
        rw [tokenize_plain_last pre hq hr,
          tokenize_plain_more (pre ++ '|' :: rest) rest hq2
            (by rw [splitPipe_append, hr]; rfl), hp1]
        rfl
      | some r =>
        obtain ⟨a, ha⟩ := splitPipe_split pre r hr
        have hlen : r.length ≤ n := by
          have : pre.length = a.length + (r.length + 1) := by rw [ha]; simp
          omega
        rw [tokenize_plain_more pre r hq hr,
          tokenize_plain_more (pre ++ '|' :: rest) (r ++ '|' :: rest) hq2
            (by rw [splitPipe_append, hr]; rfl),
          ih r hlen (getLast_of_split pre a r _ ha hl) rest, hp1]
        rfl

/-- Claim C23.  A token that begins with a double quote at a token boundary (the start
of the frame, or after a `|` that has no backslash before it) and ends with a double
quote at the next token boundary (the end of the frame, or before a `|`), and whose
body has every `|` in the escaped form backslash-pipe: `tokenize` gives for it the
body without the enclosing quotes and with every backslash-pipe replaced by `|`, and
the tokens before and after it are those of the text before and of the text after,
tokenized on their own. -/
theorem tokenize_quoted_token (pre body post : Str)
    (hbody : escapedOnly body = true) (hpre : pre.getLast? ≠ some '\\') :
    tokenize ('"' :: (body ++ ['"'])) = [unescape body] ∧
    tokenize ('"' :: (body ++ '"' :: '|' :: post)) = unescape body :: tokenize post ∧
    tokenize (pre ++ '|' :: '"' :: (body ++ ['"'])) = tokenize pre ++ [unescape body] ∧
    tokenize (pre ++ '|' :: '"' :: (body ++ '"' :: '|' :: post))
      = tokenize pre ++ unescape body :: tokenize post := by
  have h1 : tokenize ('"' :: (body ++ ['"'])) = [unescape body] := by
    apply tokenize_quoted_last
    · rw [splitUnescaped_quote, splitUnescaped_escapedOnly body hbody []]
      exact quotedBody_quoted body
    · rw [splitUnescaped_quote, splitUnescaped_escapedOnly body hbody []]
      rfl
  have h2 : tokenize ('"' :: (body ++ '"' :: '|' :: post)) = unescape body :: tokenize post := by
    apply tokenize_quoted_more
    · rw [splitUnescaped_quote, splitUnescaped_escapedOnly body hbody ('|' :: post)]
      exact quotedBody_quoted body
    · rw [splitUnescaped_quote, splitUnescaped_escapedOnly body hbody ('|' :: post)]
      rfl
  refine ⟨h1, h2, ?_, ?_⟩
  · rw [tokenize_append_aux pre.length pre (Nat.le_refl _) hpre, h1]
  · rw [tokenize_append_aux pre.length pre (Nat.le_refl _) hpre, h2]

/-- Witness of C23: the frame `y|"a\|b\|c"|z` gives the tokens `y`, `a|b|c`, `z`. -/
theorem tokenize_quoted_token_witness :
    tokenize "y|\"a\\|b\\|c\"|z".toList = ["y".toList, "a|b|c".toList, "z".toList] :=
  (tokenize_quoted_token "y".toList "a\\|b\\|c".toList "z".toList
    (by decide) (by decide)).2.2.2.trans (by decide)

end ShdrTokenizer

end adapter

end mtconnect
